import Mathlib

/-!
# A shallow embedding of `raw_memory::RawMemory` and `vector::Vector`

The C++ sources (`src/include/raw_memory.h`, `src/include/vector.h`) manage raw
storage by hand, so the embedding keeps the free store explicit.

* A *block* is what `operator new` hands out: a row of slots, each slot either
  holding a live object (`some x`) or no object (`none`: never constructed,
  or already destroyed).
* The *heap* is the list of blocks handed out so far; a released block is
  `none`.  Address `0` is the null pointer; address `a + 1` is entry `a`.
* A pointer is a block address together with a slot offset.
* Every member function takes the heap and the object (`self`) and returns
  the new heap, the new object and the returned value, or an error:
  `out_of_range` for the C++ exception of that name, `assertion` for a failed
  `assert`, `undefined` for an access the C++ abstract machine gives no
  meaning to (a slot outside its block, an object that is not alive, a block
  that was released).

Iterators and references are pointers (`Ptr`).  A value built from
constructor arguments (`Type(args...)`) is passed as the value itself: in
every path of the source it is built before the first write to the storage.

`size_t` is embedded as `Nat`.  The counters `size_` and `capacity_` count
slots of a block that exists in the heap, so `++size_` and `size_ * 2` are
taken without wrap-around; `size_ - 1` and `--size_`, which the source also
evaluates on an empty vector, wrap as they do on a 64-bit `size_t`.  A count
that the caller chooses (`Reserve(n)`, `Resize(n)`, `Vector(n)`,
`Vector(n, value)`, `Vector(Reserve(n))`) reaches `operator new` as the byte
count `n * sizeof(Type)`, a `size_t` product that nothing in the source
checks.  The functions above take the block to have room for `n` elements,
which is what happens when the byte count is below `2 ^ 64`; the namespace
`sized` embeds these five functions with the product taken modulo `2 ^ 64`,
for every `n`, and the two embeddings agree below that bound.

The initializer-list constructor fills a fresh block by assignment
(`std::copy`).  Whether an assignment to storage in which no constructor ran
is defined depends on the element type, so that constructor takes
`is_implicit_lifetime` (see `Heap.assign`).

The functions above are runs in which nothing throws but `At`.  The namespace
`exc` embeds the growing member functions a second time, for runs in which
`operator new` may throw `std::bad_alloc` and the copy constructor of the
element type may throw: a run then ends by returning, or with an exception
together with the heap and the vector object it leaves behind, after the
destructors of the local objects ran.  Which requests fail is a parameter
(`exc.Faults`); when none fails the two embeddings agree.  In that namespace
`PushBack`, `Insert`, `EmplaceBack` and `Emplace` take, in place of the value
of the new element, how it is constructed (`exc.Arg`): copied from an object,
which may throw, or built in a way that does not throw.

The repository has a second, single-file variant of the two classes
(`src/advanced-vector/vector.h`).  Its member functions are embedded in the
namespace `advanced_vector`, over the same records, and the namespace
`variants` runs programs written against the interface both variants share
with the member functions of either.
-/

namespace cpp

/-- What can go wrong while running the embedded code. -/
inductive Exn where
  | out_of_range
  | assertion
  | undefined
deriving DecidableEq

/-- A block of raw storage: one slot per element. -/
abbrev Block (α : Type) := List (Option α)

/-- A `Type*`: the address of a block and an offset in slots. -/
structure Ptr where
  base : Nat
  off : Nat
deriving DecidableEq

/-- The null pointer. -/
def nullptr : Ptr := ⟨0, 0⟩

/-- Pointer plus integer. -/
def Ptr.add (p : Ptr) (k : Nat) : Ptr := ⟨p.base, p.off + k⟩

/-- Pointer minus integer. -/
def Ptr.sub (p : Ptr) (k : Nat) : Ptr := ⟨p.base, p.off - k⟩

/-- The free store. -/
structure Heap (α : Type) where
  blocks : List (Option (Block α))
deriving DecidableEq

/-- The block at address `a`; the null pointer designates an empty range. -/
def Heap.load {α : Type} (h : Heap α) (a : Nat) : Except Exn (Block α) :=
  if a = 0 then .ok []
  else
    match h.blocks[a - 1]? with
    | some (some b) => .ok b
    | _ => .error .undefined

/-- Replace the block at address `a`. -/
def Heap.store {α : Type} (h : Heap α) (a : Nat) (b : Block α) : Heap α :=
  if a = 0 then h else ⟨h.blocks.set (a - 1) (some b)⟩

/-- Reading `*p`. -/
def Heap.read {α : Type} (h : Heap α) (p : Ptr) : Except Exn α := do
  let b ← h.load p.base
  match b[p.off]? with
  | some (some x) => .ok x
  | _ => .error .undefined

/-- Placement new, `new (p) Type(x)`. -/
def Heap.construct_at {α : Type} (h : Heap α) (p : Ptr) (x : α) : Except Exn (Heap α) := do
  let b ← h.load p.base
  if p.off < b.length then .ok (h.store p.base (b.set p.off (some x)))
  else .error .undefined

/-- Overwriting the value of the live object `*p`. -/
def Heap.write {α : Type} (h : Heap α) (p : Ptr) (x : α) : Except Exn (Heap α) := do
  let b ← h.load p.base
  match b[p.off]? with
  | some (some _) => .ok (h.store p.base (b.set p.off (some x)))
  | _ => .error .undefined

/-- The assignment `*p = x` through a pointer into a block that `operator new`
has just returned.  `is_implicit_lifetime` says whether the element type is
an implicit-lifetime type, all its parts included, with a trivial copy
assignment (a scalar such as `int`, an array or a class made of scalars).
For such a type the allocation itself creates the objects the program goes on
to use, so the assignment is defined on every slot of the block and gives the
slot the value `x`.  For an element type whose objects only a constructor
call brings to life (such as `std::string`) the assignment needs an object
that a constructor made. -/
def Heap.assign {α : Type} (is_implicit_lifetime : Bool) (h : Heap α) (p : Ptr) (x : α) :
    Except Exn (Heap α) := do
  let b ← h.load p.base
  match b[p.off]? with
  | some (some _) => .ok (h.store p.base (b.set p.off (some x)))
  | some none =>
    if is_implicit_lifetime then .ok (h.store p.base (b.set p.off (some x)))
    else .error .undefined
  | none => .error .undefined

/-- Running the destructor of `*p`, `std::destroy_at(p)`. -/
def Heap.destroy_at {α : Type} (h : Heap α) (p : Ptr) : Except Exn (Heap α) := do
  let b ← h.load p.base
  match b[p.off]? with
  | some (some _) => .ok (h.store p.base (b.set p.off none))
  | _ => .error .undefined

/-- What the algorithms need to know about the element type `Type`. -/
structure TypeTraits (α : Type) where
  /-- `std::is_nothrow_move_constructible_v<Type>` -/
  is_nothrow_move_constructible : Bool
  /-- `std::is_copy_constructible_v<Type>` -/
  is_copy_constructible : Bool
  /-- the value of `Type()` -/
  value_init : α
  /-- the value left in `x` by `Type(std::move(x))` -/
  moved_from : α → α
  /-- the value left in `x` by `y = std::move(x)`, given the old `y` and `x` -/
  move_assigned_from : α → α → α

end cpp

namespace std
open cpp

/-- Copy assignment `*dst = *src`. -/
def copy_assign {α : Type} (h : Heap α) (dst src : Ptr) : Except Exn (Heap α) := do
  let x ← h.read src
  h.write dst x

/-- Move assignment `*dst = std::move(*src)`. -/
def move_assign {α : Type} (T : TypeTraits α) (h : Heap α) (dst src : Ptr) :
    Except Exn (Heap α) := do
  let x ← h.read src
  let y ← h.read dst
  let h ← h.write dst x
  h.write src (T.move_assigned_from y x)

/-- Move construction `new (dst) Type(std::move(*src))`. -/
def move_construct {α : Type} (T : TypeTraits α) (h : Heap α) (dst src : Ptr) :
    Except Exn (Heap α) := do
  let x ← h.read src
  let h ← h.construct_at dst x
  h.write src (T.moved_from x)

/-- The algorithm `std::destroy_n(first, n)`. -/
def destroy_n {α : Type} : Nat → Heap α → Ptr → Except Exn (Heap α)
  | 0, h, _ => .ok h
  | n + 1, h, first => do
    let h ← h.destroy_at first
    destroy_n n h (first.add 1)

/-- The algorithm `std::uninitialized_value_construct_n(first, n)`. -/
def uninitialized_value_construct_n {α : Type} (T : TypeTraits α) :
    Nat → Heap α → Ptr → Except Exn (Heap α)
  | 0, h, _ => .ok h
  | n + 1, h, first => do
    let h ← h.construct_at first T.value_init
    uninitialized_value_construct_n T n h (first.add 1)

/-- The algorithm `std::uninitialized_copy_n(first, n, d_first)`. -/
def uninitialized_copy_n {α : Type} : Nat → Heap α → Ptr → Ptr → Except Exn (Heap α)
  | 0, h, _, _ => .ok h
  | n + 1, h, first, d_first => do
    let x ← h.read first
    let h ← h.construct_at d_first x
    uninitialized_copy_n n h (first.add 1) (d_first.add 1)

/-- The algorithm `std::uninitialized_move_n(first, n, d_first)`. -/
def uninitialized_move_n {α : Type} (T : TypeTraits α) :
    Nat → Heap α → Ptr → Ptr → Except Exn (Heap α)
  | 0, h, _, _ => .ok h
  | n + 1, h, first, d_first => do
    let h ← move_construct T h d_first first
    uninitialized_move_n T n h (first.add 1) (d_first.add 1)

/-- The loop of `std::copy`: `n` assignments `*d_first++ = *first++`. -/
def copy_loop {α : Type} : Nat → Heap α → Ptr → Ptr → Except Exn (Heap α)
  | 0, h, _, _ => .ok h
  | n + 1, h, first, d_first => do
    let h ← copy_assign h d_first first
    copy_loop n h (first.add 1) (d_first.add 1)

/-- The loop of `std::move`: `n` assignments `*d_first++ = std::move(*first++)`. -/
def move_loop {α : Type} (T : TypeTraits α) :
    Nat → Heap α → Ptr → Ptr → Except Exn (Heap α)
  | 0, h, _, _ => .ok h
  | n + 1, h, first, d_first => do
    let h ← move_assign T h d_first first
    move_loop T n h (first.add 1) (d_first.add 1)

/-- The loop of `std::move_backward`: `n` assignments
`*(--d_last) = std::move(*(--last))`, where `last = first + n`. -/
def move_backward_loop {α : Type} (T : TypeTraits α) :
    Nat → Heap α → Ptr → Ptr → Except Exn (Heap α)
  | 0, h, _, _ => .ok h
  | n + 1, h, first, d_last => do
    let h ← move_assign T h (d_last.sub 1) (first.add n)
    move_backward_loop T n h first (d_last.sub 1)

/-- The distance `last - first` of a range `[first, last)`; a pair of pointers
that is not a range has none. -/
def distance (first last : Ptr) : Except Exn Nat :=
  if first.base = last.base ∧ first.off ≤ last.off then .ok (last.off - first.off)
  else .error .undefined

/-- The algorithm `std::copy(first, last, d_first)`. -/
def copy {α : Type} (h : Heap α) (first last d_first : Ptr) : Except Exn (Heap α) := do
  let n ← distance first last
  copy_loop n h first d_first

/-- The algorithm `std::move(first, last, d_first)`. -/
def move {α : Type} (T : TypeTraits α) (h : Heap α) (first last d_first : Ptr) :
    Except Exn (Heap α) := do
  let n ← distance first last
  move_loop T n h first d_first

/-- The loop of `std::lexicographical_compare` on two ranges of `n1` and `n2`
elements, with `lt` the `operator<` of the element type. -/
def lexicographical_compare_loop {α : Type} (lt : α → α → Bool) (h : Heap α) :
    Nat → Nat → Ptr → Ptr → Except Exn Bool
  | 0, n2, _, _ => .ok (n2 != 0)
  | _ + 1, 0, _, _ => .ok false
  | n1 + 1, n2 + 1, first1, first2 => do
    let x ← h.read first1
    let y ← h.read first2
    if lt x y then .ok true
    else if lt y x then .ok false
    else lexicographical_compare_loop lt h n1 n2 (first1.add 1) (first2.add 1)

/-- The algorithm `std::lexicographical_compare(first1, last1, first2, last2)`. -/
def lexicographical_compare {α : Type} (lt : α → α → Bool) (h : Heap α)
    (first1 last1 first2 last2 : Ptr) : Except Exn Bool := do
  let n1 ← distance first1 last1
  let n2 ← distance first2 last2
  lexicographical_compare_loop lt h n1 n2 first1 first2

/-- The algorithm `std::move_backward(first, last, d_last)`. -/
def move_backward {α : Type} (T : TypeTraits α) (h : Heap α) (first last d_last : Ptr) :
    Except Exn (Heap α) := do
  let n ← distance first last
  if n ≤ d_last.off then move_backward_loop T n h first d_last
  else .error .undefined

end std

namespace cpp

/-- The allocation function `operator new`, asked for room for `n` elements:
a fresh block of `n` slots holding no object.  The request is always met
here; a run in which the allocator refuses is not a run of this function. -/
def operator_new {α : Type} (h : Heap α) (n : Nat) : Heap α × Ptr :=
  (⟨h.blocks ++ [some (List.replicate n none)]⟩, ⟨h.blocks.length + 1, 0⟩)

/-- The deallocation function `operator delete(p)`: nothing for the null
pointer, otherwise `p` must be the start of a block that is still allocated. -/
def operator_delete {α : Type} (h : Heap α) (p : Ptr) : Except Exn (Heap α) :=
  if p.base = 0 then .ok h
  else
    match h.blocks[p.base - 1]? with
    | some (some _) =>
      if p.off = 0 then .ok ⟨h.blocks.set (p.base - 1) none⟩ else .error .undefined
    | _ => .error .undefined

/-- The value of `n - 1` in `size_t` arithmetic. -/
def size_t_pred (n : Nat) : Nat := if n = 0 then 2 ^ 64 - 1 else n - 1

/-- The comparison `p <= q` of two pointers into one block. -/
def Ptr.le (p q : Ptr) : Bool := p.base = q.base && p.off ≤ q.off

end cpp

namespace raw_memory
open cpp

/-- The class `RawMemory<Type>`: `buffer_` and `capacity_`. -/
structure RawMemory where
  buffer_ : Ptr := nullptr
  capacity_ : Nat := 0
deriving DecidableEq

/-- The static member `Allocate(n)`, for a count `n` whose byte count
`n * sizeof(Type)` fits `size_t`: the block asked for has room for `n`
elements.  The member functions that pass on a count chosen by the caller are
embedded with the byte count as the source computes it in the namespace
`sized`. -/
def RawMemory.Allocate {α : Type} (h : Heap α) (n : Nat) : Heap α × Ptr :=
  if n ≠ 0 then operator_new h n else (h, nullptr)

/-- The static member `Deallocate(buf)`. -/
def RawMemory.Deallocate {α : Type} (h : Heap α) (buf : Ptr) : Except Exn (Heap α) :=
  operator_delete h buf

/-- The constructor `RawMemory(capacity)`. -/
def RawMemory.ctor {α : Type} (h : Heap α) (capacity : Nat) : Heap α × RawMemory :=
  let r := RawMemory.Allocate h capacity
  (r.1, { buffer_ := r.2, capacity_ := capacity })

/-- The destructor `~RawMemory()`. -/
def RawMemory.dtor {α : Type} (h : Heap α) (self : RawMemory) : Except Exn (Heap α) :=
  RawMemory.Deallocate h self.buffer_

/-- The member `operator+(offset)`. -/
def RawMemory.plus (self : RawMemory) (offset : Nat) : Except Exn Ptr :=
  if offset ≤ self.capacity_ then .ok (self.buffer_.add offset) else .error .assertion

/-- The member `operator[](index)`; the reference is given as the address of
the slot. -/
def RawMemory.index (self : RawMemory) (index : Nat) : Except Exn Ptr :=
  if index < self.capacity_ then .ok (self.buffer_.add index) else .error .assertion

/-- The member `Swap(other)`: returns the new `*this` and the new `other`. -/
def RawMemory.Swap (self other : RawMemory) : RawMemory × RawMemory :=
  ({ buffer_ := other.buffer_, capacity_ := other.capacity_ },
   { buffer_ := self.buffer_, capacity_ := self.capacity_ })

/-- The member `GetAddress()`. -/
def RawMemory.GetAddress (self : RawMemory) : Ptr := self.buffer_

/-- The member `Capacity()`. -/
def RawMemory.Capacity (self : RawMemory) : Nat := self.capacity_

end raw_memory

namespace vector
open cpp raw_memory

/-- The class `Vector<Type>`: `data_` and `size_`. -/
structure Vector where
  data_ : RawMemory := {}
  size_ : Nat := 0
deriving DecidableEq

/-- Whether relocation and `Erase` move the elements (`true`) or copy them:
the condition of the `if constexpr` in `Reserve`, `Emplace`, `Erase` and
`EmplaceBack`. -/
def relocates_by_move {α : Type} (T : TypeTraits α) : Bool :=
  T.is_nothrow_move_constructible || !T.is_copy_constructible

/-- The constructor `Vector()`. -/
def Vector.default_ctor : Vector := {}

/-- The constructor `Vector(const Vector& other)`. -/
def Vector.copy_ctor {α : Type} (h : Heap α) (other : Vector) :
    Except Exn (Heap α × Vector) := do
  let r := RawMemory.ctor h other.size_
  let h := r.1
  let data_ := r.2
  let h ← std.uninitialized_copy_n other.size_ h other.data_.GetAddress data_.GetAddress
  pure (h, { data_ := data_, size_ := other.size_ })

/-- The member `begin()`. -/
def Vector.begin (self : Vector) : Ptr := self.data_.GetAddress

/-- The member `end()`. -/
def Vector.end (self : Vector) : Ptr := self.data_.GetAddress.add self.size_

/-- The member `cbegin()`. -/
def Vector.cbegin (self : Vector) : Ptr := self.data_.GetAddress

/-- The member `Size()`. -/
def Vector.Size (self : Vector) : Nat := self.size_

/-- The member `Capacity()`. -/
def Vector.Capacity (self : Vector) : Nat := self.data_.Capacity

/-- The member `At(index)`; the reference is given as the address of the slot. -/
def Vector.At (self : Vector) (index : Nat) : Except Exn Ptr :=
  if index ≥ self.size_ then .error .out_of_range
  else self.data_.index index

/-- The member `operator[](index)`. -/
def Vector.index (self : Vector) (index : Nat) : Except Exn Ptr :=
  if index < self.size_ then self.data_.index index else .error .assertion

/-- The member `Back()`. -/
def Vector.Back (self : Vector) : Except Exn Ptr :=
  self.data_.index (size_t_pred self.size_)

/-- The member `Reserve(new_capacity)`. -/
def Vector.Reserve {α : Type} (T : TypeTraits α) (h : Heap α) (self : Vector)
    (new_capacity : Nat) : Except Exn (Heap α × Vector) :=
  if new_capacity > self.Capacity then do
    let r := RawMemory.ctor h new_capacity
    let h := r.1
    let new_data_ := r.2
    let h ←
      if relocates_by_move T then
        std.uninitialized_move_n T self.size_ h self.data_.GetAddress new_data_.GetAddress
      else
        std.uninitialized_copy_n self.size_ h self.data_.GetAddress new_data_.GetAddress
    let h ← std.destroy_n self.size_ h self.data_.GetAddress
    let sw := self.data_.Swap new_data_
    let h ← RawMemory.dtor h sw.2
    pure (h, { self with data_ := sw.1 })
  else pure (h, self)

/-- The member `Emplace(pos, args...)`; `x` is the value `Type(args...)`. -/
def Vector.Emplace {α : Type} (T : TypeTraits α) (h : Heap α) (self : Vector)
    (pos : Ptr) (x : α) : Except Exn (Heap α × Vector × Ptr) :=
  if self.begin.le pos && pos.le self.end then do
    let index_pos := pos.off - self.cbegin.off
    if self.size_ = self.Capacity then do
      let r := RawMemory.ctor h (if self.size_ = 0 then 1 else self.size_ * 2)
      let h := r.1
      let new_data_ := r.2
      let p ← new_data_.plus index_pos
      let h ← h.construct_at p x
      let h ←
        if relocates_by_move T then do
          let s0 ← self.data_.plus 0
          let d0 ← new_data_.plus 0
          let h ← std.uninitialized_move_n T index_pos h s0 d0
          let s1 ← self.data_.plus index_pos
          let d1 ← new_data_.plus index_pos
          std.uninitialized_move_n T (self.size_ - index_pos) h s1 (d1.add 1)
        else do
          let s0 ← self.data_.plus 0
          let d0 ← new_data_.plus 0
          let h ← std.uninitialized_copy_n index_pos h s0 d0
          let s1 ← self.data_.plus index_pos
          let d1 ← new_data_.plus index_pos
          std.uninitialized_copy_n (self.size_ - index_pos) h s1 (d1.add 1)
      let h ← std.destroy_n self.size_ h self.data_.GetAddress
      let sw := self.data_.Swap new_data_
      let h ← RawMemory.dtor h sw.2
      pure (h, { data_ := sw.1, size_ := self.size_ + 1 }, sw.1.GetAddress.add index_pos)
    else do
      let h ←
        if pos = self.end then do
          let p ← self.data_.plus self.size_
          h.construct_at p x
        else do
          let tmp := x
          let p ← self.data_.plus self.size_
          let back ← self.Back
          let h ← std.move_construct T h p back
          let first ← self.data_.plus index_pos
          let h ← std.move_backward T h first (self.end.sub 1) self.end
          let q ← self.data_.index index_pos
          h.write q tmp
      pure (h, { self with size_ := self.size_ + 1 }, self.data_.GetAddress.add index_pos)
  else .error .assertion

/-- The member `Insert(pos, value)`, both overloads. -/
def Vector.Insert {α : Type} (T : TypeTraits α) (h : Heap α) (self : Vector)
    (pos : Ptr) (value : α) : Except Exn (Heap α × Vector × Ptr) :=
  self.Emplace T h pos value

/-- The member `Erase(pos)`. -/
def Vector.Erase {α : Type} (T : TypeTraits α) (h : Heap α) (self : Vector)
    (pos : Ptr) : Except Exn (Heap α × Vector × Ptr) :=
  if self.begin.le pos && pos.le self.end then do
    let index_pos := pos.off - self.cbegin.off
    let new_pos := self.begin.add index_pos
    let h ←
      if relocates_by_move T then std.move T h (new_pos.add 1) self.end new_pos
      else std.copy h (new_pos.add 1) self.end new_pos
    let h ← std.destroy_n 1 h (self.end.sub 1)
    pure (h, { self with size_ := size_t_pred self.size_ }, new_pos)
  else .error .assertion

/-- The member `EmplaceBack(args...)`; `x` is the value `Type(args...)`. -/
def Vector.EmplaceBack {α : Type} (T : TypeTraits α) (h : Heap α) (self : Vector)
    (x : α) : Except Exn (Heap α × Vector × Ptr) := do
  let r ←
    if self.size_ = self.Capacity then do
      let r := RawMemory.ctor h (if self.size_ = 0 then 1 else self.size_ * 2)
      let h := r.1
      let new_data_ := r.2
      let p ← new_data_.plus self.size_
      let h ← h.construct_at p x
      let h ←
        if relocates_by_move T then
          std.uninitialized_move_n T self.size_ h self.data_.GetAddress new_data_.GetAddress
        else
          std.uninitialized_copy_n self.size_ h self.data_.GetAddress new_data_.GetAddress
      let h ← std.destroy_n self.size_ h self.data_.GetAddress
      let sw := self.data_.Swap new_data_
      let h ← RawMemory.dtor h sw.2
      pure (h, { self with data_ := sw.1 })
    else do
      let h ← h.construct_at self.end x
      pure (h, self)
  let h := r.1
  let self : Vector := { r.2 with size_ := r.2.size_ + 1 }
  let back ← self.Back
  pure (h, self, back)

/-- The member `PushBack(value)`, both overloads. -/
def Vector.PushBack {α : Type} (T : TypeTraits α) (h : Heap α) (self : Vector)
    (value : α) : Except Exn (Heap α × Vector) := do
  let r ← self.EmplaceBack T h value
  pure (r.1, r.2.1)

/-- The member `PopBack()`. -/
def Vector.PopBack {α : Type} (h : Heap α) (self : Vector) :
    Except Exn (Heap α × Vector) := do
  let h ← std.destroy_n 1 h self.data_.GetAddress
  pure (h, { self with size_ := size_t_pred self.size_ })

/-- The member `Resize(new_size)`. -/
def Vector.Resize {α : Type} (T : TypeTraits α) (h : Heap α) (self : Vector)
    (new_size : Nat) : Except Exn (Heap α × Vector) := do
  let h ←
    if new_size < self.size_ then
      std.destroy_n (self.size_ - new_size) h (self.data_.GetAddress.add new_size)
    else pure h
  let r ←
    if new_size > self.size_ then do
      let r ← self.Reserve T h new_size
      let h ← std.uninitialized_value_construct_n T (new_size - self.size_) r.1
        (r.2.data_.GetAddress.add r.2.size_)
      pure (h, r.2)
    else pure (h, self)
  pure (r.1, { r.2 with size_ := new_size })

/-- The operator `lhs < rhs`; `lt` is the `operator<` of the element type. -/
def operator_lt {α : Type} (lt : α → α → Bool) (h : Heap α) (lhs rhs : Vector) :
    Except Exn Bool :=
  std.lexicographical_compare lt h lhs.begin lhs.end rhs.begin rhs.end

/-- The operator `lhs == rhs`. -/
def operator_eq {α : Type} (lt : α → α → Bool) (h : Heap α) (lhs rhs : Vector) :
    Except Exn Bool := do
  let a ← operator_lt lt h lhs rhs
  if a then pure (!true)
  else do
    let b ← operator_lt lt h rhs lhs
    pure (!b)

/-- A run of `PushBack` calls, one for each value of the list, in order. -/
def Vector.PushBackAll {α : Type} (T : TypeTraits α) :
    List α → Heap α → Vector → Except Exn (Heap α × Vector)
  | [], h, self => .ok (h, self)
  | x :: xs, h, self => do
    let r ← self.PushBack T h x
    Vector.PushBackAll T xs r.1 r.2

/-- A mutating call on a vector, as a caller writes it: `PushBack(x)`,
`Insert(begin() + i, x)`, `Erase(begin() + i)`, `Resize(n)` and the element
assignment `v[i] = x`. -/
inductive Mutation (α : Type) where
  | push_back (x : α)
  | insert (i : Nat) (x : α)
  | erase (i : Nat)
  | resize (n : Nat)
  | assign (i : Nat) (x : α)

/-- Running one mutating call. -/
def Mutation.run {α : Type} (T : TypeTraits α) (h : Heap α) (self : Vector) :
    Mutation α → Except Exn (Heap α × Vector)
  | .push_back x => self.PushBack T h x
  | .insert i x => do
    let r ← self.Insert T h (self.begin.add i) x
    pure (r.1, r.2.1)
  | .erase i => do
    let r ← self.Erase T h (self.begin.add i)
    pure (r.1, r.2.1)
  | .resize n => self.Resize T h n
  | .assign i x => do
    let p ← self.index i
    let h ← h.write p x
    pure (h, self)

/-- Running a sequence of mutating calls, in order. -/
def Mutation.runs {α : Type} (T : TypeTraits α) :
    List (Mutation α) → Heap α → Vector → Except Exn (Heap α × Vector)
  | [], h, self => .ok (h, self)
  | m :: ms, h, self => do
    let r ← m.run T h self
    Mutation.runs T ms r.1 r.2

/-- The documented precondition of a mutating call on a vector of length `n`. -/
def Mutation.pre {α : Type} (n : Nat) : Mutation α → Prop
  | .push_back _ => True
  | .insert i _ => i ≤ n
  | .erase i => i < n
  | .resize _ => True
  | .assign i _ => i < n

/-- The elements after a mutating call on a vector that holds `s`. -/
def Mutation.apply {α : Type} (T : TypeTraits α) (s : List α) : Mutation α → List α
  | .push_back x => s ++ [x]
  | .insert i x => s.take i ++ x :: s.drop i
  | .erase i => s.take i ++ s.drop (i + 1)
  | .resize n => s.take n ++ List.replicate (n - s.length) T.value_init
  | .assign i x => s.set i x

end vector

namespace cpp

/-- The heap with the block at address `a` released (nothing for the null
pointer). -/
def Heap.release {α : Type} (h : Heap α) (a : Nat) : Heap α :=
  if a = 0 then h else ⟨h.blocks.set (a - 1) none⟩

/-- The heap with one more block, `b`, at the next address. -/
def Heap.push {α : Type} (h : Heap α) (b : Block α) : Heap α :=
  ⟨h.blocks ++ [some b]⟩

/-- The address the next block gets. -/
def Heap.next {α : Type} (h : Heap α) : Nat := h.blocks.length + 1

/-- Every block of `h` other than the one at address `a` is found unchanged
in `h'`. -/
def Heap.frame {α : Type} (h h' : Heap α) (a : Nat) : Prop :=
  ∀ q b, q ≠ a → h.load q = .ok b → h'.load q = .ok b

end cpp

namespace vector
open cpp raw_memory

/-- The contents of the block of a vector that holds the elements `s` in a
block of `c` slots: the elements, alive, in order, then slots with no object. -/
def layout {α : Type} (s : List α) (c : Nat) : Block α :=
  s.map some ++ List.replicate (c - s.length) none

/-- The representation invariant: in the heap `h` the vector `self` holds
exactly the elements `s`.  Its length is the length of `s`, which is at most
its capacity; its buffer is the null pointer when the capacity is `0` and
otherwise the start of a block of `capacity_` slots, of which the first
`size_` hold the elements of `s` and the others hold no object. -/
def Vector.Holds {α : Type} (h : Heap α) (self : Vector) (s : List α) : Prop :=
  self.size_ = s.length ∧ s.length ≤ self.data_.capacity_ ∧
  self.data_.buffer_.off = 0 ∧
  (self.data_.capacity_ = 0 → self.data_.buffer_.base = 0) ∧
  h.load self.data_.buffer_.base = .ok (layout s self.data_.capacity_)

/-- What a member function that was run on `v` in the heap `h` leaves behind:
the vector `v'` holds `s'` in the heap `h'`, no block of `h` other than the
buffer of `v` was touched, and the buffer of `v'` is that of `v` or a block
that did not exist in `h`. -/
structure Effect {α : Type} (h : Heap α) (v : Vector) (h' : Heap α) (v' : Vector)
    (s' : List α) : Prop where
  holds : v'.Holds h' s'
  frame : h.frame h' v.data_.buffer_.base
  base : v'.data_.buffer_.base = v.data_.buffer_.base ∨ v'.data_.buffer_.base = h.next

end vector

namespace std
open cpp

end std

namespace raw_memory
open cpp

/-- The constructor `RawMemory(RawMemory&& other)`: the new object and what
is left of `other`. -/
def RawMemory.move_ctor (other : RawMemory) : RawMemory × RawMemory :=
  ({ buffer_ := other.buffer_, capacity_ := other.capacity_ },
   { buffer_ := nullptr, capacity_ := 0 })

/-- The operator `*this = std::move(rhs)`; `rhs` is `none` when it is `*this`
itself (`this == &rhs`).  Returns the new `*this` and what is left of `rhs`. -/
def RawMemory.move_assign (self : RawMemory) (rhs : Option RawMemory) :
    RawMemory × Option RawMemory :=
  match rhs with
  | none => (self, none)
  | some rhs =>
    ({ buffer_ := rhs.buffer_, capacity_ := rhs.capacity_ },
     some { buffer_ := nullptr, capacity_ := 0 })

end raw_memory

namespace std
open cpp raw_memory

/-- The template `std::swap(a, b)` at `RawMemory`, for two objects:
`RawMemory tmp(std::move(a)); a = std::move(b); b = std::move(tmp);` and the
destructor of `tmp`. -/
def swap {α : Type} (h : Heap α) (a b : RawMemory) :
    Except Exn (Heap α × RawMemory × RawMemory) := do
  let r := RawMemory.move_ctor a
  let tmp := r.1
  let a := r.2
  let r := a.move_assign (some b)
  let a := r.1
  let b := r.2.getD b
  let r := b.move_assign (some tmp)
  let b := r.1
  let tmp := r.2.getD tmp
  let h ← RawMemory.dtor h tmp
  pure (h, a, b)

/-- The template `std::swap(a, a)` at `RawMemory`, both arguments one object. -/
def swap_self {α : Type} (h : Heap α) (a : RawMemory) :
    Except Exn (Heap α × RawMemory) := do
  let r := RawMemory.move_ctor a
  let tmp := r.1
  let a := r.2
  let r := a.move_assign none
  let a := r.1
  let r := a.move_assign (some tmp)
  let a := r.1
  let tmp := r.2.getD tmp
  let h ← RawMemory.dtor h tmp
  pure (h, a)

end std

namespace vector
open cpp raw_memory

/-- The class `ReserveProxyObj`. -/
structure ReserveProxyObj where
  capacity_ : Nat

/-- The member `ReserveProxyObj::Capacity()`. -/
def ReserveProxyObj.Capacity (self : ReserveProxyObj) : Nat := self.capacity_

/-- The function `Reserve(capacity_to_reserve)`. -/
def Reserve (capacity_to_reserve : Nat) : ReserveProxyObj := ⟨capacity_to_reserve⟩

/-- The constructor `Vector(size_t size)`. -/
def Vector.size_ctor {α : Type} (T : TypeTraits α) (h : Heap α) (size : Nat) :
    Except Exn (Heap α × Vector) := do
  let r := RawMemory.ctor h size
  let self : Vector := { data_ := r.2, size_ := size }
  let h ← std.uninitialized_value_construct_n T size r.1 self.data_.GetAddress
  pure (h, self)

/-- The constructor `Vector(Vector&& other)`: the new vector and what is left
of `other`. -/
def Vector.move_ctor (other : Vector) : Vector × Vector :=
  let r := ({} : RawMemory).move_assign (some other.data_)
  ({ data_ := r.1, size_ := other.size_ },
   { data_ := r.2.getD other.data_, size_ := 0 })

/-- The destructor `~Vector()`, followed by the destructor of the member
`data_`. -/
def Vector.dtor {α : Type} (h : Heap α) (self : Vector) : Except Exn (Heap α) := do
  let h ← std.destroy_n self.size_ h self.data_.GetAddress
  RawMemory.dtor h self.data_

/-- The member `Swap(other)`; `other` is `none` when it is `*this` itself.
Returns the new `*this` and the new `other`. -/
def Vector.Swap {α : Type} (h : Heap α) (self : Vector) (other : Option Vector) :
    Except Exn (Heap α × Vector × Option Vector) :=
  match other with
  | none => do
    let r ← std.swap_self h self.data_
    pure (r.1, { data_ := r.2, size_ := self.size_ }, none)
  | some other => do
    let r ← std.swap h self.data_ other.data_
    pure (r.1, { data_ := r.2.1, size_ := other.size_ },
      some { data_ := r.2.2, size_ := self.size_ })

/-- The loop of the copy assignment: `data_[i] = rhs.data_[i]` for the `n`
indices from `i` on. -/
def Vector.assign_loop {α : Type} (self rhs : Vector) :
    Nat → Nat → Heap α → Except Exn (Heap α)
  | 0, _, h => .ok h
  | n + 1, i, h => do
    let src ← rhs.data_.index i
    let dst ← self.data_.index i
    let h ← std.copy_assign h dst src
    Vector.assign_loop self rhs n (i + 1) h

/-- The operator `*this = rhs` (copy); `rhs` is `none` when it is `*this`
itself (`this == &rhs`). -/
def Vector.copy_assign {α : Type} (h : Heap α) (self : Vector) (rhs : Option Vector) :
    Except Exn (Heap α × Vector) :=
  match rhs with
  | none => pure (h, self)
  | some rhs =>
    if rhs.size_ > self.Capacity then do
      let r ← Vector.copy_ctor h rhs
      let new_vector := r.2
      let r ← self.Swap r.1 (some new_vector)
      let self := r.2.1
      let new_vector := r.2.2.getD new_vector
      let h ← Vector.dtor r.1 new_vector
      pure (h, self)
    else do
      let size := min rhs.size_ self.size_
      let h ← Vector.assign_loop self rhs size 0 h
      let h ←
        if rhs.size_ > self.size_ then
          std.uninitialized_copy_n (rhs.size_ - self.size_) h
            (rhs.data_.GetAddress.add self.size_) (self.data_.GetAddress.add self.size_)
        else
          std.destroy_n (self.size_ - rhs.size_) h (self.data_.GetAddress.add rhs.size_)
      pure (h, { self with size_ := rhs.size_ })

/-- What the specification compares the copy assignment with: copy-construct
a vector from `rhs`, swap it with `*this`, and let the destructor of the copy
(now the old `*this`) run, whatever the lengths and the capacity are. -/
def Vector.copy_and_swap {α : Type} (h : Heap α) (self rhs : Vector) :
    Except Exn (Heap α × Vector) := do
  let r ← Vector.copy_ctor h rhs
  let new_vector := r.2
  let r ← self.Swap r.1 (some new_vector)
  let self := r.2.1
  let new_vector := r.2.2.getD new_vector
  let h ← Vector.dtor r.1 new_vector
  pure (h, self)

/-- The operator `*this = std::move(rhs)`; `rhs` is `none` when it is `*this`
itself.  Returns the new `*this` and what is left of `rhs`. -/
def Vector.move_assign (self : Vector) (rhs : Option Vector) : Vector × Option Vector :=
  match rhs with
  | none => (self, none)
  | some rhs =>
    let r := self.data_.move_assign (some rhs.data_)
    ({ data_ := r.1, size_ := rhs.size_ },
     some { data_ := r.2.getD rhs.data_, size_ := 0 })

/-- The member `Clear()`. -/
def Vector.Clear {α : Type} (h : Heap α) (self : Vector) : Except Exn (Heap α × Vector) := do
  let h ← std.destroy_n self.size_ h self.data_.GetAddress
  pure (h, { self with size_ := 0 })

/-- The strict lexicographic order on element sequences, in the words of the
specification: a proper prefix is less than the longer sequence; otherwise
the first differing element decides. -/
def lex_lt {α : Type} [DecidableEq α] (lt : α → α → Bool) : List α → List α → Bool
  | [], [] => false
  | [], _ :: _ => true
  | _ :: _, [] => false
  | x :: xs, y :: ys => if x = y then lex_lt lt xs ys else lt x y

/-- The operator `lhs > rhs`. -/
def operator_gt {α : Type} (lt : α → α → Bool) (h : Heap α) (lhs rhs : Vector) :
    Except Exn Bool :=
  operator_lt lt h rhs lhs

/-- The operator `lhs != rhs`. -/
def operator_ne {α : Type} (lt : α → α → Bool) (h : Heap α) (lhs rhs : Vector) :
    Except Exn Bool := do
  let b ← operator_eq lt h lhs rhs
  pure (!b)

/-- The operator `lhs <= rhs`. -/
def operator_le {α : Type} (lt : α → α → Bool) (h : Heap α) (lhs rhs : Vector) :
    Except Exn Bool := do
  let b ← operator_gt lt h lhs rhs
  pure (!b)

/-- The operator `lhs >= rhs`. -/
def operator_ge {α : Type} (lt : α → α → Bool) (h : Heap α) (lhs rhs : Vector) :
    Except Exn Bool := do
  let b ← operator_lt lt h lhs rhs
  pure (!b)

end vector

namespace exc
open cpp raw_memory vector

/-- The C++ exceptions whose way out of the member functions is followed:
`std::bad_alloc`, thrown by `operator new`, and whatever the copy constructor
of the element type throws. -/
inductive Thrown where
  | bad_alloc
  | copy_error
deriving DecidableEq

/-- How a run ends when it does not return: `fail` for a run the embedding
gives no result to (see `Exn`), `thrown` for an exception that leaves the
function, together with the state the function leaves behind. -/
inductive Raise (σ : Type) where
  | fail (e : Exn)
  | thrown (e : Thrown) (state : σ)

/-- Which requests are refused in a run: `alloc_fails n` says whether
`operator new` throws when asked for room for `n` elements, `copy_fails p`
whether `Type(const Type&)` throws when it copies the object at `p`. -/
structure Faults where
  alloc_fails : Nat → Bool
  copy_fails : Ptr → Bool

/-- The run in which nothing is refused. -/
def Faults.never : Faults := ⟨fun _ => false, fun _ => false⟩

/-- A step that throws nothing. -/
def nothrow {σ β : Type} (x : Except Exn β) : Except (Raise σ) β :=
  match x with
  | .ok b => .ok b
  | .error e => .error (.fail e)

/-- An exception passing through a frame with no local object to destroy;
`state` is what the frame leaves behind, given the heap. -/
def rethrow {α σ β : Type} (state : Heap α → σ) (x : Except (Raise (Heap α)) β) :
    Except (Raise σ) β :=
  match x with
  | .ok b => .ok b
  | .error (.fail e) => .error (.fail e)
  | .error (.thrown e h) => .error (.thrown e (state h))

/-- An exception passing through the scope of the `RawMemory` object
`local_`: its destructor runs and the exception goes on. -/
def unwind {α σ β : Type} (local_ : RawMemory) (state : Heap α → σ)
    (x : Except (Raise (Heap α)) β) : Except (Raise σ) β :=
  match x with
  | .ok b => .ok b
  | .error (.fail e) => .error (.fail e)
  | .error (.thrown e h) =>
    match RawMemory.dtor h local_ with
    | .ok h => .error (.thrown e (state h))
    | .error e => .error (.fail e)

/-- The allocation function `operator new`, which may throw. -/
def operator_new {α : Type} (F : Faults) (h : Heap α) (n : Nat) :
    Except (Raise (Heap α)) (Heap α × Ptr) :=
  if F.alloc_fails n then .error (.thrown .bad_alloc h) else .ok (cpp.operator_new h n)

/-- The static member `Allocate(n)`, for a count `n` whose byte count fits
`size_t`, as in `raw_memory.RawMemory.Allocate`. -/
def RawMemory.Allocate {α : Type} (F : Faults) (h : Heap α) (n : Nat) :
    Except (Raise (Heap α)) (Heap α × Ptr) :=
  if n ≠ 0 then exc.operator_new F h n else .ok (h, nullptr)

/-- The constructor `RawMemory(capacity)`. -/
def RawMemory.ctor {α : Type} (F : Faults) (h : Heap α) (capacity : Nat) :
    Except (Raise (Heap α)) (Heap α × RawMemory) := do
  let r ← exc.RawMemory.Allocate F h capacity
  pure (r.1, { buffer_ := r.2, capacity_ := capacity })

/-- The loop of `std::uninitialized_copy_n`, with `done` objects constructed
so far from `d_first` on: when a copy throws, these are destroyed and the
exception goes on. -/
def uninitialized_copy_loop {α : Type} (F : Faults) (d_first : Ptr) :
    Nat → Nat → Heap α → Ptr → Except (Raise (Heap α)) (Heap α)
  | 0, _, h, _ => .ok h
  | count + 1, done, h, first =>
    if F.copy_fails first then do
      let h ← nothrow (std.destroy_n done h d_first)
      .error (.thrown .copy_error h)
    else do
      let x ← nothrow (h.read first)
      let h ← nothrow (h.construct_at (d_first.add done) x)
      uninitialized_copy_loop F d_first count (done + 1) h (first.add 1)

/-- The algorithm `std::uninitialized_copy_n(first, n, d_first)`. -/
def uninitialized_copy_n {α : Type} (F : Faults) (n : Nat) (h : Heap α) (first d_first : Ptr) :
    Except (Raise (Heap α)) (Heap α) :=
  exc.uninitialized_copy_loop F d_first n 0 h first

/-- How the new element of `PushBack`, `Insert`, `EmplaceBack` and `Emplace`
is constructed from the arguments of the call.  `copy p`: the argument is a
`const Type&` bound to the object at `p`, and the element is copy-constructed
from it (`PushBack(const Type&)`, `Insert(pos, const Type&)`, and
`EmplaceBack`/`Emplace` called with such an argument).  `value x`: any other
construction, which gives the value `x` (the move construction of
`PushBack(Type&&)` and `Insert(pos, Type&&)`, a constructor to which `Emplace`
forwards its arguments); like every move in this layer it is taken not to
throw. -/
inductive Arg (α : Type) where
  | copy (p : Ptr)
  | value (x : α)

/-- The construction `Type(std::forward<Args>(args)...)` of the new element,
in the heap `h`: the value it gives, or the exception that leaves it. -/
def Arg.build {α : Type} (F : Faults) (h : Heap α) : Arg α → Except (Raise (Heap α)) α
  | .copy p => if F.copy_fails p then .error (.thrown .copy_error h) else nothrow (h.read p)
  | .value x => .ok x

/-- The constructor `Vector(const Vector& other)`: an exception of the
allocation leaves the heap as it was; an exception of a copy passes the
destructor of the member `data_`. -/
def Vector.copy_ctor {α : Type} (F : Faults) (h : Heap α) (other : Vector) :
    Except (Raise (Heap α)) (Heap α × Vector) := do
  let r ← exc.RawMemory.ctor F h other.size_
  let h := r.1
  let data_ := r.2
  let h ← unwind data_ id
    (exc.uninitialized_copy_n F other.size_ h other.data_.GetAddress data_.GetAddress)
  pure (h, { data_ := data_, size_ := other.size_ })

/-- The member `Reserve(new_capacity)`. -/
def Vector.Reserve {α : Type} (F : Faults) (T : TypeTraits α) (h : Heap α) (self : Vector)
    (new_capacity : Nat) : Except (Raise (Heap α × Vector)) (Heap α × Vector) :=
  if new_capacity > self.Capacity then do
    let r ← rethrow (fun h => (h, self)) (exc.RawMemory.ctor F h new_capacity)
    let h := r.1
    let new_data_ := r.2
    let h ← unwind new_data_ (fun h => (h, self))
      (if relocates_by_move T then
        nothrow
          (std.uninitialized_move_n T self.size_ h self.data_.GetAddress new_data_.GetAddress)
      else
        exc.uninitialized_copy_n F self.size_ h self.data_.GetAddress new_data_.GetAddress)
    let h ← nothrow (std.destroy_n self.size_ h self.data_.GetAddress)
    let sw := self.data_.Swap new_data_
    let h ← nothrow (raw_memory.RawMemory.dtor h sw.2)
    pure (h, { self with data_ := sw.1 })
  else pure (h, self)

/-- The member `Emplace(pos, args...)`.  The new element is constructed after
the allocation and before the relocation when the storage grows (an exception
of its constructor passes the destructor of `new_data_`), and before anything
else is written otherwise. -/
def Vector.Emplace {α : Type} (F : Faults) (T : TypeTraits α) (h : Heap α) (self : Vector)
    (pos : Ptr) (args : Arg α) : Except (Raise (Heap α × Vector)) (Heap α × Vector × Ptr) :=
  if self.begin.le pos && pos.le self.end then do
    let index_pos := pos.off - self.cbegin.off
    if self.size_ = self.Capacity then do
      let r ← rethrow (fun h => (h, self))
        (exc.RawMemory.ctor F h (if self.size_ = 0 then 1 else self.size_ * 2))
      let h := r.1
      let new_data_ := r.2
      let p ← nothrow (new_data_.plus index_pos)
      let x ← unwind new_data_ (fun h => (h, self)) (args.build F h)
      let h ← nothrow (h.construct_at p x)
      let h ← unwind new_data_ (fun h => (h, self))
        (if relocates_by_move T then
          nothrow (do
            let s0 ← self.data_.plus 0
            let d0 ← new_data_.plus 0
            let h ← std.uninitialized_move_n T index_pos h s0 d0
            let s1 ← self.data_.plus index_pos
            let d1 ← new_data_.plus index_pos
            std.uninitialized_move_n T (self.size_ - index_pos) h s1 (d1.add 1))
        else do
          let s0 ← nothrow (self.data_.plus 0)
          let d0 ← nothrow (new_data_.plus 0)
          let h ← exc.uninitialized_copy_n F index_pos h s0 d0
          let s1 ← nothrow (self.data_.plus index_pos)
          let d1 ← nothrow (new_data_.plus index_pos)
          exc.uninitialized_copy_n F (self.size_ - index_pos) h s1 (d1.add 1))
      let h ← nothrow (std.destroy_n self.size_ h self.data_.GetAddress)
      let sw := self.data_.Swap new_data_
      let h ← nothrow (raw_memory.RawMemory.dtor h sw.2)
      pure (h, { data_ := sw.1, size_ := self.size_ + 1 }, sw.1.GetAddress.add index_pos)
    else do
      let h ←
        if pos = self.end then do
          let p ← nothrow (self.data_.plus self.size_)
          let x ← rethrow (fun h => (h, self)) (args.build F h)
          nothrow (h.construct_at p x)
        else do
          let tmp ← rethrow (fun h => (h, self)) (args.build F h)
          nothrow (do
            let p ← self.data_.plus self.size_
            let back ← self.Back
            let h ← std.move_construct T h p back
            let first ← self.data_.plus index_pos
            let h ← std.move_backward T h first (self.end.sub 1) self.end
            let q ← self.data_.index index_pos
            h.write q tmp)
      pure (h, { self with size_ := self.size_ + 1 }, self.data_.GetAddress.add index_pos)
  else .error (.fail .assertion)

/-- The members `Insert(pos, const Type& value)`, which is `Emplace(pos, value)`
with the argument `copy p` for `value` at `p`, and `Insert(pos, Type&& value)`,
with the argument `value x`. -/
def Vector.Insert {α : Type} (F : Faults) (T : TypeTraits α) (h : Heap α) (self : Vector)
    (pos : Ptr) (value : Arg α) : Except (Raise (Heap α × Vector)) (Heap α × Vector × Ptr) :=
  exc.Vector.Emplace F T h self pos value

/-- The member `EmplaceBack(args...)`.  The new element is constructed after
the allocation and before the relocation when the storage grows (an exception
of its constructor passes the destructor of `new_data_`), and in place
otherwise. -/
def Vector.EmplaceBack {α : Type} (F : Faults) (T : TypeTraits α) (h : Heap α)
    (self : Vector) (args : Arg α) :
    Except (Raise (Heap α × Vector)) (Heap α × Vector × Ptr) := do
  let r ←
    if self.size_ = self.Capacity then do
      let r ← rethrow (fun h => (h, self))
        (exc.RawMemory.ctor F h (if self.size_ = 0 then 1 else self.size_ * 2))
      let h := r.1
      let new_data_ := r.2
      let p ← nothrow (new_data_.plus self.size_)
      let x ← unwind new_data_ (fun h => (h, self)) (args.build F h)
      let h ← nothrow (h.construct_at p x)
      let h ← unwind new_data_ (fun h => (h, self))
        (if relocates_by_move T then
          nothrow
            (std.uninitialized_move_n T self.size_ h self.data_.GetAddress new_data_.GetAddress)
        else
          exc.uninitialized_copy_n F self.size_ h self.data_.GetAddress new_data_.GetAddress)
      let h ← nothrow (std.destroy_n self.size_ h self.data_.GetAddress)
      let sw := self.data_.Swap new_data_
      let h ← nothrow (raw_memory.RawMemory.dtor h sw.2)
      pure (h, { self with data_ := sw.1 })
    else do
      let x ← rethrow (fun h => (h, self)) (args.build F h)
      let h ← nothrow (h.construct_at self.end x)
      pure (h, self)
  let h := r.1
  let self : Vector := { r.2 with size_ := r.2.size_ + 1 }
  let back ← nothrow self.Back
  pure (h, self, back)

/-- The members `PushBack(const Type& value)`, which is `EmplaceBack(value)`
with the argument `copy p` for `value` at `p`, and `PushBack(Type&& value)`,
with the argument `value x`. -/
def Vector.PushBack {α : Type} (F : Faults) (T : TypeTraits α) (h : Heap α) (self : Vector)
    (value : Arg α) : Except (Raise (Heap α × Vector)) (Heap α × Vector) := do
  let r ← exc.Vector.EmplaceBack F T h self value
  pure (r.1, r.2.1)

/-- The member `Resize(new_size)`. -/
def Vector.Resize {α : Type} (F : Faults) (T : TypeTraits α) (h : Heap α) (self : Vector)
    (new_size : Nat) : Except (Raise (Heap α × Vector)) (Heap α × Vector) := do
  let h ←
    if new_size < self.size_ then
      nothrow (std.destroy_n (self.size_ - new_size) h (self.data_.GetAddress.add new_size))
    else pure h
  let r ←
    if new_size > self.size_ then do
      let r ← exc.Vector.Reserve F T h self new_size
      let h ← nothrow (std.uninitialized_value_construct_n T (new_size - self.size_) r.1
        (r.2.data_.GetAddress.add r.2.size_))
      pure (h, r.2)
    else pure (h, self)
  pure (r.1, { r.2 with size_ := new_size })

/-- The operator `*this = rhs` (copy); `rhs` is `none` when it is `*this`
itself.  The assignment operator of the element type is taken not to throw. -/
def Vector.copy_assign {α : Type} (F : Faults) (h : Heap α) (self : Vector)
    (rhs : Option Vector) : Except (Raise (Heap α × Vector)) (Heap α × Vector) :=
  match rhs with
  | none => pure (h, self)
  | some rhs =>
    if rhs.size_ > self.Capacity then do
      let r ← rethrow (fun h => (h, self)) (exc.Vector.copy_ctor F h rhs)
      let new_vector := r.2
      let r ← nothrow (self.Swap r.1 (some new_vector))
      let self := r.2.1
      let new_vector := r.2.2.getD new_vector
      let h ← nothrow (vector.Vector.dtor r.1 new_vector)
      pure (h, self)
    else do
      let size := min rhs.size_ self.size_
      let h ← nothrow (vector.Vector.assign_loop self rhs size 0 h)
      let h ←
        if rhs.size_ > self.size_ then
          rethrow (fun h => (h, self))
            (exc.uninitialized_copy_n F (rhs.size_ - self.size_) h
              (rhs.data_.GetAddress.add self.size_) (self.data_.GetAddress.add self.size_))
        else
          nothrow (std.destroy_n (self.size_ - rhs.size_) h (self.data_.GetAddress.add rhs.size_))
      pure (h, { self with size_ := rhs.size_ })

end exc

namespace vector
open cpp

end vector

namespace raw_memory
open cpp

/-- The constructor `RawMemory() = default`. -/
def RawMemory.default_ctor : RawMemory := {}

/-- The invariant of the raw storage, in the words of the specification: the
capacity is 0 if and only if the address is null. -/
def RawMemory.null_iff_empty (self : RawMemory) : Prop :=
  self.capacity_ = 0 ↔ self.buffer_ = nullptr

end raw_memory

namespace vector
open cpp raw_memory

/-- Every block that is allocated in the heap `h` is the buffer of one of the
vectors `vs`: no block is left without an owner. -/
def owned {α : Type} (h : Heap α) (vs : List Vector) : Prop :=
  ∀ a b, a ≠ 0 → h.load a = .ok b → ∃ v, v ∈ vs ∧ v.data_.buffer_.base = a

end vector

namespace advanced_vector
open cpp

/-- The static member `RawMemory::Allocate(n)` of the single-file variant
(`src/advanced-vector/vector.h`).  The two variants declare the same data
members, so their objects are the same records; the member functions of this
namespace are embedded from the single-file variant.  As in
`raw_memory.RawMemory.Allocate`, the count `n` is one whose byte count fits
`size_t`. -/
def RawMemory.Allocate {α : Type} (h : Heap α) (n : Nat) : Heap α × Ptr :=
  if n ≠ 0 then operator_new h n else (h, nullptr)

/-- The static member `RawMemory::Deallocate(buf)`. -/
def RawMemory.Deallocate {α : Type} (h : Heap α) (buf : Ptr) : Except Exn (Heap α) :=
  operator_delete h buf

/-- The constructor `RawMemory() = default`. -/
def RawMemory.default_ctor : raw_memory.RawMemory := {}

/-- The constructor `RawMemory(capacity)`. -/
def RawMemory.ctor {α : Type} (h : Heap α) (capacity : Nat) :
    Heap α × raw_memory.RawMemory :=
  let r := advanced_vector.RawMemory.Allocate h capacity
  (r.1, { buffer_ := r.2, capacity_ := capacity })

/-- The constructor `RawMemory(RawMemory&& other)`: the new object and what
is left of `other`. -/
def RawMemory.move_ctor (other : raw_memory.RawMemory) :
    raw_memory.RawMemory × raw_memory.RawMemory :=
  ({ buffer_ := other.buffer_, capacity_ := other.capacity_ },
   { buffer_ := nullptr, capacity_ := 0 })

/-- The operator `*this = std::move(rhs)` of `RawMemory`; `rhs` is `none`
when it is `*this` itself. -/
def RawMemory.move_assign (self : raw_memory.RawMemory) (rhs : Option raw_memory.RawMemory) :
    raw_memory.RawMemory × Option raw_memory.RawMemory :=
  match rhs with
  | none => (self, none)
  | some rhs =>
    ({ buffer_ := rhs.buffer_, capacity_ := rhs.capacity_ },
     some { buffer_ := nullptr, capacity_ := 0 })

/-- The destructor `~RawMemory()`. -/
def RawMemory.dtor {α : Type} (h : Heap α) (self : raw_memory.RawMemory) :
    Except Exn (Heap α) :=
  advanced_vector.RawMemory.Deallocate h self.buffer_

/-- The member `RawMemory::operator+(offset)`. -/
def RawMemory.plus (self : raw_memory.RawMemory) (offset : Nat) : Except Exn Ptr :=
  if offset ≤ self.capacity_ then .ok (self.buffer_.add offset) else .error .assertion

/-- The member `RawMemory::operator[](index)`. -/
def RawMemory.index (self : raw_memory.RawMemory) (index : Nat) : Except Exn Ptr :=
  if index < self.capacity_ then .ok (self.buffer_.add index) else .error .assertion

/-- The member `RawMemory::Swap(other)`. -/
def RawMemory.Swap (self other : raw_memory.RawMemory) :
    raw_memory.RawMemory × raw_memory.RawMemory :=
  ({ buffer_ := other.buffer_, capacity_ := other.capacity_ },
   { buffer_ := self.buffer_, capacity_ := self.capacity_ })

/-- The member `RawMemory::GetAddress()`. -/
def RawMemory.GetAddress (self : raw_memory.RawMemory) : Ptr := self.buffer_

/-- The member `RawMemory::Capacity()`. -/
def RawMemory.Capacity (self : raw_memory.RawMemory) : Nat := self.capacity_

/-- The template `std::swap(a, b)` at the `RawMemory` of this variant. -/
def swap {α : Type} (h : Heap α) (a b : raw_memory.RawMemory) :
    Except Exn (Heap α × raw_memory.RawMemory × raw_memory.RawMemory) := do
  let r := advanced_vector.RawMemory.move_ctor a
  let tmp := r.1
  let a := r.2
  let r := advanced_vector.RawMemory.move_assign a (some b)
  let a := r.1
  let b := r.2.getD b
  let r := advanced_vector.RawMemory.move_assign b (some tmp)
  let b := r.1
  let tmp := r.2.getD tmp
  let h ← advanced_vector.RawMemory.dtor h tmp
  pure (h, a, b)

/-- The template `std::swap(a, a)` at the `RawMemory` of this variant. -/
def swap_self {α : Type} (h : Heap α) (a : raw_memory.RawMemory) :
    Except Exn (Heap α × raw_memory.RawMemory) := do
  let r := advanced_vector.RawMemory.move_ctor a
  let tmp := r.1
  let a := r.2
  let r := advanced_vector.RawMemory.move_assign a none
  let a := r.1
  let r := advanced_vector.RawMemory.move_assign a (some tmp)
  let a := r.1
  let tmp := r.2.getD tmp
  let h ← advanced_vector.RawMemory.dtor h tmp
  pure (h, a)

/-- The condition of the `if constexpr` in `Reserve`, `Emplace`, `EmplaceBack`
and `Erase` of this variant. -/
def relocates_by_move {α : Type} (T : TypeTraits α) : Bool :=
  T.is_nothrow_move_constructible || !T.is_copy_constructible

/-- The member `begin()`. -/
def Vector.begin (self : vector.Vector) : Ptr :=
  advanced_vector.RawMemory.GetAddress self.data_

/-- The member `end()`. -/
def Vector.end (self : vector.Vector) : Ptr :=
  (advanced_vector.RawMemory.GetAddress self.data_).add self.size_

/-- The member `cbegin()`. -/
def Vector.cbegin (self : vector.Vector) : Ptr :=
  advanced_vector.RawMemory.GetAddress self.data_

/-- The constructor `Vector() = default`. -/
def Vector.default_ctor : vector.Vector := {}

/-- The constructor `Vector(const size_t size)`. -/
def Vector.size_ctor {α : Type} (T : TypeTraits α) (h : Heap α) (size : Nat) :
    Except Exn (Heap α × vector.Vector) := do
  let r := advanced_vector.RawMemory.ctor h size
  let self : vector.Vector := { data_ := r.2, size_ := size }
  let h ← std.uninitialized_value_construct_n T size r.1
    (advanced_vector.RawMemory.GetAddress self.data_)
  pure (h, self)

/-- The constructor `Vector(const Vector& other)`. -/
def Vector.copy_ctor {α : Type} (h : Heap α) (other : vector.Vector) :
    Except Exn (Heap α × vector.Vector) := do
  let r := advanced_vector.RawMemory.ctor h other.size_
  let h := r.1
  let data_ := r.2
  let h ← std.uninitialized_copy_n other.size_ h
    (advanced_vector.RawMemory.GetAddress other.data_)
    (advanced_vector.RawMemory.GetAddress data_)
  pure (h, { data_ := data_, size_ := other.size_ })

/-- The constructor `Vector(Vector&& other)`: the new vector and what is left
of `other`. -/
def Vector.move_ctor (other : vector.Vector) : vector.Vector × vector.Vector :=
  let r := advanced_vector.RawMemory.move_assign advanced_vector.RawMemory.default_ctor
    (some other.data_)
  ({ data_ := r.1, size_ := other.size_ },
   { data_ := r.2.getD other.data_, size_ := 0 })

/-- The member `Size()`. -/
def Vector.Size (self : vector.Vector) : Nat := self.size_

/-- The member `Capacity()`. -/
def Vector.Capacity (self : vector.Vector) : Nat :=
  advanced_vector.RawMemory.Capacity self.data_

/-- The member `operator[](index)`. -/
def Vector.index (self : vector.Vector) (index : Nat) : Except Exn Ptr :=
  if index < self.size_ then advanced_vector.RawMemory.index self.data_ index
  else .error .assertion

/-- The member `Back()`. -/
def Vector.Back (self : vector.Vector) : Except Exn Ptr :=
  advanced_vector.RawMemory.index self.data_ (size_t_pred self.size_)

/-- The destructor `~Vector()`, followed by the destructor of the member
`data_`. -/
def Vector.dtor {α : Type} (h : Heap α) (self : vector.Vector) : Except Exn (Heap α) := do
  let h ← std.destroy_n self.size_ h (advanced_vector.RawMemory.GetAddress self.data_)
  advanced_vector.RawMemory.dtor h self.data_

/-- The member `Swap(other)`; `other` is `none` when it is `*this` itself. -/
def Vector.Swap {α : Type} (h : Heap α) (self : vector.Vector) (other : Option vector.Vector) :
    Except Exn (Heap α × vector.Vector × Option vector.Vector) :=
  match other with
  | none => do
    let r ← advanced_vector.swap_self h self.data_
    pure (r.1, { data_ := r.2, size_ := self.size_ }, none)
  | some other => do
    let r ← advanced_vector.swap h self.data_ other.data_
    pure (r.1, { data_ := r.2.1, size_ := other.size_ },
      some { data_ := r.2.2, size_ := self.size_ })

/-- The loop of the copy assignment of this variant, from the index `i` on:
`for (...; i < std::min(rhs.size_, size_); ++i) data_[i] = rhs.data_[i];`,
with the bound evaluated before every round. -/
def Vector.assign_loop {α : Type} (self rhs : vector.Vector) (i : Nat) (h : Heap α) :
    Except Exn (Heap α) :=
  if i < min rhs.size_ self.size_ then do
    let src ← advanced_vector.RawMemory.index rhs.data_ i
    let dst ← advanced_vector.RawMemory.index self.data_ i
    let h ← std.copy_assign h dst src
    Vector.assign_loop self rhs (i + 1) h
  else pure h
termination_by min rhs.size_ self.size_ - i

/-- The operator `*this = rhs` (copy); `rhs` is `none` when it is `*this`
itself. -/
def Vector.copy_assign {α : Type} (h : Heap α) (self : vector.Vector)
    (rhs : Option vector.Vector) : Except Exn (Heap α × vector.Vector) :=
  match rhs with
  | none => pure (h, self)
  | some rhs =>
    if rhs.size_ > advanced_vector.Vector.Capacity self then do
      let r ← advanced_vector.Vector.copy_ctor h rhs
      let new_vector := r.2
      let r ← advanced_vector.Vector.Swap r.1 self (some new_vector)
      let self := r.2.1
      let new_vector := r.2.2.getD new_vector
      let h ← advanced_vector.Vector.dtor r.1 new_vector
      pure (h, self)
    else do
      let h ← advanced_vector.Vector.assign_loop self rhs 0 h
      let h ←
        if rhs.size_ > self.size_ then
          std.uninitialized_copy_n (rhs.size_ - self.size_) h
            ((advanced_vector.RawMemory.GetAddress rhs.data_).add self.size_)
            ((advanced_vector.RawMemory.GetAddress self.data_).add self.size_)
        else
          std.destroy_n (self.size_ - rhs.size_) h
            ((advanced_vector.RawMemory.GetAddress self.data_).add rhs.size_)
      pure (h, { self with size_ := rhs.size_ })

/-- The operator `*this = std::move(rhs)`; `rhs` is `none` when it is `*this`
itself. -/
def Vector.move_assign (self : vector.Vector) (rhs : Option vector.Vector) :
    vector.Vector × Option vector.Vector :=
  match rhs with
  | none => (self, none)
  | some rhs =>
    let r := advanced_vector.RawMemory.move_assign self.data_ (some rhs.data_)
    ({ data_ := r.1, size_ := rhs.size_ },
     some { data_ := r.2.getD rhs.data_, size_ := 0 })

/-- The member `Reserve(new_capacity)`. -/
def Vector.Reserve {α : Type} (T : TypeTraits α) (h : Heap α) (self : vector.Vector)
    (new_capacity : Nat) : Except Exn (Heap α × vector.Vector) :=
  if new_capacity > advanced_vector.Vector.Capacity self then do
    let r := advanced_vector.RawMemory.ctor h new_capacity
    let h := r.1
    let new_data_ := r.2
    let h ←
      if advanced_vector.relocates_by_move T then
        std.uninitialized_move_n T self.size_ h
          (advanced_vector.RawMemory.GetAddress self.data_)
          (advanced_vector.RawMemory.GetAddress new_data_)
      else
        std.uninitialized_copy_n self.size_ h
          (advanced_vector.RawMemory.GetAddress self.data_)
          (advanced_vector.RawMemory.GetAddress new_data_)
    let h ← std.destroy_n self.size_ h (advanced_vector.RawMemory.GetAddress self.data_)
    let sw := advanced_vector.RawMemory.Swap self.data_ new_data_
    let h ← advanced_vector.RawMemory.dtor h sw.2
    pure (h, { self with data_ := sw.1 })
  else pure (h, self)

/-- The member `Resize(new_size)`. -/
def Vector.Resize {α : Type} (T : TypeTraits α) (h : Heap α) (self : vector.Vector)
    (new_size : Nat) : Except Exn (Heap α × vector.Vector) := do
  let h ←
    if new_size < self.size_ then
      std.destroy_n (self.size_ - new_size) h
        ((advanced_vector.RawMemory.GetAddress self.data_).add new_size)
    else pure h
  let r ←
    if new_size > self.size_ then do
      let r ← advanced_vector.Vector.Reserve T h self new_size
      let h ← std.uninitialized_value_construct_n T (new_size - self.size_) r.1
        ((advanced_vector.RawMemory.GetAddress r.2.data_).add r.2.size_)
      pure (h, r.2)
    else pure (h, self)
  pure (r.1, { r.2 with size_ := new_size })

/-- The member `Emplace(pos, args...)`; `x` is the value `T(args...)`. -/
def Vector.Emplace {α : Type} (T : TypeTraits α) (h : Heap α) (self : vector.Vector)
    (pos : Ptr) (x : α) : Except Exn (Heap α × vector.Vector × Ptr) :=
  if (advanced_vector.Vector.begin self).le pos && pos.le (advanced_vector.Vector.end self)
  then do
    let index_pos := pos.off - (advanced_vector.Vector.cbegin self).off
    if self.size_ = advanced_vector.Vector.Capacity self then do
      let r := advanced_vector.RawMemory.ctor h (if self.size_ = 0 then 1 else self.size_ * 2)
      let h := r.1
      let new_data_ := r.2
      let p ← advanced_vector.RawMemory.plus new_data_ index_pos
      let h ← h.construct_at p x
      let h ←
        if advanced_vector.relocates_by_move T then do
          let s0 ← advanced_vector.RawMemory.plus self.data_ 0
          let d0 ← advanced_vector.RawMemory.plus new_data_ 0
          let h ← std.uninitialized_move_n T index_pos h s0 d0
          let s1 ← advanced_vector.RawMemory.plus self.data_ index_pos
          let d1 ← advanced_vector.RawMemory.plus new_data_ index_pos
          std.uninitialized_move_n T (self.size_ - index_pos) h s1 (d1.add 1)
        else do
          let s0 ← advanced_vector.RawMemory.plus self.data_ 0
          let d0 ← advanced_vector.RawMemory.plus new_data_ 0
          let h ← std.uninitialized_copy_n index_pos h s0 d0
          let s1 ← advanced_vector.RawMemory.plus self.data_ index_pos
          let d1 ← advanced_vector.RawMemory.plus new_data_ index_pos
          std.uninitialized_copy_n (self.size_ - index_pos) h s1 (d1.add 1)
      let h ← std.destroy_n self.size_ h (advanced_vector.RawMemory.GetAddress self.data_)
      let sw := advanced_vector.RawMemory.Swap self.data_ new_data_
      let h ← advanced_vector.RawMemory.dtor h sw.2
      pure (h, { data_ := sw.1, size_ := self.size_ + 1 },
        (advanced_vector.RawMemory.GetAddress sw.1).add index_pos)
    else do
      let h ←
        if pos = advanced_vector.Vector.end self then do
          let p ← advanced_vector.RawMemory.plus self.data_ self.size_
          h.construct_at p x
        else do
          let tmp := x
          let p ← advanced_vector.RawMemory.plus self.data_ self.size_
          let back ← advanced_vector.Vector.Back self
          let h ← std.move_construct T h p back
          let first ← advanced_vector.RawMemory.plus self.data_ index_pos
          let h ← std.move_backward T h first ((advanced_vector.Vector.end self).sub 1)
            (advanced_vector.Vector.end self)
          let q ← advanced_vector.RawMemory.index self.data_ index_pos
          h.write q tmp
      pure (h, { self with size_ := self.size_ + 1 },
        (advanced_vector.RawMemory.GetAddress self.data_).add index_pos)
  else .error .assertion

/-- The member `Insert(pos, value)`, both overloads. -/
def Vector.Insert {α : Type} (T : TypeTraits α) (h : Heap α) (self : vector.Vector)
    (pos : Ptr) (value : α) : Except Exn (Heap α × vector.Vector × Ptr) :=
  advanced_vector.Vector.Emplace T h self pos value

/-- The member `EmplaceBack(args...)`; `x` is the value `T(args...)`. -/
def Vector.EmplaceBack {α : Type} (T : TypeTraits α) (h : Heap α) (self : vector.Vector)
    (x : α) : Except Exn (Heap α × vector.Vector × Ptr) := do
  let r ←
    if self.size_ = advanced_vector.Vector.Capacity self then do
      let r := advanced_vector.RawMemory.ctor h (if self.size_ = 0 then 1 else self.size_ * 2)
      let h := r.1
      let new_data_ := r.2
      let p ← advanced_vector.RawMemory.plus new_data_ self.size_
      let h ← h.construct_at p x
      let h ←
        if advanced_vector.relocates_by_move T then
          std.uninitialized_move_n T self.size_ h
            (advanced_vector.RawMemory.GetAddress self.data_)
            (advanced_vector.RawMemory.GetAddress new_data_)
        else
          std.uninitialized_copy_n self.size_ h
            (advanced_vector.RawMemory.GetAddress self.data_)
            (advanced_vector.RawMemory.GetAddress new_data_)
      let h ← std.destroy_n self.size_ h (advanced_vector.RawMemory.GetAddress self.data_)
      let sw := advanced_vector.RawMemory.Swap self.data_ new_data_
      let h ← advanced_vector.RawMemory.dtor h sw.2
      pure (h, { self with data_ := sw.1 })
    else do
      let h ← h.construct_at (advanced_vector.Vector.end self) x
      pure (h, self)
  let h := r.1
  let self : vector.Vector := { r.2 with size_ := r.2.size_ + 1 }
  let back ← advanced_vector.Vector.Back self
  pure (h, self, back)

/-- The member `PushBack(value)`, both overloads. -/
def Vector.PushBack {α : Type} (T : TypeTraits α) (h : Heap α) (self : vector.Vector)
    (value : α) : Except Exn (Heap α × vector.Vector) := do
  let r ← advanced_vector.Vector.EmplaceBack T h self value
  pure (r.1, r.2.1)

/-- The member `Erase(pos)`. -/
def Vector.Erase {α : Type} (T : TypeTraits α) (h : Heap α) (self : vector.Vector)
    (pos : Ptr) : Except Exn (Heap α × vector.Vector × Ptr) :=
  if (advanced_vector.Vector.begin self).le pos && pos.le (advanced_vector.Vector.end self)
  then do
    let index_pos := pos.off - (advanced_vector.Vector.cbegin self).off
    let new_pos := (advanced_vector.Vector.begin self).add index_pos
    let h ←
      if advanced_vector.relocates_by_move T then
        std.move T h (new_pos.add 1) (advanced_vector.Vector.end self) new_pos
      else std.copy h (new_pos.add 1) (advanced_vector.Vector.end self) new_pos
    let h ← std.destroy_n 1 h ((advanced_vector.Vector.end self).sub 1)
    pure (h, { self with size_ := size_t_pred self.size_ }, new_pos)
  else .error .assertion

/-- The member `PopBack()`. -/
def Vector.PopBack {α : Type} (h : Heap α) (self : vector.Vector) :
    Except Exn (Heap α × vector.Vector) := do
  let h ← std.destroy_n 1 h (advanced_vector.RawMemory.GetAddress self.data_)
  pure (h, { self with size_ := size_t_pred self.size_ })

end advanced_vector

namespace variants
open cpp vector

/-- The interface the two variants share: the constructors, the assignments,
the mutating members and the observers, as functions on the heap and the
vector objects. -/
structure Interface (α : Type) where
  default_ctor : Vector
  size_ctor : TypeTraits α → Heap α → Nat → Except Exn (Heap α × Vector)
  copy_ctor : Heap α → Vector → Except Exn (Heap α × Vector)
  move_ctor : Vector → Vector × Vector
  copy_assign : Heap α → Vector → Option Vector → Except Exn (Heap α × Vector)
  move_assign : Vector → Option Vector → Vector × Option Vector
  Reserve : TypeTraits α → Heap α → Vector → Nat → Except Exn (Heap α × Vector)
  Resize : TypeTraits α → Heap α → Vector → Nat → Except Exn (Heap α × Vector)
  PushBack : TypeTraits α → Heap α → Vector → α → Except Exn (Heap α × Vector)
  EmplaceBack : TypeTraits α → Heap α → Vector → α → Except Exn (Heap α × Vector × Ptr)
  Insert : TypeTraits α → Heap α → Vector → Ptr → α → Except Exn (Heap α × Vector × Ptr)
  Emplace : TypeTraits α → Heap α → Vector → Ptr → α → Except Exn (Heap α × Vector × Ptr)
  Erase : TypeTraits α → Heap α → Vector → Ptr → Except Exn (Heap α × Vector × Ptr)
  PopBack : Heap α → Vector → Except Exn (Heap α × Vector)
  Swap : Heap α → Vector → Option Vector → Except Exn (Heap α × Vector × Option Vector)
  begin_ : Vector → Ptr
  Size : Vector → Nat
  Capacity : Vector → Nat
  index : Vector → Nat → Except Exn Ptr

/-- The variant of `src/include/vector.h` with `src/include/raw_memory.h`. -/
def include_variant (α : Type) : Interface α where
  default_ctor := vector.Vector.default_ctor
  size_ctor := vector.Vector.size_ctor
  copy_ctor := vector.Vector.copy_ctor
  move_ctor := vector.Vector.move_ctor
  copy_assign := vector.Vector.copy_assign
  move_assign := vector.Vector.move_assign
  Reserve := vector.Vector.Reserve
  Resize := vector.Vector.Resize
  PushBack := vector.Vector.PushBack
  EmplaceBack := vector.Vector.EmplaceBack
  Insert := vector.Vector.Insert
  Emplace := vector.Vector.Emplace
  Erase := vector.Vector.Erase
  PopBack := vector.Vector.PopBack
  Swap := vector.Vector.Swap
  begin_ := vector.Vector.begin
  Size := vector.Vector.Size
  Capacity := vector.Vector.Capacity
  index := vector.Vector.index

/-- The single-file variant of `src/advanced-vector/vector.h`. -/
def advanced_variant (α : Type) : Interface α where
  default_ctor := advanced_vector.Vector.default_ctor
  size_ctor := advanced_vector.Vector.size_ctor
  copy_ctor := advanced_vector.Vector.copy_ctor
  move_ctor := advanced_vector.Vector.move_ctor
  copy_assign := advanced_vector.Vector.copy_assign
  move_assign := advanced_vector.Vector.move_assign
  Reserve := advanced_vector.Vector.Reserve
  Resize := advanced_vector.Vector.Resize
  PushBack := advanced_vector.Vector.PushBack
  EmplaceBack := advanced_vector.Vector.EmplaceBack
  Insert := advanced_vector.Vector.Insert
  Emplace := advanced_vector.Vector.Emplace
  Erase := advanced_vector.Vector.Erase
  PopBack := advanced_vector.Vector.PopBack
  Swap := advanced_vector.Vector.Swap
  begin_ := advanced_vector.Vector.begin
  Size := advanced_vector.Vector.Size
  Capacity := advanced_vector.Vector.Capacity
  index := advanced_vector.Vector.index

/-- A statement of a program that uses vectors through the shared interface.
The vectors of the program are numbered in the order of their construction;
`i` and `j` are such numbers and `k` is an offset from `begin()`.
`Vector v;`, `Vector v(n);`, `Vector v(w);`, `Vector v(std::move(w));`,
`v = w;`, `v = std::move(w);` and the calls of the mutating members. -/
inductive Call (α : Type) where
  | default_ctor
  | size_ctor (n : Nat)
  | copy_ctor (j : Nat)
  | move_ctor (j : Nat)
  | copy_assign (i j : Nat)
  | move_assign (i j : Nat)
  | Reserve (i n : Nat)
  | Resize (i n : Nat)
  | PushBack (i : Nat) (x : α)
  | EmplaceBack (i : Nat) (x : α)
  | Insert (i k : Nat) (x : α)
  | Emplace (i k : Nat) (x : α)
  | Erase (i k : Nat)
  | PopBack (i : Nat)
  | Swap (i j : Nat)

/-- The vector number `i` of a program; a program that names a vector it did
not construct is not a program. -/
def lookup (vars : List Vector) (i : Nat) : Except Exn Vector :=
  match vars[i]? with
  | some v => .ok v
  | none => .error .undefined

/-- Running one statement with the member functions of the variant `I`, on
the heap and the vectors of the program. -/
def Call.run {α : Type} (I : Interface α) (T : TypeTraits α) :
    Call α → Heap α × List Vector → Except Exn (Heap α × List Vector)
  | .default_ctor, (h, vars) => pure (h, vars ++ [I.default_ctor])
  | .size_ctor n, (h, vars) => do
    let r ← I.size_ctor T h n
    pure (r.1, vars ++ [r.2])
  | .copy_ctor j, (h, vars) => do
    let w ← lookup vars j
    let r ← I.copy_ctor h w
    pure (r.1, vars ++ [r.2])
  | .move_ctor j, (h, vars) => do
    let w ← lookup vars j
    let r := I.move_ctor w
    pure (h, vars.set j r.2 ++ [r.1])
  | .copy_assign i j, (h, vars) => do
    let v ← lookup vars i
    let w ← lookup vars j
    let r ← I.copy_assign h v (if i = j then none else some w)
    pure (r.1, vars.set i r.2)
  | .move_assign i j, (h, vars) => do
    let v ← lookup vars i
    let w ← lookup vars j
    let r := I.move_assign v (if i = j then none else some w)
    pure (h, (vars.set j (r.2.getD w)).set i r.1)
  | .Reserve i n, (h, vars) => do
    let v ← lookup vars i
    let r ← I.Reserve T h v n
    pure (r.1, vars.set i r.2)
  | .Resize i n, (h, vars) => do
    let v ← lookup vars i
    let r ← I.Resize T h v n
    pure (r.1, vars.set i r.2)
  | .PushBack i x, (h, vars) => do
    let v ← lookup vars i
    let r ← I.PushBack T h v x
    pure (r.1, vars.set i r.2)
  | .EmplaceBack i x, (h, vars) => do
    let v ← lookup vars i
    let r ← I.EmplaceBack T h v x
    pure (r.1, vars.set i r.2.1)
  | .Insert i k x, (h, vars) => do
    let v ← lookup vars i
    let r ← I.Insert T h v ((I.begin_ v).add k) x
    pure (r.1, vars.set i r.2.1)
  | .Emplace i k x, (h, vars) => do
    let v ← lookup vars i
    let r ← I.Emplace T h v ((I.begin_ v).add k) x
    pure (r.1, vars.set i r.2.1)
  | .Erase i k, (h, vars) => do
    let v ← lookup vars i
    let r ← I.Erase T h v ((I.begin_ v).add k)
    pure (r.1, vars.set i r.2.1)
  | .PopBack i, (h, vars) => do
    let v ← lookup vars i
    let r ← I.PopBack h v
    pure (r.1, vars.set i r.2)
  | .Swap i j, (h, vars) => do
    let v ← lookup vars i
    let w ← lookup vars j
    let r ← I.Swap h v (if i = j then none else some w)
    pure (r.1, (vars.set j (r.2.2.getD w)).set i r.2.1)

/-- Running a sequence of statements, in order. -/
def Call.runs {α : Type} (I : Interface α) (T : TypeTraits α) :
    List (Call α) → Heap α × List Vector → Except Exn (Heap α × List Vector)
  | [], st => .ok st
  | c :: cs, st => do
    let st ← c.run I T st
    Call.runs I T cs st

/-- What a vector reports: `Size()`, `Capacity()` and the element `v[i]` at
every index below `Size()`. -/
def report {α : Type} (I : Interface α) (h : Heap α) (v : Vector) :
    Nat × Nat × List (Except Exn α) :=
  (I.Size v, I.Capacity v,
    (List.range (I.Size v)).map fun i => do
      let p ← I.index v i
      h.read p)

/-- What the vectors of a program report in a state. -/
def reports {α : Type} (I : Interface α) (st : Heap α × List Vector) :
    List (Nat × Nat × List (Except Exn α)) :=
  st.2.map (report I st.1)

end variants


namespace sized
open cpp raw_memory vector

/-!
The functions of this namespace are the ones that pass an element count
chosen by the caller on to `operator new`, embedded a second time with the
size of the request as the source computes it: in bytes, as the `size_t`
product `n * sizeof(Type)`.  `sizeof_Type` is `sizeof(Type)`.
-/

/-- The static member `Allocate(n)`: `operator new(n * sizeof(Type))`.  The
product is one of two `size_t` values, so it is taken modulo `2 ^ 64`; the
block obtained has room for as many elements as fit in that many bytes. -/
def RawMemory.Allocate {α : Type} (sizeof_Type : Nat) (h : Heap α) (n : Nat) : Heap α × Ptr :=
  if n ≠ 0 then operator_new h (n * sizeof_Type % 2 ^ 64 / sizeof_Type) else (h, nullptr)

/-- The constructor `RawMemory(capacity)`: `capacity_` is the count asked for,
whatever the size of the block. -/
def RawMemory.ctor {α : Type} (sizeof_Type : Nat) (h : Heap α) (capacity : Nat) :
    Heap α × RawMemory :=
  let r := sized.RawMemory.Allocate sizeof_Type h capacity
  (r.1, { buffer_ := r.2, capacity_ := capacity })

/-- The member `Reserve(new_capacity)`. -/
def Vector.Reserve {α : Type} (sizeof_Type : Nat) (T : TypeTraits α) (h : Heap α)
    (self : Vector) (new_capacity : Nat) : Except Exn (Heap α × Vector) :=
  if new_capacity > self.Capacity then do
    let r := sized.RawMemory.ctor sizeof_Type h new_capacity
    let h := r.1
    let new_data_ := r.2
    let h ←
      if relocates_by_move T then
        std.uninitialized_move_n T self.size_ h self.data_.GetAddress new_data_.GetAddress
      else
        std.uninitialized_copy_n self.size_ h self.data_.GetAddress new_data_.GetAddress
    let h ← std.destroy_n self.size_ h self.data_.GetAddress
    let sw := self.data_.Swap new_data_
    let h ← raw_memory.RawMemory.dtor h sw.2
    pure (h, { self with data_ := sw.1 })
  else pure (h, self)

/-- The member `Resize(new_size)`. -/
def Vector.Resize {α : Type} (sizeof_Type : Nat) (T : TypeTraits α) (h : Heap α)
    (self : Vector) (new_size : Nat) : Except Exn (Heap α × Vector) := do
  let h ←
    if new_size < self.size_ then
      std.destroy_n (self.size_ - new_size) h (self.data_.GetAddress.add new_size)
    else pure h
  let r ←
    if new_size > self.size_ then do
      let r ← sized.Vector.Reserve sizeof_Type T h self new_size
      let h ← std.uninitialized_value_construct_n T (new_size - self.size_) r.1
        (r.2.data_.GetAddress.add r.2.size_)
      pure (h, r.2)
    else pure (h, self)
  pure (r.1, { r.2 with size_ := new_size })

/-- The constructor `Vector(size_t size)`. -/
def Vector.size_ctor {α : Type} (sizeof_Type : Nat) (T : TypeTraits α) (h : Heap α)
    (size : Nat) : Except Exn (Heap α × Vector) := do
  let r := sized.RawMemory.ctor sizeof_Type h size
  let self : Vector := { data_ := r.2, size_ := size }
  let h ← std.uninitialized_value_construct_n T size r.1 self.data_.GetAddress
  pure (h, self)

end sized


namespace cpp
variable {α : Type}

theorem bind_ok {ε β γ : Type} (a : β) (f : β → Except ε γ) :
    (Except.ok a >>= f) = f a := rfl

theorem bind_error {ε β γ : Type} (e : ε) (f : β → Except ε γ) :
    (Except.error e >>= f) = Except.error e := rfl

theorem pure_eq_ok {ε β : Type} (a : β) : (pure a : Except ε β) = Except.ok a := rfl

theorem getElem?_append_cons (L : List α) (x : α) (R : List α) (k : Nat) (hk : k = L.length) :
    (L ++ x :: R)[k]? = some x := by
  subst hk
  induction L with
  | nil => simp
  | cons y L ih => simpa using ih

theorem set_append_cons (L : List α) (x y : α) (R : List α) (k : Nat) (hk : k = L.length) :
    (L ++ x :: R).set k y = L ++ y :: R := by
  subst hk
  induction L with
  | nil => rfl
  | cons z L ih => simp [ih]

theorem Heap.load_store_same {h : Heap α} {a : Nat} {b0 : Block α} (b : Block α)
    (ha : h.load a = .ok b0) (hne : b0 ≠ []) : (h.store a b).load a = .ok b := by
  unfold Heap.load at ha ⊢
  unfold Heap.store
  by_cases h0 : a = 0
  · simp [h0] at ha
    exact absurd ha hne
  · simp only [h0, if_false] at ha ⊢
    have hlt : a - 1 < h.blocks.length := by
      by_contra hc
      rw [List.getElem?_eq_none (by omega)] at ha
      simp at ha
    simp [hlt]

theorem Heap.load_store_ne (h : Heap α) {a a' : Nat} (b : Block α) (hne : a ≠ a') :
    (h.store a b).load a' = h.load a' := by
  unfold Heap.load Heap.store
  by_cases h0 : a = 0
  · simp [h0]
  · by_cases h1 : a' = 0
    · simp [h1]
    · have : a - 1 ≠ a' - 1 := by omega
      simp [h0, h1, List.getElem?_set_ne this]

theorem Heap.store_store (h : Heap α) (a : Nat) (b b' : Block α) :
    (h.store a b).store a b' = h.store a b' := by
  unfold Heap.store
  by_cases h0 : a = 0 <;> simp [h0]

theorem Heap.store_comm (h : Heap α) {a a' : Nat} (b b' : Block α) (hne : a ≠ a') :
    (h.store a b).store a' b' = (h.store a' b').store a b := by
  unfold Heap.store
  by_cases h0 : a = 0
  · simp [h0]
  · by_cases h1 : a' = 0
    · simp [h1]
    · have : a - 1 ≠ a' - 1 := by omega
      simp [h0, h1, List.set_comm _ _ _ this]

theorem Heap.store_four (h : Heap α) {a a' : Nat} (A1 A2 B1 B2 : Block α) (hne : a ≠ a') :
    (((h.store a' B1).store a A1).store a A2).store a' B2 = (h.store a A2).store a' B2 := by
  rw [Heap.store_store (h.store a' B1) a A1 A2, Heap.store_comm h B1 A2 (Ne.symm hne),
    Heap.store_store (h.store a A2) a' B1 B2]

theorem Heap.store_load {h : Heap α} {a : Nat} {b : Block α} (ha : h.load a = .ok b) :
    h.store a b = h := by
  unfold Heap.load at ha
  unfold Heap.store
  by_cases h0 : a = 0
  · simp [h0]
  · simp only [h0, if_false] at ha ⊢
    cases h with
    | mk bl =>
      simp only [Heap.mk.injEq]
      simp only at ha
      apply List.ext_getElem?
      intro i
      by_cases hi : i = a - 1
      · subst hi
        cases hb : bl[a - 1]? with
        | none => simp [hb] at ha
        | some o =>
          cases o with
          | none => simp [hb] at ha
          | some b1 =>
            simp [hb] at ha
            subst ha
            have hlt : a - 1 < bl.length := by
              by_contra hc
              rw [List.getElem?_eq_none (by omega)] at hb
              simp at hb
            simp [hlt, hb]
      · rw [List.getElem?_set_ne (Ne.symm hi)]

theorem Heap.load_lt_next {h : Heap α} {a : Nat} {b : Block α} (ha : h.load a = .ok b) :
    a < h.next := by
  unfold Heap.load at ha
  unfold Heap.next
  by_cases h0 : a = 0
  · omega
  · simp only [h0, if_false] at ha
    by_contra hc
    rw [List.getElem?_eq_none (by omega)] at ha
    simp at ha

theorem Heap.load_push_next (h : Heap α) (b : Block α) : (h.push b).load h.next = .ok b := by
  simp [Heap.load, Heap.push, Heap.next]

theorem Heap.load_push_of_load {h : Heap α} {a : Nat} {b0 : Block α} (b : Block α)
    (ha : h.load a = .ok b0) : (h.push b).load a = .ok b0 := by
  have hlt := Heap.load_lt_next ha
  unfold Heap.next at hlt
  unfold Heap.load at ha ⊢
  unfold Heap.push
  by_cases h0 : a = 0
  · simpa [h0] using ha
  · simp only [h0, if_false] at ha ⊢
    rw [List.getElem?_append_left (by omega)]
    exact ha

theorem Heap.store_push_next (h : Heap α) (b b' : Block α) :
    (h.push b).store h.next b' = h.push b' := by
  simp [Heap.store, Heap.push, Heap.next]

theorem Heap.store_push_of_lt (h : Heap α) {a : Nat} (b b' : Block α) (ha : a < h.next) :
    (h.push b).store a b' = (h.store a b').push b := by
  unfold Heap.next at ha
  unfold Heap.store Heap.push
  by_cases h0 : a = 0
  · simp [h0]
  · simp only [h0, if_false, Heap.mk.injEq]
    rw [List.set_append_left _ _ (by omega)]

theorem Heap.next_store (h : Heap α) (a : Nat) (b : Block α) : (h.store a b).next = h.next := by
  unfold Heap.store Heap.next
  by_cases h0 : a = 0 <;> simp [h0]

theorem Heap.next_release (h : Heap α) (a : Nat) : (h.release a).next = h.next := by
  unfold Heap.release Heap.next
  by_cases h0 : a = 0 <;> simp [h0]

theorem Heap.release_store (h : Heap α) (a : Nat) (b : Block α) :
    (h.store a b).release a = h.release a := by
  unfold Heap.store Heap.release
  by_cases h0 : a = 0 <;> simp [h0]

theorem Heap.release_push_of_lt (h : Heap α) {a : Nat} (b : Block α) (ha : a < h.next) :
    (h.push b).release a = (h.release a).push b := by
  unfold Heap.next at ha
  unfold Heap.release Heap.push
  by_cases h0 : a = 0
  · simp [h0]
  · simp only [h0, if_false, Heap.mk.injEq]
    rw [List.set_append_left _ _ (by omega)]

theorem Heap.load_release_ne (h : Heap α) {a a' : Nat} (hne : a ≠ a') :
    (h.release a).load a' = h.load a' := by
  unfold Heap.load Heap.release
  by_cases h0 : a = 0
  · simp [h0]
  · by_cases h1 : a' = 0
    · simp [h1]
    · have : a - 1 ≠ a' - 1 := by omega
      simp [h0, h1, List.getElem?_set_ne this]

theorem operator_new_eq (h : Heap α) (n : Nat) :
    operator_new h n = (h.push (List.replicate n none), ⟨h.next, 0⟩) := rfl

theorem operator_delete_eq {h : Heap α} {a : Nat} {b : Block α} (ha : h.load a = .ok b) :
    operator_delete h ⟨a, 0⟩ = .ok (h.release a) := by
  unfold Heap.load at ha
  unfold operator_delete Heap.release
  by_cases h0 : a = 0
  · simp [h0]
  · simp only [h0, if_false] at ha ⊢
    cases hb : h.blocks[a - 1]? with
    | none => simp [hb] at ha
    | some o =>
      cases o with
      | none => simp [hb] at ha
      | some b1 => simp

theorem Heap.load_store_len {h : Heap α} {a : Nat} {b0 : Block α} (b : Block α)
    (ha : h.load a = .ok b0) (hl : b.length = b0.length) : (h.store a b).load a = .ok b := by
  by_cases h0 : a = 0
  · subst h0
    have hb0 : b0 = [] := by
      have : (Except.ok [] : Except Exn (Block α)) = .ok b0 := by simpa [Heap.load] using ha
      exact (Except.ok.inj this).symm
    subst hb0
    have hb : b = [] := List.length_eq_zero.mp (by simpa using hl)
    subst hb
    simp [Heap.load]
  · by_cases hb0 : b0 = []
    · subst hb0
      have hb : b = [] := List.length_eq_zero.mp (by simpa using hl)
      subst hb
      rw [Heap.store_load ha]
      exact ha
    · exact Heap.load_store_same b ha hb0

theorem Heap.store_push_eq (g : Heap α) (b b' : Block α) {n : Nat} (hn : n = g.next) :
    (g.push b).store n b' = g.push b' := by
  subst hn
  exact Heap.store_push_next g b b'

theorem Heap.load_push_eq (g : Heap α) (b : Block α) {n : Nat} (hn : n = g.next) :
    (g.push b).load n = .ok b := by
  subst hn
  exact Heap.load_push_next g b

theorem Heap.read_eq {h : Heap α} {a k : Nat} {L R : Block α} {x : α}
    (ha : h.load a = .ok (L ++ some x :: R)) (hk : k = L.length) :
    h.read ⟨a, k⟩ = .ok x := by
  simp only [Heap.read, ha, bind_ok, getElem?_append_cons L (some x) R k hk]

theorem Heap.construct_at_eq {h : Heap α} {a k : Nat} {L R : Block α} {o : Option α} (x : α)
    (ha : h.load a = .ok (L ++ o :: R)) (hk : k = L.length) :
    h.construct_at ⟨a, k⟩ x = .ok (h.store a (L ++ some x :: R)) := by
  have hlt : k < (L ++ o :: R).length := by simp [hk]
  simp only [Heap.construct_at, ha, bind_ok, hlt, if_true, set_append_cons L o (some x) R k hk]

theorem Heap.write_eq {h : Heap α} {a k : Nat} {L R : Block α} {y : α} (x : α)
    (ha : h.load a = .ok (L ++ some y :: R)) (hk : k = L.length) :
    h.write ⟨a, k⟩ x = .ok (h.store a (L ++ some x :: R)) := by
  simp only [Heap.write, ha, bind_ok, getElem?_append_cons L (some y) R k hk,
    set_append_cons L (some y) (some x) R k hk]

theorem Heap.destroy_at_eq {h : Heap α} {a k : Nat} {L R : Block α} {y : α}
    (ha : h.load a = .ok (L ++ some y :: R)) (hk : k = L.length) :
    h.destroy_at ⟨a, k⟩ = .ok (h.store a (L ++ none :: R)) := by
  simp only [Heap.destroy_at, ha, bind_ok, getElem?_append_cons L (some y) R k hk,
    set_append_cons L (some y) none R k hk]

end cpp

namespace std
open cpp
variable {α : Type}

theorem destroy_n_eq (a : Nat) (xs : List α) : ∀ (h : Heap α) (L R : Block α) (k : Nat),
    h.load a = .ok (L ++ xs.map some ++ R) → k = L.length →
    destroy_n xs.length h ⟨a, k⟩ = .ok (h.store a (L ++ List.replicate xs.length none ++ R)) := by
  induction xs with
  | nil =>
    intro h L R k ha _
    simp only [List.map_nil, List.append_nil] at ha
    simp [destroy_n, Heap.store_load ha]
  | cons x xs ih =>
    intro h L R k ha hk
    have ha1 : h.load a = .ok (L ++ some x :: (xs.map some ++ R)) := by simpa using ha
    have hs : (h.store a (L ++ none :: (xs.map some ++ R))).load a
        = .ok ((L ++ [none]) ++ xs.map some ++ R) := by
      rw [Heap.load_store_same _ ha1 (by simp)]
      simp
    simp only [List.length_cons, destroy_n, Heap.destroy_at_eq ha1 hk, bind_ok, Ptr.add]
    rw [ih _ (L ++ [none]) R (k + 1) hs (by simp [hk]), Heap.store_store]
    simp [List.replicate_succ]

theorem uninitialized_value_construct_n_eq (T : TypeTraits α) (a : Nat) (ys : Block α) :
    ∀ (h : Heap α) (L R : Block α) (k : Nat),
    h.load a = .ok (L ++ ys ++ R) → k = L.length →
    uninitialized_value_construct_n T ys.length h ⟨a, k⟩
      = .ok (h.store a (L ++ List.replicate ys.length (some T.value_init) ++ R)) := by
  induction ys with
  | nil =>
    intro h L R k ha _
    simp only [List.append_nil] at ha
    simp [uninitialized_value_construct_n, Heap.store_load ha]
  | cons y ys ih =>
    intro h L R k ha hk
    have ha1 : h.load a = .ok (L ++ y :: (ys ++ R)) := by simpa using ha
    have hs : (h.store a (L ++ some T.value_init :: (ys ++ R))).load a
        = .ok ((L ++ [some T.value_init]) ++ ys ++ R) := by
      rw [Heap.load_store_same _ ha1 (by simp)]
      simp
    simp only [List.length_cons, uninitialized_value_construct_n,
      Heap.construct_at_eq T.value_init ha1 hk, bind_ok, Ptr.add]
    rw [ih _ (L ++ [some T.value_init]) R (k + 1) hs (by simp [hk]), Heap.store_store]
    simp [List.replicate_succ]

theorem uninitialized_copy_n_eq {a a' : Nat} (hne : a ≠ a') (xs : List α) :
    ∀ (h : Heap α) (Ls Rs Ld ys Rd : Block α) (k k' : Nat),
    h.load a = .ok (Ls ++ xs.map some ++ Rs) → k = Ls.length →
    h.load a' = .ok (Ld ++ ys ++ Rd) → k' = Ld.length → ys.length = xs.length →
    uninitialized_copy_n xs.length h ⟨a, k⟩ ⟨a', k'⟩
      = .ok (h.store a' (Ld ++ xs.map some ++ Rd)) := by
  induction xs with
  | nil =>
    intro h Ls Rs Ld ys Rd k k' _ _ hd _ hl
    have : ys = [] := List.length_eq_zero.mp (by simpa using hl)
    subst this
    simp only [List.append_nil] at hd
    simp [uninitialized_copy_n, Heap.store_load hd]
  | cons x xs ih =>
    intro h Ls Rs Ld ys Rd k k' hs hk hd hk' hl
    cases ys with
    | nil => simp at hl
    | cons y ys =>
      have hs1 : h.load a = .ok (Ls ++ some x :: (xs.map some ++ Rs)) := by simpa using hs
      have hd1 : h.load a' = .ok (Ld ++ y :: (ys ++ Rd)) := by simpa using hd
      have hs2 : (h.store a' (Ld ++ some x :: (ys ++ Rd))).load a
          = .ok ((Ls ++ [some x]) ++ xs.map some ++ Rs) := by
        rw [Heap.load_store_ne _ _ (Ne.symm hne), hs]
        simp
      have hd2 : (h.store a' (Ld ++ some x :: (ys ++ Rd))).load a'
          = .ok ((Ld ++ [some x]) ++ ys ++ Rd) := by
        rw [Heap.load_store_same _ hd1 (by simp)]
        simp
      simp only [List.length_cons, uninitialized_copy_n, Heap.read_eq hs1 hk,
        Heap.construct_at_eq x hd1 hk', bind_ok, Ptr.add]
      rw [ih _ (Ls ++ [some x]) Rs (Ld ++ [some x]) ys Rd (k + 1) (k' + 1) hs2 (by simp [hk])
        hd2 (by simp [hk']) (by simpa using hl), Heap.store_store]
      simp

theorem uninitialized_move_n_eq (T : TypeTraits α) {a a' : Nat} (hne : a ≠ a') (xs : List α) :
    ∀ (h : Heap α) (Ls Rs Ld ys Rd : Block α) (k k' : Nat),
    h.load a = .ok (Ls ++ xs.map some ++ Rs) → k = Ls.length →
    h.load a' = .ok (Ld ++ ys ++ Rd) → k' = Ld.length → ys.length = xs.length →
    uninitialized_move_n T xs.length h ⟨a, k⟩ ⟨a', k'⟩
      = .ok ((h.store a (Ls ++ (xs.map T.moved_from).map some ++ Rs)).store a'
          (Ld ++ xs.map some ++ Rd)) := by
  induction xs with
  | nil =>
    intro h Ls Rs Ld ys Rd k k' hs _ hd _ hl
    have : ys = [] := List.length_eq_zero.mp (by simpa using hl)
    subst this
    simp only [List.append_nil, List.map_nil] at hd hs
    simp only [uninitialized_move_n, List.length_nil, List.append_nil, List.map_nil,
      Heap.store_load hs, Heap.store_load hd]
  | cons x xs ih =>
    intro h Ls Rs Ld ys Rd k k' hs hk hd hk' hl
    cases ys with
    | nil => simp at hl
    | cons y ys =>
      have hs1 : h.load a = .ok (Ls ++ some x :: (xs.map some ++ Rs)) := by simpa using hs
      have hd1 : h.load a' = .ok (Ld ++ y :: (ys ++ Rd)) := by simpa using hd
      have hs2 : (h.store a' (Ld ++ some x :: (ys ++ Rd))).load a
          = .ok (Ls ++ some x :: (xs.map some ++ Rs)) := by
        rw [Heap.load_store_ne _ _ (Ne.symm hne), hs1]
      have hs3 : ((h.store a' (Ld ++ some x :: (ys ++ Rd))).store a
          (Ls ++ some (T.moved_from x) :: (xs.map some ++ Rs))).load a
          = .ok ((Ls ++ [some (T.moved_from x)]) ++ xs.map some ++ Rs) := by
        rw [Heap.load_store_same _ hs2 (by simp)]
        simp
      have hd2 : (h.store a' (Ld ++ some x :: (ys ++ Rd))).load a'
          = .ok (Ld ++ some x :: (ys ++ Rd)) := Heap.load_store_same _ hd1 (by simp)
      have hd3 : ((h.store a' (Ld ++ some x :: (ys ++ Rd))).store a
          (Ls ++ some (T.moved_from x) :: (xs.map some ++ Rs))).load a'
          = .ok ((Ld ++ [some x]) ++ ys ++ Rd) := by
        rw [Heap.load_store_ne _ _ hne, hd2]
        simp
      simp only [List.length_cons, uninitialized_move_n, move_construct, Heap.read_eq hs1 hk,
        Heap.construct_at_eq x hd1 hk', Heap.write_eq (T.moved_from x) hs2 hk, bind_ok, Ptr.add]
      rw [ih _ (Ls ++ [some (T.moved_from x)]) Rs (Ld ++ [some x]) ys Rd (k + 1) (k' + 1) hs3
        (by simp [hk]) hd3 (by simp [hk']) (by simpa using hl)]
      rw [Heap.store_four _ _ _ _ _ hne]
      simp

theorem move_assign_left_eq (T : TypeTraits α) {h : Heap α} {a k : Nat} {L R : Block α}
    {x y : α} (ha : h.load a = .ok (L ++ some y :: some x :: R)) (hk : k = L.length) :
    move_assign T h ⟨a, k⟩ ⟨a, k + 1⟩
      = .ok (h.store a (L ++ some x :: some (T.move_assigned_from y x) :: R)) := by
  have hsrc : h.load a = .ok ((L ++ [some y]) ++ some x :: R) := by simpa using ha
  have h1 : (h.store a (L ++ some x :: some x :: R)).load a
      = .ok ((L ++ [some x]) ++ some x :: R) := by
    rw [Heap.load_store_same _ ha (by simp)]
    simp
  simp only [move_assign, Heap.read_eq hsrc (show k + 1 = (L ++ [some y]).length by simp [hk]),
    Heap.read_eq ha hk, Heap.write_eq x ha hk, bind_ok]
  rw [Heap.write_eq _ h1 (show k + 1 = (L ++ [some x]).length by simp [hk]), Heap.store_store]
  simp

theorem move_assign_right_eq (T : TypeTraits α) {h : Heap α} {a k : Nat} {L R : Block α}
    {x y : α} (ha : h.load a = .ok (L ++ some x :: some y :: R)) (hk : k = L.length) :
    move_assign T h ⟨a, k + 1⟩ ⟨a, k⟩
      = .ok (h.store a (L ++ some (T.move_assigned_from y x) :: some x :: R)) := by
  have hdst : h.load a = .ok ((L ++ [some x]) ++ some y :: R) := by simpa using ha
  have hk1 : k + 1 = (L ++ [some x]).length := by simp [hk]
  have h1 : (h.store a ((L ++ [some x]) ++ some x :: R)).load a
      = .ok (L ++ some x :: some x :: R) := by
    rw [Heap.load_store_same _ ha (by simp)]
    simp
  simp only [move_assign, Heap.read_eq ha hk, Heap.read_eq hdst hk1, Heap.write_eq x hdst hk1,
    bind_ok]
  rw [Heap.write_eq _ h1 hk, Heap.store_store]

theorem copy_assign_left_eq {h : Heap α} {a k : Nat} {L R : Block α}
    {x y : α} (ha : h.load a = .ok (L ++ some y :: some x :: R)) (hk : k = L.length) :
    copy_assign h ⟨a, k⟩ ⟨a, k + 1⟩ = .ok (h.store a (L ++ some x :: some x :: R)) := by
  have hsrc : h.load a = .ok ((L ++ [some y]) ++ some x :: R) := by simpa using ha
  simp only [copy_assign, Heap.read_eq hsrc (show k + 1 = (L ++ [some y]).length by simp [hk]),
    Heap.write_eq x ha hk, bind_ok]

theorem move_loop_eq (T : TypeTraits α) (a : Nat) (xs : List α) :
    ∀ (h : Heap α) (L R : Block α) (y : α) (k : Nat),
    h.load a = .ok (L ++ some y :: (xs.map some ++ R)) → k = L.length →
    ∃ j, move_loop T xs.length h ⟨a, k + 1⟩ ⟨a, k⟩
      = .ok (h.store a (L ++ xs.map some ++ some j :: R)) := by
  induction xs with
  | nil =>
    intro h L R y k ha _
    refine ⟨y, ?_⟩
    simp only [List.map_nil, List.nil_append] at ha
    simp [move_loop, Heap.store_load ha]
  | cons x xs ih =>
    intro h L R y k ha hk
    have ha1 : h.load a = .ok (L ++ some y :: some x :: (xs.map some ++ R)) := by simpa using ha
    have hs : (h.store a (L ++ some x :: some (T.move_assigned_from y x)
        :: (xs.map some ++ R))).load a
        = .ok ((L ++ [some x]) ++ some (T.move_assigned_from y x) :: (xs.map some ++ R)) := by
      rw [Heap.load_store_same _ ha1 (by simp)]
      simp
    obtain ⟨j, hj⟩ := ih _ (L ++ [some x]) R (T.move_assigned_from y x) (k + 1) hs
      (by simp [hk])
    refine ⟨j, ?_⟩
    simp only [List.length_cons, move_loop, move_assign_left_eq T ha1 hk, bind_ok, Ptr.add]
    rw [hj, Heap.store_store]
    simp

theorem copy_loop_eq (a : Nat) (xs : List α) :
    ∀ (h : Heap α) (L R : Block α) (y : α) (k : Nat),
    h.load a = .ok (L ++ some y :: (xs.map some ++ R)) → k = L.length →
    ∃ j, copy_loop xs.length h ⟨a, k + 1⟩ ⟨a, k⟩
      = .ok (h.store a (L ++ xs.map some ++ some j :: R)) := by
  induction xs with
  | nil =>
    intro h L R y k ha _
    refine ⟨y, ?_⟩
    simp only [List.map_nil, List.nil_append] at ha
    simp [copy_loop, Heap.store_load ha]
  | cons x xs ih =>
    intro h L R y k ha hk
    have ha1 : h.load a = .ok (L ++ some y :: some x :: (xs.map some ++ R)) := by simpa using ha
    have hs : (h.store a (L ++ some x :: some x :: (xs.map some ++ R))).load a
        = .ok ((L ++ [some x]) ++ some x :: (xs.map some ++ R)) := by
      rw [Heap.load_store_same _ ha1 (by simp)]
      simp
    obtain ⟨j, hj⟩ := ih _ (L ++ [some x]) R x (k + 1) hs (by simp [hk])
    refine ⟨j, ?_⟩
    simp only [List.length_cons, copy_loop, copy_assign_left_eq ha1 hk, bind_ok, Ptr.add]
    rw [hj, Heap.store_store]
    simp

theorem move_backward_loop_eq (T : TypeTraits α) (a : Nat) (xs : List α) :
    ∀ (h : Heap α) (L R : Block α) (y : α) (k : Nat),
    h.load a = .ok (L ++ xs.map some ++ some y :: R) → k = L.length →
    ∃ j, move_backward_loop T xs.length h ⟨a, k⟩ ⟨a, k + xs.length + 1⟩
      = .ok (h.store a (L ++ some j :: (xs.map some ++ R))) := by
  induction xs using List.reverseRecOn with
  | nil =>
    intro h L R y k ha _
    refine ⟨y, ?_⟩
    simp only [List.map_nil, List.append_nil] at ha
    simp [move_backward_loop, Heap.store_load ha]
  | append_singleton xs x ih =>
    intro h L R y k ha hk
    have ha1 : h.load a = .ok ((L ++ xs.map some) ++ some x :: some y :: R) := by
      simpa using ha
    have hk1 : k + xs.length = (L ++ xs.map some).length := by simp [hk]
    have hs : (h.store a ((L ++ xs.map some) ++ some (T.move_assigned_from y x)
        :: some x :: R)).load a
        = .ok (L ++ xs.map some ++ some (T.move_assigned_from y x) :: (some x :: R)) := by
      rw [Heap.load_store_same _ ha1 (by simp)]
    obtain ⟨j, hj⟩ := ih _ L (some x :: R) (T.move_assigned_from y x) k hs hk
    refine ⟨j, ?_⟩
    have hlen : (xs ++ [x]).length = xs.length + 1 := by simp
    rw [hlen]
    simp only [move_backward_loop, Ptr.sub, Ptr.add, Nat.add_sub_cancel]
    rw [show k + (xs.length + 1) = (k + xs.length) + 1 by omega,
      move_assign_right_eq T ha1 hk1, bind_ok, hj, Heap.store_store]
    simp

theorem construct_at_push (g : Heap α) (L R : Block α) (o : Option α) (x : α) (n k : Nat)
    (hn : n = g.next) (hk : k = L.length) :
    (g.push (L ++ o :: R)).construct_at ⟨n, k⟩ x = .ok (g.push (L ++ some x :: R)) := by
  rw [Heap.construct_at_eq x (Heap.load_push_eq g _ hn) hk, Heap.store_push_eq g _ _ hn]

theorem uninitialized_move_n_push (T : TypeTraits α) (g : Heap α) (xs : List α)
    (Ls Rs Ld ys Rd : Block α) (a m k n k' : Nat) (hm : m = xs.length)
    (ha : g.load a = .ok (Ls ++ xs.map some ++ Rs)) (hk : k = Ls.length)
    (hn : n = g.next) (hk' : k' = Ld.length) (hl : ys.length = xs.length) :
    uninitialized_move_n T m (g.push (Ld ++ ys ++ Rd)) ⟨a, k⟩ ⟨n, k'⟩
      = .ok ((g.store a (Ls ++ (xs.map T.moved_from).map some ++ Rs)).push
          (Ld ++ xs.map some ++ Rd)) := by
  have hlt : a < g.next := Heap.load_lt_next ha
  have hne : a ≠ n := by omega
  subst hm
  rw [uninitialized_move_n_eq T hne xs _ Ls Rs Ld ys Rd k k' (Heap.load_push_of_load _ ha) hk
    (Heap.load_push_eq g _ hn) hk' hl, Heap.store_push_of_lt g _ _ hlt,
    Heap.store_push_eq _ _ _ (by rw [Heap.next_store]; exact hn)]

theorem uninitialized_copy_n_push (g : Heap α) (xs : List α)
    (Ls Rs Ld ys Rd : Block α) (a m k n k' : Nat) (hm : m = xs.length)
    (ha : g.load a = .ok (Ls ++ xs.map some ++ Rs)) (hk : k = Ls.length)
    (hn : n = g.next) (hk' : k' = Ld.length) (hl : ys.length = xs.length) :
    uninitialized_copy_n m (g.push (Ld ++ ys ++ Rd)) ⟨a, k⟩ ⟨n, k'⟩
      = .ok (g.push (Ld ++ xs.map some ++ Rd)) := by
  have hlt : a < g.next := Heap.load_lt_next ha
  have hne : a ≠ n := by omega
  subst hm
  rw [uninitialized_copy_n_eq hne xs _ Ls Rs Ld ys Rd k k' (Heap.load_push_of_load _ ha) hk
    (Heap.load_push_eq g _ hn) hk' hl, Heap.store_push_eq g _ _ hn]

theorem destroy_n_push (g : Heap α) (xs : List α) (L R B : Block α) (a m k : Nat)
    (hm : m = xs.length) (ha : g.load a = .ok (L ++ xs.map some ++ R)) (hk : k = L.length) :
    destroy_n m (g.push B) ⟨a, k⟩
      = .ok ((g.store a (L ++ List.replicate m none ++ R)).push B) := by
  subst hm
  rw [destroy_n_eq a xs _ L R k (Heap.load_push_of_load _ ha) hk,
    Heap.store_push_of_lt g _ _ (Heap.load_lt_next ha)]

theorem dtor_push (g : Heap α) (B : Block α) (a c : Nat) {b0 : Block α}
    (ha : g.load a = .ok b0) :
    raw_memory.RawMemory.dtor (g.push B) ⟨⟨a, 0⟩, c⟩ = .ok ((g.release a).push B) := by
  unfold raw_memory.RawMemory.dtor raw_memory.RawMemory.Deallocate
  rw [operator_delete_eq (Heap.load_push_of_load _ ha),
    Heap.release_push_of_lt g _ (Heap.load_lt_next ha)]

end std

namespace vector
open cpp raw_memory std
variable {α : Type}

theorem layout_length (s : List α) (c : Nat) (hc : s.length ≤ c) : (layout s c).length = c := by
  simp [layout]; omega

theorem layout_full (s : List α) : layout s s.length = s.map some := by
  simp [layout]

theorem replicate_split {β : Type} (n m : Nat) (hm : m ≤ n) (b : β) :
    List.replicate n b = List.replicate m b ++ List.replicate (n - m) b := by
  rw [← List.replicate_add]
  congr 1
  omega

theorem replicate_split_cons {β : Type} (n m : Nat) (hm : m < n) (b : β) :
    List.replicate n b = List.replicate m b ++ b :: List.replicate (n - m - 1) b := by
  rw [replicate_split n m (by omega) b, show n - m = (n - m - 1) + 1 by omega,
    List.replicate_succ]
  simp

theorem layout_lt (s : List α) {c : Nat} (hc : s.length < c) :
    layout s c = s.map some ++ none :: List.replicate (c - s.length - 1) none := by
  unfold layout
  rw [replicate_split_cons (c - s.length) 0 (by omega) none]
  simp

theorem layout_snoc (s : List α) (x : α) (c : Nat) :
    layout (s ++ [x]) c = s.map some ++ some x :: List.replicate (c - s.length - 1) none := by
  simp [layout, Nat.sub_add_eq]

theorem ctor_eq (h : Heap α) {c : Nat} (hc : c ≠ 0) :
    RawMemory.ctor h c = (h.push (List.replicate c none), ⟨⟨h.next, 0⟩, c⟩) := by
  simp [RawMemory.ctor, RawMemory.Allocate, hc, operator_new_eq]

theorem ctor_zero (h : Heap α) : RawMemory.ctor h 0 = (h, ⟨nullptr, 0⟩) := by
  simp [RawMemory.ctor, RawMemory.Allocate]

theorem EmplaceBack_realloc (T : TypeTraits α) (h : Heap α) (a : Nat) (s : List α) (x : α)
    (ha : h.load a = .ok (layout s s.length)) :
    Vector.EmplaceBack T h ⟨⟨⟨a, 0⟩, s.length⟩, s.length⟩ x
      = .ok ((h.release a).push (layout (s ++ [x]) (if s.length = 0 then 1 else s.length * 2)),
          ⟨⟨⟨h.next, 0⟩, if s.length = 0 then 1 else s.length * 2⟩, s.length + 1⟩,
          ⟨h.next, s.length⟩) := by
  generalize hc : (if s.length = 0 then 1 else s.length * 2) = c
  have hlt : s.length < c := by
    subst hc
    split <;> omega
  have hc0 : c ≠ 0 := by omega
  have hle : s.length ≤ c := by omega
  have hsrc : h.load a = .ok ([] ++ s.map some ++ []) := by simpa [layout] using ha
  have e1 : (h.push (List.replicate c none)).construct_at ⟨h.next, 0 + s.length⟩ x
      = .ok (h.push ([] ++ List.replicate s.length none
          ++ some x :: List.replicate (c - s.length - 1) none)) := by
    rw [replicate_split_cons c s.length hlt none]
    simpa using construct_at_push h (List.replicate s.length none)
      (List.replicate (c - s.length - 1) none) none x h.next s.length rfl (by simp)
  have e2 := uninitialized_move_n_push T h s [] [] [] (List.replicate s.length none)
    (some x :: List.replicate (c - s.length - 1) none) a s.length 0 h.next 0
    rfl hsrc rfl rfl rfl (by simp)
  have e2' := uninitialized_copy_n_push h s [] [] [] (List.replicate s.length none)
    (some x :: List.replicate (c - s.length - 1) none) a s.length 0 h.next 0
    rfl hsrc rfl rfl rfl (by simp)
  have e3 := fun B => destroy_n_push (h.store a ([] ++ (s.map T.moved_from).map some ++ []))
    (s.map T.moved_from) [] [] B a s.length 0 (by simp)
    (Heap.load_store_len _ hsrc (by simp)) rfl
  have e3' := fun B => destroy_n_push h s [] [] B a s.length 0 rfl hsrc rfl
  have e4 := fun (g : Heap α) B b0 (hg : g.load a = .ok b0) =>
    dtor_push g B a s.length hg
  simp only [Vector.EmplaceBack, Vector.Capacity, RawMemory.Capacity, if_true, hc,
    ctor_eq h hc0, RawMemory.plus, RawMemory.GetAddress, hle,
    RawMemory.Swap, Vector.Back, RawMemory.index, size_t_pred, Ptr.add, e1, bind_ok]
  cases hm : relocates_by_move T
  · simp only [Bool.false_eq_true, if_false]
    rw [e2']
    simp only [bind_ok]
    rw [e3']
    simp only [bind_ok]
    rw [e4 _ _ _ (Heap.load_store_len _ hsrc (by simp))]
    simp only [bind_ok, pure_eq_ok, Heap.release_store]
    simp [layout_snoc, hlt, bind_ok]
  · simp only [if_true]
    rw [e2]
    simp only [bind_ok]
    rw [e3]
    simp only [bind_ok]
    rw [e4 _ _ _ (Heap.load_store_len _ (Heap.load_store_len _ hsrc (by simp)) (by simp))]
    simp only [bind_ok, pure_eq_ok, Heap.release_store]
    simp [layout_snoc, hlt, bind_ok]

theorem Vector.Holds.mk_iff (h : Heap α) (a o c n : Nat) (s : List α) :
    Vector.Holds h ⟨⟨⟨a, o⟩, c⟩, n⟩ s ↔
      n = s.length ∧ s.length ≤ c ∧ o = 0 ∧ (c = 0 → a = 0) ∧ h.load a = .ok (layout s c) :=
  Iff.rfl

theorem Vector.Holds.of_store {h : Heap α} {a c : Nat} {b0 : Block α} (s : List α)
    (ha : h.load a = .ok b0) (hb : b0.length = c) (hs : s.length ≤ c) (h0 : c = 0 → a = 0) :
    Vector.Holds (h.store a (layout s c)) ⟨⟨⟨a, 0⟩, c⟩, s.length⟩ s :=
  ⟨rfl, hs, rfl, h0, Heap.load_store_len _ ha (by rw [layout_length s c hs, hb])⟩

theorem Vector.Holds.of_push (g : Heap α) {c : Nat} (s : List α) (hs : s.length ≤ c)
    (hc : c ≠ 0) : Vector.Holds (g.push (layout s c)) ⟨⟨⟨g.next, 0⟩, c⟩, s.length⟩ s :=
  ⟨rfl, hs, rfl, fun h => absurd h hc, Heap.load_push_next g _⟩

theorem Vector.Holds.read {h : Heap α} {v : Vector} {s : List α} (hv : v.Holds h s)
    (i : Nat) (hi : i < s.length) : h.read (v.begin.add i) = .ok (s.get ⟨i, hi⟩) := by
  obtain ⟨⟨⟨a, o⟩, c⟩, n⟩ := v
  obtain ⟨_, _, ho, _, ha⟩ := hv
  simp only at ho ha
  subst ho
  have hs : s.take i ++ s.get ⟨i, hi⟩ :: s.drop (i + 1) = s := by
    rw [List.get_eq_getElem, ← List.drop_eq_getElem_cons hi, List.take_append_drop]
  have hm : s.map some = (s.take i).map some
      ++ some (s.get ⟨i, hi⟩) :: (s.drop (i + 1)).map some := by
    conv_lhs => rw [← hs]
    rw [List.map_append, List.map_cons]
  have hsplit : layout s c = (s.take i).map some
      ++ some (s.get ⟨i, hi⟩)
        :: ((s.drop (i + 1)).map some ++ List.replicate (c - s.length) none) := by
    unfold layout
    rw [hm, List.append_assoc, List.cons_append]
  rw [hsplit] at ha
  simpa [Vector.begin, RawMemory.GetAddress, Ptr.add] using
    Heap.read_eq ha (show i = ((s.take i).map some).length by simp; omega)

theorem EmplaceBack_inplace (T : TypeTraits α) (h : Heap α) (a c : Nat) (s : List α) (x : α)
    (hlt : s.length < c) (ha : h.load a = .ok (layout s c)) :
    Vector.EmplaceBack T h ⟨⟨⟨a, 0⟩, c⟩, s.length⟩ x
      = .ok (h.store a (layout (s ++ [x]) c), ⟨⟨⟨a, 0⟩, c⟩, s.length + 1⟩, ⟨a, s.length⟩) := by
  have hne : s.length ≠ c := by omega
  rw [layout_lt s hlt] at ha
  have e1 := Heap.construct_at_eq x ha (show 0 + s.length = (s.map some).length by simp)
  simp only [Vector.EmplaceBack, Vector.Capacity, RawMemory.Capacity, hne, if_false,
    Vector.end, RawMemory.GetAddress, Ptr.add, e1, bind_ok, pure_eq_ok, Vector.Back,
    RawMemory.index, size_t_pred]
  simp [layout_snoc, hlt, bind_ok]

theorem load_zero (h : Heap α) : h.load 0 = .ok [] := by simp [Heap.load]

theorem frame_refl (h : Heap α) (a : Nat) : h.frame h a := fun _ _ _ hq => hq

theorem frame_store (h : Heap α) (a : Nat) (b : Block α) : h.frame (h.store a b) a := by
  intro q b' hne hq
  rw [Heap.load_store_ne _ _ (Ne.symm hne)]
  exact hq

theorem frame_realloc (h : Heap α) (a : Nat) (b : Block α) :
    h.frame ((h.release a).push b) a := by
  intro q b' hne hq
  apply Heap.load_push_of_load
  rw [Heap.load_release_ne _ (Ne.symm hne)]
  exact hq

theorem Vector.Holds.transfer {h h' : Heap α} {w : Vector} {t : List α} {a : Nat}
    (hw : w.Holds h t) (hf : h.frame h' a) (hne : w.data_.buffer_.base = a → a = 0) :
    w.Holds h' t := by
  obtain ⟨h1, h2, h3, h4, h5⟩ := hw
  refine ⟨h1, h2, h3, h4, ?_⟩
  by_cases hb : w.data_.buffer_.base = a
  · have h0 : w.data_.buffer_.base = 0 := by rw [hb]; exact hne hb
    rw [h0] at h5 ⊢
    rw [load_zero] at h5 ⊢
    exact h5
  · exact hf _ _ hb h5

theorem Effect.inplace {h : Heap α} {a c n : Nat} {s : List α} (s' : List α)
    (hv : Vector.Holds h ⟨⟨⟨a, 0⟩, c⟩, n⟩ s) (hs : s'.length ≤ c) :
    Effect h ⟨⟨⟨a, 0⟩, c⟩, n⟩ (h.store a (layout s' c)) ⟨⟨⟨a, 0⟩, c⟩, s'.length⟩ s' := by
  obtain ⟨_, hle, _, h0, ha⟩ := hv
  exact ⟨Vector.Holds.of_store s' ha (layout_length s c hle) hs h0, frame_store h a _,
    Or.inl rfl⟩

theorem Effect.realloc (h : Heap α) (a c n c' : Nat) (s' : List α)
    (hs : s'.length ≤ c') (hc : c' ≠ 0) :
    Effect h ⟨⟨⟨a, 0⟩, c⟩, n⟩ ((h.release a).push (layout s' c'))
      ⟨⟨⟨h.next, 0⟩, c'⟩, s'.length⟩ s' := by
  refine ⟨?_, frame_realloc h a _, Or.inr rfl⟩
  have := Vector.Holds.of_push (h.release a) s' hs hc
  rwa [Heap.next_release] at this

theorem EmplaceBack_post (T : TypeTraits α) {h : Heap α} {v : Vector} {s : List α} (x : α)
    (hv : v.Holds h s) :
    ∃ h' v', v.EmplaceBack T h x = .ok (h', v', v'.begin.add s.length) ∧
      Effect h v h' v' (s ++ [x]) ∧
      v'.data_.capacity_ = if s.length < v.data_.capacity_ then v.data_.capacity_
        else if s.length = 0 then 1 else s.length * 2 := by
  obtain ⟨⟨⟨a, o⟩, c⟩, n⟩ := v
  have hv' := hv
  obtain ⟨hn, hle, ho, h0, ha⟩ := hv'
  simp only at hn hle ho h0 ha
  subst hn ho
  by_cases hlt : s.length < c
  · refine ⟨h.store a (layout (s ++ [x]) c), ⟨⟨⟨a, 0⟩, c⟩, s.length + 1⟩, ?_, ?_, ?_⟩
    · rw [EmplaceBack_inplace T h a c s x hlt ha]
      simp [Vector.begin, RawMemory.GetAddress, Ptr.add]
    · have := Effect.inplace (s ++ [x]) hv (by simp; omega)
      simpa using this
    · simp [hlt]
  · have hc : c = s.length := by omega
    subst hc
    refine ⟨(h.release a).push (layout (s ++ [x]) (if s.length = 0 then 1 else s.length * 2)),
      ⟨⟨⟨h.next, 0⟩, if s.length = 0 then 1 else s.length * 2⟩, s.length + 1⟩, ?_, ?_, ?_⟩
    · rw [EmplaceBack_realloc T h a s x ha]
      simp [Vector.begin, RawMemory.GetAddress, Ptr.add]
    · have := Effect.realloc h a s.length s.length (if s.length = 0 then 1 else s.length * 2)
        (s ++ [x]) (by simp; split <;> omega) (by split <;> omega)
      simpa using this
    · simp

theorem Reserve_noop (T : TypeTraits α) (h : Heap α) (v : Vector) (n : Nat)
    (hn : n ≤ v.data_.capacity_) : v.Reserve T h n = .ok (h, v) := by
  have : ¬ n > v.data_.capacity_ := by omega
  simp [Vector.Reserve, Vector.Capacity, RawMemory.Capacity, this, pure_eq_ok]

theorem Reserve_grow (T : TypeTraits α) (h : Heap α) (a c : Nat) (s : List α) (n : Nat)
    (hn : c < n) (hle : s.length ≤ c) (ha : h.load a = .ok (layout s c)) :
    Vector.Reserve T h ⟨⟨⟨a, 0⟩, c⟩, s.length⟩ n
      = .ok ((h.release a).push (layout s n), ⟨⟨⟨h.next, 0⟩, n⟩, s.length⟩) := by
  have hn0 : n ≠ 0 := by omega
  have hgt : n > c := hn
  have hsrc : h.load a = .ok ([] ++ s.map some ++ List.replicate (c - s.length) none) := by
    simpa [layout] using ha
  have hnew : (List.replicate n none : Block α)
      = [] ++ List.replicate s.length none ++ List.replicate (n - s.length) none := by
    rw [List.nil_append]
    exact replicate_split n s.length (by omega) none
  have e2 := uninitialized_move_n_push T h s [] (List.replicate (c - s.length) none) []
    (List.replicate s.length none) (List.replicate (n - s.length) none) a s.length 0 h.next 0
    rfl hsrc rfl rfl rfl (by simp)
  have e2' := uninitialized_copy_n_push h s [] (List.replicate (c - s.length) none) []
    (List.replicate s.length none) (List.replicate (n - s.length) none) a s.length 0 h.next 0
    rfl hsrc rfl rfl rfl (by simp)
  have e3 := fun B => destroy_n_push
    (h.store a ([] ++ (s.map T.moved_from).map some ++ List.replicate (c - s.length) none))
    (s.map T.moved_from) [] (List.replicate (c - s.length) none) B a s.length 0 (by simp)
    (Heap.load_store_len _ hsrc (by simp)) rfl
  have e3' := fun B => destroy_n_push h s [] (List.replicate (c - s.length) none) B a
    s.length 0 rfl hsrc rfl
  have e4 := fun (g : Heap α) B b0 (hg : g.load a = .ok b0) => dtor_push g B a c hg
  simp only [Vector.Reserve, Vector.Capacity, RawMemory.Capacity, hgt, if_true,
    ctor_eq h hn0, RawMemory.GetAddress, RawMemory.Swap, hnew]
  cases hm : relocates_by_move T
  · simp only [Bool.false_eq_true, if_false]
    rw [e2']
    simp only [bind_ok]
    rw [e3']
    simp only [bind_ok]
    rw [e4 _ _ _ (Heap.load_store_len _ hsrc (by simp))]
    simp [Heap.release_store, layout, bind_ok, pure_eq_ok]
  · simp only [if_true]
    rw [e2]
    simp only [bind_ok]
    rw [e3]
    simp only [bind_ok]
    rw [e4 _ _ _ (Heap.load_store_len _ (Heap.load_store_len _ hsrc (by simp)) (by simp))]
    simp [Heap.release_store, layout, bind_ok, pure_eq_ok]

theorem Reserve_post (T : TypeTraits α) {h : Heap α} {v : Vector} {s : List α} (n : Nat)
    (hv : v.Holds h s) :
    ∃ h' v', v.Reserve T h n = .ok (h', v') ∧ Effect h v h' v' s ∧
      v'.data_.capacity_ = (if n > v.data_.capacity_ then n else v.data_.capacity_) := by
  by_cases hn : n > v.data_.capacity_
  · obtain ⟨⟨⟨a, o⟩, c⟩, m⟩ := v
    obtain ⟨hm, hle, ho, h0, ha⟩ := hv
    simp only at hm hle ho h0 ha hn
    subst hm ho
    refine ⟨_, _, Reserve_grow T h a c s n hn hle ha, ?_, by simp [hn]⟩
    exact Effect.realloc h a c s.length n s (by omega) (by omega)
  · refine ⟨h, v, Reserve_noop T h v n (by omega), ⟨hv, frame_refl h _, Or.inl rfl⟩,
      by simp [hn]⟩

theorem layout_insert (pre post : List α) (x : α) (c : Nat) :
    layout (pre ++ x :: post) c = pre.map some ++ some x ::
      (post.map some ++ List.replicate (c - pre.length - 1 - post.length) none) := by
  simp only [layout, List.map_append, List.map_cons, List.length_append, List.length_cons,
    List.append_assoc, List.cons_append]
  congr 4
  omega

theorem Emplace_assert (a n k : Nat) (hk : k ≤ n) :
    ((Vector.begin ⟨⟨⟨a, 0⟩, n⟩, n⟩).le ⟨a, k⟩ && (⟨a, k⟩ : Ptr).le (Vector.end ⟨⟨⟨a, 0⟩, n⟩, n⟩))
      = true := by
  simp [Ptr.le, Vector.begin, Vector.end, RawMemory.GetAddress, Ptr.add, hk]

theorem Emplace_realloc (T : TypeTraits α) (h : Heap α) (a : Nat) (pre post : List α) (x : α)
    (n : Nat) (hn : n = pre.length + post.length) (ha : h.load a = .ok (layout (pre ++ post) n)) :
    Vector.Emplace T h ⟨⟨⟨a, 0⟩, n⟩, n⟩ ⟨a, pre.length⟩ x
      = .ok ((h.release a).push (layout (pre ++ x :: post) (if n = 0 then 1 else n * 2)),
          ⟨⟨⟨h.next, 0⟩, if n = 0 then 1 else n * 2⟩, n + 1⟩, ⟨h.next, pre.length⟩) := by
  generalize hc : (if n = 0 then 1 else n * 2) = c
  have hlt : n < c := by
    subst hc
    split <;> omega
  have hc0 : c ≠ 0 := by omega
  have hle : pre.length ≤ c := by omega
  have hle' : pre.length ≤ n := by omega
  have hsrc : h.load a = .ok ([] ++ pre.map some ++ post.map some) := by
    simpa [layout, hn] using ha
  have e1 : (h.push (List.replicate c none)).construct_at ⟨h.next, 0 + pre.length⟩ x
      = .ok (h.push ([] ++ List.replicate pre.length none
          ++ some x :: List.replicate (c - pre.length - 1) none)) := by
    rw [replicate_split_cons c pre.length (by omega) none]
    simpa using construct_at_push h (List.replicate pre.length none)
      (List.replicate (c - pre.length - 1) none) none x h.next pre.length rfl (by simp)
  -- the block after the prefix was relocated, seen as the target of the second relocation
  have hmid : ([] ++ pre.map some ++ some x :: List.replicate (c - pre.length - 1) none
        : Block α)
      = (pre.map some ++ [some x]) ++ List.replicate post.length none
          ++ List.replicate (c - pre.length - 1 - post.length) none := by
    rw [replicate_split (c - pre.length - 1) post.length (by omega) none]
    simp
  simp only [Vector.Emplace, Emplace_assert a n pre.length hle', if_true, Vector.cbegin,
    Vector.Capacity, RawMemory.Capacity, RawMemory.GetAddress, Ptr.add, hc, ctor_eq h hc0,
    RawMemory.plus, RawMemory.Swap, hle, hle', Nat.sub_zero, Nat.zero_le, e1, bind_ok]
  cases hm : relocates_by_move T
  · simp only [Bool.false_eq_true, if_false]
    rw [uninitialized_copy_n_push h pre [] (post.map some) [] (List.replicate pre.length none)
      (some x :: List.replicate (c - pre.length - 1) none) a pre.length (0 + 0) h.next (0 + 0)
      rfl hsrc rfl rfl rfl (by simp)]
    simp only [bind_ok]
    rw [hmid, uninitialized_copy_n_push h post (pre.map some) [] (pre.map some ++ [some x])
      (List.replicate post.length none) (List.replicate (c - pre.length - 1 - post.length) none)
      a (n - pre.length) (0 + pre.length) h.next (0 + pre.length + 1)
      (by omega) (by simpa using hsrc) (by simp) rfl (by simp) (by simp)]
    simp only [bind_ok]
    rw [destroy_n_push h (pre ++ post) [] [] _ a n 0 (by simp [hn]) (by simpa using hsrc) rfl]
    simp only [bind_ok]
    rw [dtor_push _ _ a n (Heap.load_store_len _ hsrc (by simp [hn]))]
    simp [Heap.release_store, layout_insert, bind_ok, pure_eq_ok]
  · simp only [if_true]
    have hg1 : (h.store a ([] ++ (pre.map T.moved_from).map some ++ post.map some)).load a
        = .ok ((pre.map T.moved_from).map some ++ post.map some ++ []) := by
      rw [Heap.load_store_len _ hsrc (by simp)]
      simp
    have hg2 : ((h.store a ([] ++ (pre.map T.moved_from).map some ++ post.map some)).store a
        ((pre.map T.moved_from).map some ++ (post.map T.moved_from).map some ++ [])).load a
        = .ok ([] ++ (pre.map T.moved_from ++ post.map T.moved_from).map some ++ []) := by
      rw [Heap.load_store_len _ hg1 (by simp)]
      simp
    rw [uninitialized_move_n_push T h pre [] (post.map some) [] (List.replicate pre.length none)
      (some x :: List.replicate (c - pre.length - 1) none) a pre.length (0 + 0) h.next (0 + 0)
      rfl hsrc rfl rfl rfl (by simp)]
    simp only [bind_ok]
    rw [hmid, uninitialized_move_n_push T _ post ((pre.map T.moved_from).map some) []
      (pre.map some ++ [some x])
      (List.replicate post.length none) (List.replicate (c - pre.length - 1 - post.length) none)
      a (n - pre.length) (0 + pre.length) h.next (0 + pre.length + 1)
      (by omega) hg1 (by simp) (Heap.next_store _ _ _).symm (by simp) (by simp)]
    simp only [bind_ok]
    rw [destroy_n_push _ (pre.map T.moved_from ++ post.map T.moved_from) [] [] _ a n 0
      (by simp [hn]) hg2 rfl]
    simp only [bind_ok]
    rw [dtor_push _ _ a n (Heap.load_store_len _ hg2 (by simp [hn]))]
    simp [Heap.release_store, layout_insert, bind_ok, pure_eq_ok]

theorem move_construct_next_eq (T : TypeTraits α) {h : Heap α} {a k : Nat} {L R : Block α}
    {y : α} {o : Option α} (ha : h.load a = .ok (L ++ some y :: o :: R)) (hk : k = L.length) :
    move_construct T h ⟨a, k + 1⟩ ⟨a, k⟩
      = .ok (h.store a (L ++ some (T.moved_from y) :: some y :: R)) := by
  have hdst : h.load a = .ok ((L ++ [some y]) ++ o :: R) := by simpa using ha
  have hk1 : k + 1 = (L ++ [some y]).length := by simp [hk]
  have h1 : (h.store a ((L ++ [some y]) ++ some y :: R)).load a
      = .ok (L ++ some y :: some y :: R) := by
    rw [Heap.load_store_same _ ha (by simp)]
    simp
  simp only [move_construct, Heap.read_eq ha hk, Heap.construct_at_eq y hdst hk1, bind_ok]
  rw [Heap.write_eq _ h1 hk, Heap.store_store]

theorem move_backward_eq (T : TypeTraits α) (a : Nat) (xs : List α) (h : Heap α)
    (L R : Block α) (y : α) (k : Nat)
    (ha : h.load a = .ok (L ++ xs.map some ++ some y :: R)) (hk : k = L.length) :
    ∃ j, move_backward T h ⟨a, k⟩ ⟨a, k + xs.length⟩ ⟨a, k + xs.length + 1⟩
      = .ok (h.store a (L ++ some j :: (xs.map some ++ R))) := by
  obtain ⟨j, hj⟩ := move_backward_loop_eq T a xs h L R y k ha hk
  refine ⟨j, ?_⟩
  have hle : xs.length ≤ k + xs.length + 1 := by omega
  simp only [move_backward, distance, Nat.le_add_right, and_self, if_true, bind_ok,
    Nat.add_sub_cancel_left, hle, hj]

theorem move_eq (T : TypeTraits α) (a : Nat) (xs : List α) (h : Heap α)
    (L R : Block α) (y : α) (k l : Nat) (hl : l = k + 1 + xs.length)
    (ha : h.load a = .ok (L ++ some y :: (xs.map some ++ R))) (hk : k = L.length) :
    ∃ j, move T h ⟨a, k + 1⟩ ⟨a, l⟩ ⟨a, k⟩
      = .ok (h.store a (L ++ xs.map some ++ some j :: R)) := by
  subst hl
  obtain ⟨j, hj⟩ := move_loop_eq T a xs h L R y k ha hk
  refine ⟨j, ?_⟩
  simp only [move, distance, Nat.le_add_right, and_self, if_true, bind_ok,
    Nat.add_sub_cancel_left, hj]

theorem copy_eq (a : Nat) (xs : List α) (h : Heap α)
    (L R : Block α) (y : α) (k l : Nat) (hl : l = k + 1 + xs.length)
    (ha : h.load a = .ok (L ++ some y :: (xs.map some ++ R))) (hk : k = L.length) :
    ∃ j, copy h ⟨a, k + 1⟩ ⟨a, l⟩ ⟨a, k⟩
      = .ok (h.store a (L ++ xs.map some ++ some j :: R)) := by
  subst hl
  obtain ⟨j, hj⟩ := copy_loop_eq a xs h L R y k ha hk
  refine ⟨j, ?_⟩
  simp only [copy, distance, Nat.le_add_right, and_self, if_true, bind_ok,
    Nat.add_sub_cancel_left, hj]

theorem Emplace_tail (T : TypeTraits α) (h : Heap α) (a c : Nat) (s : List α) (x : α)
    (n : Nat) (hn : n = s.length) (hlt : n < c) (ha : h.load a = .ok (layout s c)) :
    Vector.Emplace T h ⟨⟨⟨a, 0⟩, c⟩, n⟩ ⟨a, n⟩ x
      = .ok (h.store a (layout (s ++ [x]) c), ⟨⟨⟨a, 0⟩, c⟩, n + 1⟩, ⟨a, n⟩) := by
  subst hn
  have hne : s.length ≠ c := by omega
  have hle : s.length ≤ c := by omega
  have hassert : ((Vector.begin ⟨⟨⟨a, 0⟩, c⟩, s.length⟩).le ⟨a, s.length⟩
      && (⟨a, s.length⟩ : Ptr).le (Vector.end ⟨⟨⟨a, 0⟩, c⟩, s.length⟩)) = true := by
    simp [Ptr.le, Vector.begin, Vector.end, RawMemory.GetAddress, Ptr.add]
  rw [layout_lt s hlt] at ha
  have e1 := Heap.construct_at_eq x ha (show s.length = (s.map some).length by simp)
  simp only [Vector.Emplace, hassert, if_true]
  simp only [Vector.Capacity, RawMemory.Capacity, hne,
    if_false, RawMemory.plus, hle, Ptr.add, Vector.cbegin,
    RawMemory.GetAddress, Vector.end, Nat.zero_add, if_true, e1, bind_ok, pure_eq_ok]
  simp [layout_snoc, hlt]

theorem Emplace_shift (T : TypeTraits α) (h : Heap α) (a c : Nat) (pre mid : List α) (y x : α)
    (n : Nat) (hn : n = pre.length + mid.length + 1) (hlt : n < c)
    (ha : h.load a = .ok (layout (pre ++ mid ++ [y]) c)) :
    Vector.Emplace T h ⟨⟨⟨a, 0⟩, c⟩, n⟩ ⟨a, pre.length⟩ x
      = .ok (h.store a (layout (pre ++ x :: (mid ++ [y])) c), ⟨⟨⟨a, 0⟩, c⟩, n + 1⟩,
          ⟨a, pre.length⟩) := by
  subst hn
  have hne : pre.length + mid.length + 1 ≠ c := by omega
  have hle : pre.length + mid.length + 1 ≤ c := by omega
  have hle1 : pre.length + mid.length < c := by omega
  have hle2 : pre.length ≤ c := by omega
  have hle3 : pre.length < c := by omega
  have hassert : ((Vector.begin ⟨⟨⟨a, 0⟩, c⟩, pre.length + mid.length + 1⟩).le ⟨a, pre.length⟩
      && (⟨a, pre.length⟩ : Ptr).le (Vector.end ⟨⟨⟨a, 0⟩, c⟩, pre.length + mid.length + 1⟩))
      = true := by
    simp [Ptr.le, Vector.begin, Vector.end, RawMemory.GetAddress, Ptr.add]
    omega
  have hend : ¬ ((⟨a, pre.length⟩ : Ptr)
      = Vector.end ⟨⟨⟨a, 0⟩, c⟩, pre.length + mid.length + 1⟩) := by
    simp [Vector.end, RawMemory.GetAddress, Ptr.add]
    omega
  have hblk : layout (pre ++ mid ++ [y]) c
      = (pre.map some ++ mid.map some) ++ some y :: none
        :: List.replicate (c - (pre.length + mid.length + 1) - 1) none := by
    rw [layout_lt _ (by simp; omega)]
    simp [Nat.add_assoc]
  rw [hblk] at ha
  have e1 := move_construct_next_eq T ha
    (show pre.length + mid.length = (pre.map some ++ mid.map some).length by simp)
  have ha1 : (h.store a ((pre.map some ++ mid.map some) ++ some (T.moved_from y) :: some y
        :: List.replicate (c - (pre.length + mid.length + 1) - 1) none)).load a
      = .ok (pre.map some ++ mid.map some ++ some (T.moved_from y) :: (some y
        :: List.replicate (c - (pre.length + mid.length + 1) - 1) none)) :=
    Heap.load_store_same _ ha (by simp)
  obtain ⟨j, e2⟩ := move_backward_eq T a mid _ (pre.map some) _ (T.moved_from y) pre.length ha1
    (by simp)
  have ha2 : ((h.store a ((pre.map some ++ mid.map some) ++ some (T.moved_from y) :: some y
        :: List.replicate (c - (pre.length + mid.length + 1) - 1) none)).store a
        (pre.map some ++ some j :: (mid.map some ++ (some y
        :: List.replicate (c - (pre.length + mid.length + 1) - 1) none)))).load a
      = .ok (pre.map some ++ some j :: (mid.map some ++ (some y
        :: List.replicate (c - (pre.length + mid.length + 1) - 1) none))) :=
    Heap.load_store_same _ ha1 (by simp)
  have e3 := Heap.write_eq x ha2 (show pre.length = (pre.map some).length by simp)
  simp only [Vector.Emplace, hassert, if_true, hend]
  simp only [Vector.Capacity, RawMemory.Capacity, hne, hle, hle1, hle2, hle3,
    if_false, RawMemory.plus, Ptr.add, Ptr.sub, bind_ok, pure_eq_ok, Vector.cbegin,
    RawMemory.GetAddress, Vector.Back, RawMemory.index, size_t_pred, Vector.end,
    Nat.zero_add, Nat.sub_zero, Nat.add_sub_cancel, Nat.succ_ne_zero, if_true, e1, e2, e3]
  simp only [Heap.store_store, layout_insert, List.map_append, List.map_cons, List.map_nil,
    List.length_append, List.length_cons, List.length_nil, Nat.zero_add]
  rw [show c - (pre.length + mid.length + 1) - 1 = c - pre.length - 1 - (mid.length + 1) by omega]
  simp

theorem Emplace_post (T : TypeTraits α) {h : Heap α} {v : Vector} {s : List α} (i : Nat) (x : α)
    (hv : v.Holds h s) (hi : i ≤ s.length) :
    ∃ h' v', v.Emplace T h (v.begin.add i) x = .ok (h', v', v'.begin.add i) ∧
      Effect h v h' v' (s.take i ++ x :: s.drop i) ∧
      v'.data_.capacity_ = if s.length < v.data_.capacity_ then v.data_.capacity_
        else if s.length = 0 then 1 else s.length * 2 := by
  obtain ⟨⟨⟨a, o⟩, c⟩, n⟩ := v
  have hv' := hv
  obtain ⟨hn, hle, ho, h0, ha⟩ := hv'
  simp only at hn hle ho h0 ha
  subst ho hn
  have hsplit : s.take i ++ s.drop i = s := List.take_append_drop i s
  have hpre : (s.take i).length = i := by simp [hi]
  have hpost : (s.drop i).length = s.length - i := by simp
  have hlen' : (s.take i ++ x :: s.drop i).length = s.length + 1 := by
    simp [hpre]; omega
  have hbegin : ∀ c' k, (Vector.begin ⟨⟨⟨a, 0⟩, c'⟩, k⟩).add i = ⟨a, (s.take i).length⟩ := by
    intro c' k
    simp [Vector.begin, RawMemory.GetAddress, Ptr.add, hi]
  by_cases hlt : s.length < c
  · refine ⟨h.store a (layout (s.take i ++ x :: s.drop i) c), ⟨⟨⟨a, 0⟩, c⟩, s.length + 1⟩,
      ?_, ?_, ?_⟩
    · rw [hbegin, hbegin]
      by_cases hie : i = s.length
      · subst hie
        have := Emplace_tail T h a c s x s.length rfl hlt ha
        simpa using this
      · have hne : s.drop i ≠ [] := by
          intro hd
          have := congrArg List.length hd
          simp at this
          omega
        have hd : s.drop i = (s.drop i).dropLast ++ [(s.drop i).getLast hne] :=
          (List.dropLast_append_getLast hne).symm
        have hs2 : s.take i ++ (s.drop i).dropLast ++ [(s.drop i).getLast hne] = s := by
          rw [List.append_assoc, ← hd, hsplit]
        have ha' : h.load a
            = .ok (layout (s.take i ++ (s.drop i).dropLast ++ [(s.drop i).getLast hne]) c) := by
          rw [hs2]; exact ha
        have hmid : ((s.drop i).dropLast).length = s.length - i - 1 := by simp
        have := Emplace_shift T h a c (s.take i) (s.drop i).dropLast
          ((s.drop i).getLast hne) x s.length (by rw [hpre, hmid]; omega) hlt ha'
        rw [← hd] at this
        exact this
    · have := Effect.inplace (s.take i ++ x :: s.drop i) hv (by rw [hlen']; omega)
      rw [hlen'] at this
      exact this
    · simp [hlt]
  · have hc : c = s.length := by omega
    subst hc
    refine ⟨(h.release a).push (layout (s.take i ++ x :: s.drop i)
        (if s.length = 0 then 1 else s.length * 2)),
      ⟨⟨⟨h.next, 0⟩, if s.length = 0 then 1 else s.length * 2⟩, s.length + 1⟩, ?_, ?_, ?_⟩
    · have ha' : h.load a = .ok (layout (s.take i ++ s.drop i) s.length) := by
        rw [hsplit]; exact ha
      have := Emplace_realloc T h a (s.take i) (s.drop i) x s.length
        (by rw [hpre, hpost]; omega) ha'
      rw [hbegin, this]
      simp [Vector.begin, RawMemory.GetAddress, Ptr.add, hi]
    · have := Effect.realloc h a s.length s.length (if s.length = 0 then 1 else s.length * 2)
        (s.take i ++ x :: s.drop i) (by rw [hlen']; split <;> omega) (by split <;> omega)
      rw [hlen'] at this
      exact this
    · simp

theorem layout_remove (pre post : List α) (c n : Nat) (hn : n = pre.length + post.length + 1)
    (hc : n ≤ c) :
    (pre.map some ++ post.map some ++ none :: List.replicate (c - n) none : Block α)
      = layout (pre ++ post) c := by
  subst hn
  unfold layout
  rw [replicate_split_cons (c - (pre ++ post).length) 0 (by simp; omega) none]
  simp
  omega

theorem Erase_eq (T : TypeTraits α) (h : Heap α) (a c : Nat) (pre post : List α) (y : α)
    (n : Nat) (hn : n = pre.length + post.length + 1) (hle : n ≤ c)
    (ha : h.load a = .ok (layout (pre ++ y :: post) c)) :
    Vector.Erase T h ⟨⟨⟨a, 0⟩, c⟩, n⟩ ⟨a, pre.length⟩
      = .ok (h.store a (layout (pre ++ post) c), ⟨⟨⟨a, 0⟩, c⟩, n - 1⟩, ⟨a, pre.length⟩) := by
  have hassert : ((Vector.begin ⟨⟨⟨a, 0⟩, c⟩, n⟩).le ⟨a, pre.length⟩
      && (⟨a, pre.length⟩ : Ptr).le (Vector.end ⟨⟨⟨a, 0⟩, c⟩, n⟩)) = true := by
    simp [Ptr.le, Vector.begin, Vector.end, RawMemory.GetAddress, Ptr.add]
    omega
  have hblk : layout (pre ++ y :: post) c
      = pre.map some ++ some y :: (post.map some ++ List.replicate (c - n) none) := by
    rw [layout_insert]
    rw [show c - pre.length - 1 - post.length = c - n by omega]
  rw [hblk] at ha
  have hk : pre.length = (pre.map some).length := by simp
  obtain ⟨j, e1⟩ := move_eq T a post h (pre.map some) (List.replicate (c - n) none) y
    pre.length n (by omega) ha hk
  obtain ⟨j', e1'⟩ := copy_eq a post h (pre.map some) (List.replicate (c - n) none) y
    pre.length n (by omega) ha hk
  have hd : ∀ j : α, destroy_n 1 (h.store a (pre.map some ++ post.map some
        ++ some j :: List.replicate (c - n) none)) ⟨a, n - 1⟩
      = .ok (h.store a (layout (pre ++ post) c)) := by
    intro j
    have hl : (h.store a (pre.map some ++ post.map some
        ++ some j :: List.replicate (c - n) none)).load a
        = .ok ((pre.map some ++ post.map some) ++ [j].map some
          ++ List.replicate (c - n) none) := by
      rw [Heap.load_store_same _ ha (by simp)]
      simp
    have := destroy_n_eq a [j] _ (pre.map some ++ post.map some) (List.replicate (c - n) none)
      (n - 1) hl (by simp; omega)
    rw [List.length_singleton] at this
    rw [this, Heap.store_store]
    congr 2
    rw [← layout_remove pre post c n hn hle]
    simp
  have hn0 : n ≠ 0 := by omega
  simp only [Vector.Erase, hassert, if_true]
  simp only [Vector.begin, Vector.cbegin, Vector.end, RawMemory.GetAddress, Ptr.add, Ptr.sub,
    Nat.zero_add, Nat.sub_zero, size_t_pred, hn0, if_false]
  cases hm : relocates_by_move T
  · simp only [Bool.false_eq_true, if_false, e1', bind_ok, hd, pure_eq_ok]
  · simp only [if_true, e1, bind_ok, hd, pure_eq_ok]

theorem PopBack_eq (h : Heap α) (a c : Nat) (y : α) (rest : List α) (n : Nat)
    (hn : n = rest.length + 1) (ha : h.load a = .ok (layout (y :: rest) c)) :
    Vector.PopBack h ⟨⟨⟨a, 0⟩, c⟩, n⟩
      = .ok (h.store a (none :: (rest.map some ++ List.replicate (c - n) none)),
          ⟨⟨⟨a, 0⟩, c⟩, n - 1⟩) := by
  have hl : h.load a = .ok ([] ++ [y].map some ++ (rest.map some
      ++ List.replicate (c - n) none)) := by
    rw [ha]
    simp [layout, hn]
  have := destroy_n_eq a [y] h [] _ 0 hl rfl
  rw [List.length_singleton] at this
  have hn0 : n ≠ 0 := by omega
  simp only [Vector.PopBack, RawMemory.GetAddress, this, bind_ok, pure_eq_ok, size_t_pred, hn0,
    if_false]
  simp

theorem Erase_post (T : TypeTraits α) {h : Heap α} {v : Vector} {s : List α} (i : Nat)
    (hv : v.Holds h s) (hi : i < s.length) :
    ∃ h', v.Erase T h (v.begin.add i)
        = .ok (h', { v with size_ := s.length - 1 }, v.begin.add i) ∧
      Effect h v h' { v with size_ := s.length - 1 } (s.take i ++ s.drop (i + 1)) := by
  obtain ⟨⟨⟨a, o⟩, c⟩, n⟩ := v
  have hv' := hv
  obtain ⟨hn, hle, ho, h0, ha⟩ := hv'
  simp only at hn hle ho h0 ha
  subst ho hn
  have hs : s.take i ++ s.get ⟨i, hi⟩ :: s.drop (i + 1) = s := by
    rw [List.get_eq_getElem, ← List.drop_eq_getElem_cons hi, List.take_append_drop]
  have hpre : (s.take i).length = i := by simp; omega
  have hpost : (s.drop (i + 1)).length = s.length - (i + 1) := by simp
  have hlen' : (s.take i ++ s.drop (i + 1)).length = s.length - 1 := by
    simp [hpre]; omega
  have hbegin : (Vector.begin ⟨⟨⟨a, 0⟩, c⟩, s.length⟩).add i = ⟨a, (s.take i).length⟩ := by
    simp [Vector.begin, RawMemory.GetAddress, Ptr.add]; omega
  refine ⟨h.store a (layout (s.take i ++ s.drop (i + 1)) c), ?_, ?_⟩
  · rw [hbegin]
    exact Erase_eq T h a c (s.take i) (s.drop (i + 1)) (s.get ⟨i, hi⟩) s.length
      (by rw [hpre, hpost]; omega) hle (by rw [hs]; exact ha)
  · have := Effect.inplace (s.take i ++ s.drop (i + 1)) hv (by rw [hlen']; omega)
    rw [hlen'] at this
    exact this

theorem Resize_shrink (T : TypeTraits α) (h : Heap α) (a c : Nat) (s : List α) (m : Nat)
    (hm : m < s.length) (hle : s.length ≤ c) (ha : h.load a = .ok (layout s c)) :
    Vector.Resize T h ⟨⟨⟨a, 0⟩, c⟩, s.length⟩ m
      = .ok (h.store a (layout (s.take m) c), ⟨⟨⟨a, 0⟩, c⟩, m⟩) := by
  have hl : h.load a = .ok ((s.take m).map some ++ (s.drop m).map some
      ++ List.replicate (c - s.length) none) := by
    rw [ha, ← List.map_append, List.take_append_drop]
    rfl
  have e1 := destroy_n_eq a (s.drop m) h ((s.take m).map some)
    (List.replicate (c - s.length) none) (0 + m) hl (by simp; omega)
  have hlen : (s.drop m).length = s.length - m := by simp
  rw [hlen] at e1
  have hng : ¬ m > s.length := by omega
  simp only [Vector.Resize, hm, if_true, RawMemory.GetAddress, Ptr.add, e1, bind_ok, hng,
    if_false, pure_eq_ok]
  congr 3
  unfold layout
  rw [List.append_assoc, ← List.replicate_add]
  congr 2
  simp
  omega

theorem Resize_same (T : TypeTraits α) (h : Heap α) (v : Vector) :
    v.Resize T h v.size_ = .ok (h, v) := by
  simp [Vector.Resize, pure_eq_ok, bind_ok]

theorem Resize_fill (T : TypeTraits α) (h : Heap α) (a c : Nat) (s : List α) (m : Nat)
    (hm : s.length < m) (hmc : m ≤ c) (ha : h.load a = .ok (layout s c)) :
    Vector.Resize T h ⟨⟨⟨a, 0⟩, c⟩, s.length⟩ m
      = .ok (h.store a (layout (s ++ List.replicate (m - s.length) T.value_init) c),
          ⟨⟨⟨a, 0⟩, c⟩, m⟩) := by
  have hl : h.load a = .ok (s.map some ++ List.replicate (m - s.length) none
      ++ List.replicate (c - m) none) := by
    rw [ha]
    unfold layout
    rw [List.append_assoc, ← List.replicate_add,
      show m - s.length + (c - m) = c - s.length by omega]
  have e1 := uninitialized_value_construct_n_eq T a (List.replicate (m - s.length) none) h
    (s.map some) (List.replicate (c - m) none) (0 + s.length) hl (by simp)
  rw [List.length_replicate] at e1
  have hng : ¬ m < s.length := by omega
  have hgt : m > s.length := hm
  simp only [Vector.Resize, hng, if_false, hgt, if_true, pure_eq_ok, bind_ok,
    Reserve_noop T h ⟨⟨⟨a, 0⟩, c⟩, s.length⟩ m hmc, RawMemory.GetAddress, Ptr.add, e1]
  congr 3
  simp [layout]
  omega

theorem Resize_grow (T : TypeTraits α) (h : Heap α) (a c : Nat) (s : List α) (m : Nat)
    (hle : s.length ≤ c) (hmc : c < m) (ha : h.load a = .ok (layout s c)) :
    Vector.Resize T h ⟨⟨⟨a, 0⟩, c⟩, s.length⟩ m
      = .ok ((h.release a).push (layout (s ++ List.replicate (m - s.length) T.value_init) m),
          ⟨⟨⟨h.next, 0⟩, m⟩, m⟩) := by
  have hl : ((h.release a).push (layout s m)).load h.next
      = .ok (s.map some ++ List.replicate (m - s.length) none ++ []) := by
    rw [Heap.load_push_eq _ _ (Heap.next_release h a).symm]
    simp [layout]
  have e1 := uninitialized_value_construct_n_eq T h.next (List.replicate (m - s.length) none)
    _ (s.map some) [] (0 + s.length) hl (by simp)
  rw [List.length_replicate, Heap.store_push_eq _ _ _ (Heap.next_release h a).symm] at e1
  have hng : ¬ m < s.length := by omega
  have hgt : m > s.length := by omega
  simp only [Vector.Resize, hng, if_false, hgt, if_true, pure_eq_ok, bind_ok,
    Reserve_grow T h a c s m hmc hle ha, RawMemory.GetAddress, Ptr.add, e1]
  congr 3
  simp [layout]
  omega

theorem Resize_post (T : TypeTraits α) {h : Heap α} {v : Vector} {s : List α} (m : Nat)
    (hv : v.Holds h s) :
    ∃ h' v', v.Resize T h m = .ok (h', v') ∧
      Effect h v h' v' (s.take m ++ List.replicate (m - s.length) T.value_init) ∧
      v'.data_.capacity_ = max v.data_.capacity_ m ∧
      (m = s.length → h' = h ∧ v' = v) := by
  obtain ⟨⟨⟨a, o⟩, c⟩, n⟩ := v
  have hv' := hv
  obtain ⟨hn, hle, ho, h0, ha⟩ := hv'
  simp only at hn hle ho h0 ha
  subst ho hn
  rcases Nat.lt_trichotomy m s.length with hm | hm | hm
  · have hs' : s.take m ++ List.replicate (m - s.length) T.value_init = s.take m := by
      rw [show m - s.length = 0 by omega]
      simp
    have hlen : (s.take m).length = m := by simp; omega
    rw [hs']
    refine ⟨_, _, Resize_shrink T h a c s m hm hle ha, ?_, ?_, ?_⟩
    · have := Effect.inplace (s.take m) hv (by omega)
      rw [hlen] at this
      exact this
    · simp; omega
    · intro h; omega
  · subst hm
    have hs' : s.take s.length ++ List.replicate (s.length - s.length) T.value_init = s := by
      simp
    rw [hs']
    refine ⟨h, _, Resize_same T h ⟨⟨⟨a, 0⟩, c⟩, s.length⟩, ⟨hv, frame_refl h _, Or.inl rfl⟩, ?_,
      fun _ => ⟨rfl, rfl⟩⟩
    simp; omega
  · have hs' : s.take m = s := List.take_of_length_le (by omega)
    have hlen : (s ++ List.replicate (m - s.length) T.value_init).length = m := by
      simp; omega
    rw [hs']
    by_cases hmc : m ≤ c
    · refine ⟨_, _, Resize_fill T h a c s m hm hmc ha, ?_, ?_, ?_⟩
      · have := Effect.inplace (s ++ List.replicate (m - s.length) T.value_init) hv (by omega)
        rw [hlen] at this
        exact this
      · simp; omega
      · intro h; omega
    · refine ⟨_, _, Resize_grow T h a c s m hle (by omega) ha, ?_, ?_, ?_⟩
      · have := Effect.realloc h a c s.length m
          (s ++ List.replicate (m - s.length) T.value_init) (by omega) (by omega)
        rw [hlen] at this
        exact this
      · simp; omega
      · intro h; omega

theorem copy_ctor_nil (h : Heap α) (v : Vector) (hs : v.size_ = 0) :
    Vector.copy_ctor h v = .ok (h, ⟨⟨nullptr, 0⟩, 0⟩) := by
  simp [Vector.copy_ctor, hs, ctor_zero, uninitialized_copy_n, bind_ok, pure_eq_ok]

theorem copy_ctor_eq {h : Heap α} {v : Vector} {s : List α} (hv : v.Holds h s) (hs : s ≠ []) :
    Vector.copy_ctor h v
      = .ok (h.push (layout s s.length), ⟨⟨⟨h.next, 0⟩, s.length⟩, s.length⟩) := by
  obtain ⟨⟨⟨a, o⟩, c⟩, n⟩ := v
  obtain ⟨hn, hle, ho, h0, ha⟩ := hv
  simp only at hn hle ho h0 ha
  subst ho hn
  have hn0 : s.length ≠ 0 := fun h => hs (List.length_eq_zero.mp h)
  have hsrc : h.load a = .ok ([] ++ s.map some ++ List.replicate (c - s.length) none) := by
    simpa [layout] using ha
  have e := uninitialized_copy_n_push h s [] (List.replicate (c - s.length) none) []
    (List.replicate s.length none) [] a s.length 0 h.next 0 rfl hsrc rfl rfl rfl (by simp)
  simp only [List.nil_append, List.append_nil] at e
  simp only [Vector.copy_ctor, ctor_eq h hn0, RawMemory.GetAddress, e, bind_ok, pure_eq_ok,
    layout_full]

theorem Vector.Holds.read_split {h : Heap α} {v : Vector} {pre post : List α} {x : α}
    (hv : v.Holds h (pre ++ x :: post)) : h.read (v.begin.add pre.length) = .ok x := by
  have hi : pre.length < (pre ++ x :: post).length := by simp
  have hx : (pre ++ x :: post).get ⟨pre.length, hi⟩ = x := by
    have h1 := getElem?_append_cons pre x post pre.length rfl
    rw [List.getElem?_eq_getElem hi] at h1
    exact Option.some.inj h1
  rw [hv.read pre.length hi, hx]

theorem take_insert_drop (s : List α) (i : Nat) (x : α) (hi : i ≤ s.length) :
    (s.take i ++ x :: s.drop i).take i ++ (s.take i ++ x :: s.drop i).drop (i + 1) = s := by
  have hl : (s.take i).length = i := by simp [hi]
  have h1 : (s.take i ++ x :: s.drop i).take i = s.take i := by
    rw [List.take_append_of_le_length (by omega)]
    rw [List.take_of_length_le (by omega)]
  have h2 : (s.take i ++ x :: s.drop i).drop (i + 1) = s.drop i := by
    have : s.take i ++ x :: s.drop i = (s.take i ++ [x]) ++ s.drop i := by simp
    rw [this, List.drop_append_of_le_length (by simp [hl])]
    rw [List.drop_of_length_le (by simp [hl])]
    rfl
  rw [h1, h2, List.take_append_drop]

/-- C1: for every vector holding `s` (its length at most its capacity), every
index `i ≤ s.length` and every value `x`, `Emplace` and `Insert` at position
`begin() + i` succeed, leave a vector that holds `s[0..i) ++ [x] ++ s[i..n)`
and has length `n + 1`, and return the iterator `begin() + i` of the resulting
storage, where `x` is found.  The statement covers the reallocating path
(length equal to capacity) and the in-place paths (tail and non-tail
position), for both relocation policies. -/
theorem C1_Insert_Emplace (T : TypeTraits α) (h : Heap α) (v : Vector) (s : List α)
    (i : Nat) (x : α) (hv : v.Holds h s) (hi : i ≤ s.length) :
    ∃ h' v', v.Emplace T h (v.begin.add i) x = .ok (h', v', v'.begin.add i) ∧
      v.Insert T h (v.begin.add i) x = .ok (h', v', v'.begin.add i) ∧
      v'.Holds h' (s.take i ++ [x] ++ s.drop i) ∧
      v'.Size = s.length + 1 ∧
      h'.read (v'.begin.add i) = .ok x := by
  obtain ⟨h', v', he, hE, _⟩ := Emplace_post T i x hv hi
  have hH : v'.Holds h' (s.take i ++ [x] ++ s.drop i) := by
    simpa using hE.holds
  refine ⟨h', v', he, he, hH, ?_, ?_⟩
  · rw [Vector.Size, hE.holds.1]
    simp
    omega
  · have := Vector.Holds.read_split hE.holds
    rwa [List.length_take, Nat.min_eq_left hi] at this

/-- C1, at an instance: a full vector `[1, 2]` (capacity 2), value `9` inserted
at index 1. -/
theorem C1_Insert_Emplace_witness :
    (Vector.Holds (⟨[some [some 1, some 2]]⟩ : Heap Nat) ⟨⟨⟨1, 0⟩, 2⟩, 2⟩ [1, 2] ∧ 1 ≤ [1, 2].length) ∧
    ∃ h' v', Vector.Emplace ⟨true, true, 0, id, fun _ x => x⟩ (⟨[some [some 1, some 2]]⟩ : Heap Nat)
          ⟨⟨⟨1, 0⟩, 2⟩, 2⟩ ((Vector.begin ⟨⟨⟨1, 0⟩, 2⟩, 2⟩).add 1) 9
          = .ok (h', v', v'.begin.add 1) ∧
      Vector.Insert ⟨true, true, 0, id, fun _ x => x⟩ (⟨[some [some 1, some 2]]⟩ : Heap Nat)
          ⟨⟨⟨1, 0⟩, 2⟩, 2⟩ ((Vector.begin ⟨⟨⟨1, 0⟩, 2⟩, 2⟩).add 1) 9
          = .ok (h', v', v'.begin.add 1) ∧
      v'.Holds h' ([1, 2].take 1 ++ [9] ++ [1, 2].drop 1) ∧
      v'.Size = [1, 2].length + 1 ∧
      h'.read (v'.begin.add 1) = .ok 9 :=
  ⟨⟨⟨rfl, by decide, rfl, by decide, rfl⟩, by decide⟩,
    C1_Insert_Emplace _ _ _ _ 1 9 ⟨rfl, by decide, rfl, by decide, rfl⟩ (by decide)⟩

/-- C2: for every vector holding `s` of length `n ≥ 1` and every index
`i < n`, `Erase` at position `begin() + i` succeeds, leaves a vector that
holds `s[0..i) ++ s[i+1..n)`, has length `n - 1` and the capacity it had, and
returns the iterator `begin() + i`, which designates the old element `i + 1`
or, when `i = n - 1`, is `end()`. -/
theorem C2_Erase (T : TypeTraits α) (h : Heap α) (v : Vector) (s : List α)
    (i : Nat) (hv : v.Holds h s) (hi : i < s.length) :
    ∃ h' v', v.Erase T h (v.begin.add i) = .ok (h', v', v'.begin.add i) ∧
      v'.Holds h' (s.take i ++ s.drop (i + 1)) ∧
      v'.Size = s.length - 1 ∧
      v'.Capacity = v.Capacity ∧
      ((∃ hn : i + 1 < s.length, h'.read (v'.begin.add i) = .ok (s.get ⟨i + 1, hn⟩)) ∨
        (i + 1 = s.length ∧ v'.begin.add i = v'.end)) := by
  obtain ⟨h', he, hE⟩ := Erase_post T i hv hi
  refine ⟨h', { v with size_ := s.length - 1 }, he, hE.holds, rfl, rfl, ?_⟩
  by_cases hn : i + 1 < s.length
  · left
    refine ⟨hn, ?_⟩
    have hd : s.drop (i + 1) = s.get ⟨i + 1, hn⟩ :: s.drop (i + 1 + 1) := by
      rw [List.get_eq_getElem, ← List.drop_eq_getElem_cons hn]
    have hH := hE.holds
    rw [hd] at hH
    have := Vector.Holds.read_split hH
    rwa [List.length_take, Nat.min_eq_left (by omega)] at this
  · right
    refine ⟨by omega, ?_⟩
    simp only [Vector.begin, Vector.end, RawMemory.GetAddress, Ptr.add]
    congr 1
    omega

/-- C2, at an instance: the vector `[1, 2, 3]` with capacity 4, erased at
index 1. -/
theorem C2_Erase_witness :
    (Vector.Holds (⟨[some [some 1, some 2, some 3, none]]⟩ : Heap Nat) ⟨⟨⟨1, 0⟩, 4⟩, 3⟩ [1, 2, 3]
      ∧ 1 < [1, 2, 3].length) ∧
    ∃ h' v', Vector.Erase ⟨false, true, 0, id, fun _ x => x⟩
          (⟨[some [some 1, some 2, some 3, none]]⟩ : Heap Nat) ⟨⟨⟨1, 0⟩, 4⟩, 3⟩
          ((Vector.begin ⟨⟨⟨1, 0⟩, 4⟩, 3⟩).add 1) = .ok (h', v', v'.begin.add 1) ∧
      v'.Holds h' ([1, 2, 3].take 1 ++ [1, 2, 3].drop (1 + 1)) ∧
      v'.Size = [1, 2, 3].length - 1 ∧
      v'.Capacity = Vector.Capacity ⟨⟨⟨1, 0⟩, 4⟩, 3⟩ ∧
      ((∃ hn : 1 + 1 < [1, 2, 3].length,
          h'.read (v'.begin.add 1) = .ok ([1, 2, 3].get ⟨1 + 1, hn⟩)) ∨
        (1 + 1 = [1, 2, 3].length ∧ v'.begin.add 1 = v'.end)) :=
  ⟨⟨⟨rfl, by decide, rfl, by decide, rfl⟩, by decide⟩,
    C2_Erase _ _ _ _ 1 ⟨rfl, by decide, rfl, by decide, rfl⟩ (by decide)⟩

/-- C3: for every vector holding `s` with length `n` and capacity `c`, and
every value `x`, `EmplaceBack` and `PushBack` succeed and leave a vector that
holds `s ++ [x]` with length `n + 1`; its capacity is `c` when `n < c`, `1`
when `n = c = 0` and `2 * c` when `n = c > 0`; and `EmplaceBack` returns the
reference to slot `n`, where `x` is found. -/
theorem C3_PushBack_EmplaceBack (T : TypeTraits α) (h : Heap α) (v : Vector) (s : List α)
    (x : α) (hv : v.Holds h s) :
    ∃ h' v' r, v.EmplaceBack T h x = .ok (h', v', r) ∧
      v.PushBack T h x = .ok (h', v') ∧
      v'.Holds h' (s ++ [x]) ∧
      v'.Size = s.length + 1 ∧
      v'.Capacity = (if s.length < v.Capacity then v.Capacity
        else if v.Capacity = 0 then 1 else 2 * v.Capacity) ∧
      r = v'.begin.add s.length ∧
      h'.read r = .ok x := by
  obtain ⟨h', v', he, hE, hc⟩ := EmplaceBack_post T x hv
  refine ⟨h', v', _, he, ?_, hE.holds, ?_, ?_, rfl, ?_⟩
  · simp [Vector.PushBack, he, bind_ok, pure_eq_ok]
  · rw [Vector.Size, hE.holds.1]
    simp
  · have hle : s.length ≤ v.data_.capacity_ := hv.2.1
    simp only [Vector.Capacity, RawMemory.Capacity, hc]
    by_cases hlt : s.length < v.data_.capacity_
    · simp [hlt]
    · have hcap : v.data_.capacity_ = s.length := by omega
      rw [hcap]
      simp only [Nat.lt_irrefl, if_false, Nat.mul_comm]
  · have hH := hE.holds
    rw [show s ++ [x] = s ++ x :: [] from rfl] at hH
    exact Vector.Holds.read_split hH

/-- C3, at an instance: the full vector `[1, 2]` (capacity 2) and the value
`7`. -/
theorem C3_PushBack_EmplaceBack_witness :
    Vector.Holds (⟨[some [some 1, some 2]]⟩ : Heap Nat) ⟨⟨⟨1, 0⟩, 2⟩, 2⟩ [1, 2] ∧
    ∃ h' v' r, Vector.EmplaceBack ⟨true, true, 0, id, fun _ x => x⟩
          (⟨[some [some 1, some 2]]⟩ : Heap Nat) ⟨⟨⟨1, 0⟩, 2⟩, 2⟩ 7 = .ok (h', v', r) ∧
      Vector.PushBack ⟨true, true, 0, id, fun _ x => x⟩
          (⟨[some [some 1, some 2]]⟩ : Heap Nat) ⟨⟨⟨1, 0⟩, 2⟩, 2⟩ 7 = .ok (h', v') ∧
      v'.Holds h' ([1, 2] ++ [7]) ∧
      v'.Size = [1, 2].length + 1 ∧
      v'.Capacity = (if [1, 2].length < Vector.Capacity ⟨⟨⟨1, 0⟩, 2⟩, 2⟩
        then Vector.Capacity ⟨⟨⟨1, 0⟩, 2⟩, 2⟩
        else if Vector.Capacity ⟨⟨⟨1, 0⟩, 2⟩, 2⟩ = 0 then 1
        else 2 * Vector.Capacity ⟨⟨⟨1, 0⟩, 2⟩, 2⟩) ∧
      r = v'.begin.add [1, 2].length ∧
      h'.read r = .ok 7 :=
  ⟨⟨rfl, by decide, rfl, by decide, rfl⟩,
    C3_PushBack_EmplaceBack _ _ _ _ 7 ⟨rfl, by decide, rfl, by decide, rfl⟩⟩

theorem PushBack_post (T : TypeTraits α) {h : Heap α} {v : Vector} {s : List α} (x : α)
    (hv : v.Holds h s) :
    ∃ h' v', v.PushBack T h x = .ok (h', v') ∧ Effect h v h' v' (s ++ [x]) ∧
      v'.data_.capacity_ = if s.length < v.data_.capacity_ then v.data_.capacity_
        else if s.length = 0 then 1 else s.length * 2 := by
  obtain ⟨h', v', he, hE, hc⟩ := EmplaceBack_post T x hv
  exact ⟨h', v', by simp [Vector.PushBack, he, bind_ok, pure_eq_ok], hE, hc⟩

theorem default_ctor_holds (h : Heap α) : Vector.default_ctor.Holds h ([] : List α) :=
  ⟨rfl, Nat.le_refl _, rfl, fun _ => rfl, load_zero h⟩

theorem PushBackAll_post (T : TypeTraits α) (xs : List α) :
    ∀ (h : Heap α) (v : Vector) (s : List α), v.Holds h s →
      (v.data_.capacity_ = 0 ∨ ∃ k, v.data_.capacity_ = 2 ^ k) →
      ∃ h' v', Vector.PushBackAll T xs h v = .ok (h', v') ∧ v'.Holds h' (s ++ xs) ∧
        (v'.data_.capacity_ = 0 ∨ ∃ k, v'.data_.capacity_ = 2 ^ k) := by
  induction xs with
  | nil =>
    intro h v s hv hc
    exact ⟨h, v, rfl, by simpa using hv, hc⟩
  | cons x xs ih =>
    intro h v s hv hc
    obtain ⟨h1, v1, he, hE, hc1⟩ := PushBack_post T x hv
    have hle : s.length ≤ v.data_.capacity_ := hv.2.1
    have hpow : v1.data_.capacity_ = 0 ∨ ∃ k, v1.data_.capacity_ = 2 ^ k := by
      rw [hc1]
      by_cases hlt : s.length < v.data_.capacity_
      · simpa [hlt] using hc
      · have hcap : v.data_.capacity_ = s.length := by omega
        simp only [hlt, if_false]
        by_cases h0 : s.length = 0
        · right
          exact ⟨0, by simp [h0]⟩
        · right
          rcases hc with hc | ⟨k, hk⟩
          · omega
          · refine ⟨k + 1, ?_⟩
            simp only [h0, if_false]
            rw [← hcap, hk, pow_succ]
    obtain ⟨h2, v2, he2, hH2, hc2⟩ := ih h1 v1 (s ++ [x]) hE.holds hpow
    refine ⟨h2, v2, ?_, by simpa using hH2, hc2⟩
    simp only [Vector.PushBackAll, he, bind_ok, he2]

/-- C4: starting from a default-constructed vector, every sequence `xs` of
`PushBack` calls succeeds and leaves a vector whose `Size()` is the number of
calls and which holds the pushed values in push order; unless no call was
made, its capacity is a power of two, at least the size. -/
theorem C4_PushBack_sequence (T : TypeTraits α) (h : Heap α) (xs : List α) :
    ∃ h' v', Vector.PushBackAll T xs h Vector.default_ctor = .ok (h', v') ∧
      v'.Size = xs.length ∧
      v'.Holds h' xs ∧
      (xs = [] ∨ ∃ k, v'.Capacity = 2 ^ k ∧ xs.length ≤ v'.Capacity) := by
  obtain ⟨h', v', he, hH, hc⟩ :=
    PushBackAll_post T xs h Vector.default_ctor [] (default_ctor_holds h) (Or.inl rfl)
  rw [List.nil_append] at hH
  refine ⟨h', v', he, hH.1, hH, ?_⟩
  by_cases hx : xs = []
  · exact Or.inl hx
  · right
    have hpos : 0 < xs.length := List.length_pos.mpr hx
    have hle : xs.length ≤ v'.data_.capacity_ := hH.2.1
    rcases hc with hc | ⟨k, hk⟩
    · omega
    · exact ⟨k, hk, hle⟩

/-- C5: for every vector holding `s`, every index `i ≤ s.length` and every
value `x`, `Insert` at `begin() + i` followed by `Erase` on the iterator that
`Insert` returned succeeds and leaves a vector that holds `s` again, with the
length of `s`, whether or not `Insert` reallocated. -/
theorem C5_Insert_then_Erase (T : TypeTraits α) (h : Heap α) (v : Vector) (s : List α)
    (i : Nat) (x : α) (hv : v.Holds h s) (hi : i ≤ s.length) :
    ∃ h1 v1 p h2 v2 q, v.Insert T h (v.begin.add i) x = .ok (h1, v1, p) ∧
      v1.Erase T h1 p = .ok (h2, v2, q) ∧
      v2.Holds h2 s ∧ v2.Size = s.length := by
  obtain ⟨h1, v1, he, hE, _⟩ := Emplace_post T i x hv hi
  have hlen : i < (s.take i ++ x :: s.drop i).length := by
    simp
    omega
  obtain ⟨h2, he2, hE2⟩ := Erase_post T i hE.holds hlen
  have hH := hE2.holds
  rw [take_insert_drop s i x hi] at hH
  exact ⟨h1, v1, _, h2, _, _, he, he2, hH, hH.1⟩

/-- C5, at an instance: the full vector `[1, 2]`, value `9` at index 0. -/
theorem C5_Insert_then_Erase_witness :
    (Vector.Holds (⟨[some [some 1, some 2]]⟩ : Heap Nat) ⟨⟨⟨1, 0⟩, 2⟩, 2⟩ [1, 2] ∧ 0 ≤ [1, 2].length) ∧
    ∃ h1 v1 p h2 v2 q, Vector.Insert ⟨false, true, 0, id, fun _ x => x⟩
          (⟨[some [some 1, some 2]]⟩ : Heap Nat) ⟨⟨⟨1, 0⟩, 2⟩, 2⟩
          ((Vector.begin ⟨⟨⟨1, 0⟩, 2⟩, 2⟩).add 0) 9 = .ok (h1, v1, p) ∧
      v1.Erase ⟨false, true, 0, id, fun _ x => x⟩ h1 p = .ok (h2, v2, q) ∧
      v2.Holds h2 [1, 2] ∧ v2.Size = [1, 2].length :=
  ⟨⟨⟨rfl, by decide, rfl, by decide, rfl⟩, by decide⟩,
    C5_Insert_then_Erase _ _ _ _ 0 9 ⟨rfl, by decide, rfl, by decide, rfl⟩ (by decide)⟩

theorem sized_slots {c n : Nat} (hc : 0 < c) (hn : n * c < 2 ^ 64) :
    n * c % 2 ^ 64 / c = n := by
  rw [Nat.mod_eq_of_lt hn, Nat.mul_div_cancel _ hc]

theorem sized_ctor_eq {c n : Nat} (hc : 0 < c) (hn : n * c < 2 ^ 64) (h : Heap α) :
    sized.RawMemory.ctor c h n = RawMemory.ctor h n := by
  simp only [sized.RawMemory.ctor, sized.RawMemory.Allocate, RawMemory.ctor, RawMemory.Allocate,
    sized_slots hc hn]

theorem sized_Reserve_eq {c n : Nat} (hc : 0 < c) (hn : n * c < 2 ^ 64) (T : TypeTraits α)
    (h : Heap α) (v : Vector) :
    sized.Vector.Reserve c T h v n = v.Reserve T h n := by
  simp only [sized.Vector.Reserve, Vector.Reserve, sized_ctor_eq hc hn]

theorem sized_Resize_eq {c n : Nat} (hc : 0 < c) (hn : n * c < 2 ^ 64) (T : TypeTraits α)
    (h : Heap α) (v : Vector) :
    sized.Vector.Resize c T h v n = v.Resize T h n := by
  simp only [sized.Vector.Resize, Vector.Resize, sized_Reserve_eq hc hn]

/-- C6 as stated fails: the byte count of the request, `n * sizeof(Type)`, is
computed in `size_t` and nothing checks it.  With elements of 4 bytes and
`n = 2 ^ 62 + 1`, which is a `size_t`, the product wraps to 4: `Reserve(n)` on
the vector `[1, 2]` of capacity 2 obtains a block with room for one element
and constructs the second element outside it, so the run has no defined
result, and no vector of capacity `n` holding `[1, 2]` comes out of it. -/
theorem C6_counterexample :
    Vector.Holds (⟨[some [some 1, some 2]]⟩ : Heap Nat) ⟨⟨⟨1, 0⟩, 2⟩, 2⟩ [1, 2] ∧
    2 ^ 62 + 1 < 2 ^ 64 ∧ (2 ^ 62 + 1) * 4 % 2 ^ 64 = 4 ∧
    sized.Vector.Reserve 4 ⟨true, true, 0, id, fun _ x => x⟩
        (⟨[some [some 1, some 2]]⟩ : Heap Nat) ⟨⟨⟨1, 0⟩, 2⟩, 2⟩ (2 ^ 62 + 1)
      = .error .undefined ∧
    ¬ ∃ h' v', sized.Vector.Reserve 4 ⟨true, true, 0, id, fun _ x => x⟩
        (⟨[some [some 1, some 2]]⟩ : Heap Nat) ⟨⟨⟨1, 0⟩, 2⟩, 2⟩ (2 ^ 62 + 1) = .ok (h', v') ∧
      v'.Holds h' [1, 2] ∧ v'.Capacity = 2 ^ 62 + 1 :=
  ⟨⟨rfl, by decide, rfl, by decide, rfl⟩, by decide, by decide, rfl,
    fun ⟨_, _, he, _⟩ => by
      have hr : sized.Vector.Reserve 4 ⟨true, true, 0, id, fun _ x => x⟩
          (⟨[some [some 1, some 2]]⟩ : Heap Nat) ⟨⟨⟨1, 0⟩, 2⟩, 2⟩ (2 ^ 62 + 1)
          = .error .undefined := rfl
      rw [hr] at he
      cases he⟩

/-- C6, amended: for every vector holding `s` and every `n` whose byte count
`n * sizeof(Type)` is below `2 ^ 64`, `Reserve(n)` succeeds and leaves a
vector that holds the same `s` with the same `Size()`; the capacity does not
decrease: it is exactly `n` when `n` exceeds the old capacity, and otherwise
neither the vector nor the heap changes. -/
theorem C6_Reserve (sizeof_Type : Nat) (T : TypeTraits α) (h : Heap α) (v : Vector)
    (s : List α) (n : Nat) (hv : v.Holds h s) (hsz : 0 < sizeof_Type)
    (hn : n * sizeof_Type < 2 ^ 64) :
    ∃ h' v', sized.Vector.Reserve sizeof_Type T h v n = .ok (h', v') ∧
      v'.Holds h' s ∧ v'.Size = v.Size ∧
      v.Capacity ≤ v'.Capacity ∧
      v'.Capacity = (if n > v.Capacity then n else v.Capacity) ∧
      (n > v.Capacity ∨ (h' = h ∧ v' = v)) := by
  rw [sized_Reserve_eq hsz hn]
  by_cases hn : n > v.data_.capacity_
  · obtain ⟨h', v', he, hE, hc⟩ := Reserve_post T n hv
    refine ⟨h', v', he, hE.holds, ?_, ?_, ?_, Or.inl hn⟩
    · rw [Vector.Size, Vector.Size, hE.holds.1, hv.1]
    · simp only [Vector.Capacity, RawMemory.Capacity, hc, hn, if_true]
      omega
    · simp only [Vector.Capacity, RawMemory.Capacity, hc]
  · refine ⟨h, v, Reserve_noop T h v n (by omega), hv, rfl, Nat.le_refl _, ?_,
      Or.inr ⟨rfl, rfl⟩⟩
    simp only [Vector.Capacity, RawMemory.Capacity, hn, if_false]

/-- C6, amended, at an instance: the vector `[1, 2]` with capacity 2 and
elements of 4 bytes, `Reserve(5)`. -/
theorem C6_Reserve_witness :
    (Vector.Holds (⟨[some [some 1, some 2]]⟩ : Heap Nat) ⟨⟨⟨1, 0⟩, 2⟩, 2⟩ [1, 2] ∧
      0 < 4 ∧ 5 * 4 < 2 ^ 64) ∧
    sized.Vector.Reserve 4 ⟨true, true, 0, id, fun _ x => x⟩
        (⟨[some [some 1, some 2]]⟩ : Heap Nat) ⟨⟨⟨1, 0⟩, 2⟩, 2⟩ 5
      = .ok (⟨[none, some [some 1, some 2, none, none, none]]⟩, ⟨⟨⟨2, 0⟩, 5⟩, 2⟩) ∧
    ∃ h' v', sized.Vector.Reserve 4 ⟨true, true, 0, id, fun _ x => x⟩
          (⟨[some [some 1, some 2]]⟩ : Heap Nat) ⟨⟨⟨1, 0⟩, 2⟩, 2⟩ 5 = .ok (h', v') ∧
      v'.Holds h' [1, 2] ∧ v'.Size = Vector.Size ⟨⟨⟨1, 0⟩, 2⟩, 2⟩ ∧
      Vector.Capacity ⟨⟨⟨1, 0⟩, 2⟩, 2⟩ ≤ v'.Capacity ∧
      v'.Capacity = (if 5 > Vector.Capacity ⟨⟨⟨1, 0⟩, 2⟩, 2⟩ then 5
        else Vector.Capacity ⟨⟨⟨1, 0⟩, 2⟩, 2⟩) ∧
      (5 > Vector.Capacity ⟨⟨⟨1, 0⟩, 2⟩, 2⟩ ∨
        (h' = (⟨[some [some 1, some 2]]⟩ : Heap Nat) ∧ v' = ⟨⟨⟨1, 0⟩, 2⟩, 2⟩)) :=
  ⟨⟨⟨rfl, by decide, rfl, by decide, rfl⟩, by decide, by decide⟩, rfl,
    C6_Reserve 4 _ _ _ _ 5 ⟨rfl, by decide, rfl, by decide, rfl⟩ (by decide) (by decide)⟩

/-- C7 as stated fails, for the reason C6 does: `Resize(n)` with `n` above
the length goes through `Reserve(n)`, and the byte count `n * sizeof(Type)`
is computed in `size_t` unchecked.  With elements of 4 bytes and
`n = 2 ^ 62 + 1` the block obtained has room for one element; on the vector
`[1, 2]` of capacity 2 the run has no defined result, and no vector of length
`n` comes out of it. -/
theorem C7_counterexample :
    Vector.Holds (⟨[some [some 1, some 2]]⟩ : Heap Nat) ⟨⟨⟨1, 0⟩, 2⟩, 2⟩ [1, 2] ∧
    2 ^ 62 + 1 < 2 ^ 64 ∧ (2 ^ 62 + 1) * 4 % 2 ^ 64 = 4 ∧
    sized.Vector.Resize 4 ⟨true, true, 0, id, fun _ x => x⟩
        (⟨[some [some 1, some 2]]⟩ : Heap Nat) ⟨⟨⟨1, 0⟩, 2⟩, 2⟩ (2 ^ 62 + 1)
      = .error .undefined ∧
    ¬ ∃ h' v', sized.Vector.Resize 4 ⟨true, true, 0, id, fun _ x => x⟩
        (⟨[some [some 1, some 2]]⟩ : Heap Nat) ⟨⟨⟨1, 0⟩, 2⟩, 2⟩ (2 ^ 62 + 1) = .ok (h', v') ∧
      v'.Size = 2 ^ 62 + 1 :=
  ⟨⟨rfl, by decide, rfl, by decide, rfl⟩, by decide, by decide, rfl,
    fun ⟨_, _, he, _⟩ => by
      have hr : sized.Vector.Resize 4 ⟨true, true, 0, id, fun _ x => x⟩
          (⟨[some [some 1, some 2]]⟩ : Heap Nat) ⟨⟨⟨1, 0⟩, 2⟩, 2⟩ (2 ^ 62 + 1)
          = .error .undefined := rfl
      rw [hr] at he
      cases he⟩

/-- C7, amended: for every vector holding `s` with length `m` and capacity
`c`, and every `n` whose byte count `n * sizeof(Type)` is below `2 ^ 64`,
`Resize(n)` succeeds and leaves a vector of length `n`; when `n < m` it holds
`s[0..n)` and the capacity stays `c`; when `n > m` it holds `s` followed by
`n - m` value-initialised elements and the capacity is `max c n`; when
`n = m` neither the vector nor the heap changes. -/
theorem C7_Resize (sizeof_Type : Nat) (T : TypeTraits α) (h : Heap α) (v : Vector)
    (s : List α) (n : Nat) (hv : v.Holds h s) (hsz : 0 < sizeof_Type)
    (hn : n * sizeof_Type < 2 ^ 64) :
    ∃ h' v', sized.Vector.Resize sizeof_Type T h v n = .ok (h', v') ∧
      v'.Size = n ∧
      v'.Holds h' (if n < s.length then s.take n
        else s ++ List.replicate (n - s.length) T.value_init) ∧
      v'.Capacity = (if n < s.length then v.Capacity else max v.Capacity n) ∧
      (n ≠ s.length ∨ (h' = h ∧ v' = v)) := by
  rw [sized_Resize_eq hsz hn]
  obtain ⟨h', v', he, hE, hc, hsame⟩ := Resize_post T n hv
  have hle : s.length ≤ v.data_.capacity_ := hv.2.1
  have hs : s.take n ++ List.replicate (n - s.length) T.value_init
      = if n < s.length then s.take n
        else s ++ List.replicate (n - s.length) T.value_init := by
    by_cases hlt : n < s.length
    · simp only [hlt, if_true]
      rw [show n - s.length = 0 by omega]
      simp
    · simp only [hlt, if_false]
      rw [List.take_of_length_le (by omega)]
  have hH := hE.holds
  rw [hs] at hH
  refine ⟨h', v', he, ?_, hH, ?_, ?_⟩
  · have := hE.holds.1
    rw [Vector.Size, this]
    simp
    omega
  · simp only [Vector.Capacity, RawMemory.Capacity, hc]
    split <;> omega
  · by_cases hn : n = s.length
    · exact Or.inr (hsame hn)
    · exact Or.inl hn

/-- C7, amended, at the scenario of the specification, with elements of 4
bytes: from the empty vector, push 1, 2, 3, insert 9 before position 1, erase
position 0; then `Resize(5)` gives `[9, 2, 3, 0, 0]` and `Resize(2)` gives
`[9, 2]` with the capacity (5, at least 4) unchanged.  The theorem is applied
at the state the first five calls produce. -/
theorem C7_Resize_witness :
    ((do
        let r ← Vector.PushBackAll ⟨true, true, 0, id, fun _ x => x⟩ [1, 2, 3]
          (⟨[]⟩ : Heap Nat) Vector.default_ctor
        let r ← r.2.Insert ⟨true, true, 0, id, fun _ x => x⟩ r.1 (r.2.begin.add 1) 9
        let r ← r.2.1.Erase ⟨true, true, 0, id, fun _ x => x⟩ r.1 (r.2.1.begin.add 0)
        let a ← sized.Vector.Resize 4 ⟨true, true, 0, id, fun _ x => x⟩ r.1 r.2.1 5
        let b ← sized.Vector.Resize 4 ⟨true, true, 0, id, fun _ x => x⟩ a.1 a.2 2
        pure ((r.1, r.2.1), a, b))
      = .ok (((⟨[none, none, some [some 9, some 2, some 3, none]]⟩ : Heap Nat),
               (⟨⟨⟨3, 0⟩, 4⟩, 3⟩ : Vector)),
             ((⟨[none, none, none, some [some 9, some 2, some 3, some 0, some 0]]⟩ : Heap Nat),
               (⟨⟨⟨4, 0⟩, 5⟩, 5⟩ : Vector)),
             ((⟨[none, none, none, some [some 9, some 2, none, none, none]]⟩ : Heap Nat),
               (⟨⟨⟨4, 0⟩, 5⟩, 2⟩ : Vector)))) ∧
    (Vector.Holds (⟨[none, none, some [some 9, some 2, some 3, none]]⟩ : Heap Nat)
      ⟨⟨⟨3, 0⟩, 4⟩, 3⟩ [9, 2, 3] ∧ 0 < 4 ∧ 5 * 4 < 2 ^ 64) ∧
    ∃ h' v', sized.Vector.Resize 4 ⟨true, true, 0, id, fun _ x => x⟩
          (⟨[none, none, some [some 9, some 2, some 3, none]]⟩ : Heap Nat) ⟨⟨⟨3, 0⟩, 4⟩, 3⟩ 5
          = .ok (h', v') ∧
      v'.Size = 5 ∧
      v'.Holds h' (if 5 < [9, 2, 3].length then [9, 2, 3].take 5
        else [9, 2, 3] ++ List.replicate (5 - [9, 2, 3].length) 0) ∧
      v'.Capacity = (if 5 < [9, 2, 3].length then Vector.Capacity ⟨⟨⟨3, 0⟩, 4⟩, 3⟩
        else max (Vector.Capacity ⟨⟨⟨3, 0⟩, 4⟩, 3⟩) 5) ∧
      (5 ≠ [9, 2, 3].length ∨
        (h' = (⟨[none, none, some [some 9, some 2, some 3, none]]⟩ : Heap Nat)
          ∧ v' = ⟨⟨⟨3, 0⟩, 4⟩, 3⟩)) :=
  ⟨rfl, ⟨⟨rfl, by decide, rfl, by decide, rfl⟩, by decide, by decide⟩,
    C7_Resize 4 ⟨true, true, 0, id, fun _ x => x⟩ _ _ _ 5
      ⟨rfl, by decide, rfl, by decide, rfl⟩ (by decide) (by decide)⟩

/-- C8: for every vector holding `s` and every index `i`, `At(i)` fails with
`out_of_range` exactly when `i ≥ Size()`; when `i < Size()` it returns the
reference to slot `i`, where element `i` of `s` is found.  `At` reads
`size_` and `data_` only: it takes and returns neither heap nor vector, so
the vector is as it was. -/
theorem C8_At (h : Heap α) (v : Vector) (s : List α) (i : Nat) (hv : v.Holds h s) :
    (v.At i = .error .out_of_range ↔ i ≥ v.Size) ∧
    ((∃ hi : i < s.length, v.At i = .ok (v.begin.add i) ∧
        h.read (v.begin.add i) = .ok (s.get ⟨i, hi⟩)) ∨ i ≥ v.Size) := by
  have hsz : v.size_ = s.length := hv.1
  have hle : s.length ≤ v.data_.capacity_ := hv.2.1
  constructor
  · constructor
    · intro he
      by_contra hc
      have hlt : ¬ i ≥ v.size_ := hc
      simp only [Vector.At, hlt, if_false, RawMemory.index] at he
      split at he <;> simp at he
    · intro hge
      have : i ≥ v.size_ := hge
      simp [Vector.At, this]
  · by_cases hi : i < s.length
    · left
      refine ⟨hi, ?_, hv.read i hi⟩
      have h1 : ¬ i ≥ v.size_ := by omega
      have h2 : i < v.data_.capacity_ := by omega
      simp [Vector.At, h1, RawMemory.index, h2, Vector.begin, RawMemory.GetAddress]
    · right
      show i ≥ v.size_
      omega

/-- C8, at the instance of the specification: the vector that holds
`[10, 20, 30]` gives `out_of_range` for `At(5)` and the slot of `20` for
`At(1)`. -/
theorem C8_At_witness :
    Vector.Holds (⟨[some [some 10, some 20, some 30]]⟩ : Heap Nat) ⟨⟨⟨1, 0⟩, 3⟩, 3⟩ [10, 20, 30] ∧
    Vector.At ⟨⟨⟨1, 0⟩, 3⟩, 3⟩ 5 = .error .out_of_range ∧
    (do
        let p ← Vector.At ⟨⟨⟨1, 0⟩, 3⟩, 3⟩ 1
        (⟨[some [some 10, some 20, some 30]]⟩ : Heap Nat).read p) = .ok 20 ∧
    ((Vector.At ⟨⟨⟨1, 0⟩, 3⟩, 3⟩ 1 = .error .out_of_range ↔ 1 ≥ Vector.Size ⟨⟨⟨1, 0⟩, 3⟩, 3⟩) ∧
      ((∃ hi : 1 < [10, 20, 30].length,
          Vector.At ⟨⟨⟨1, 0⟩, 3⟩, 3⟩ 1 = .ok ((Vector.begin ⟨⟨⟨1, 0⟩, 3⟩, 3⟩).add 1) ∧
          (⟨[some [some 10, some 20, some 30]]⟩ : Heap Nat).read
              ((Vector.begin ⟨⟨⟨1, 0⟩, 3⟩, 3⟩).add 1) = .ok ([10, 20, 30].get ⟨1, hi⟩)) ∨
        1 ≥ Vector.Size ⟨⟨⟨1, 0⟩, 3⟩, 3⟩)) :=
  ⟨⟨rfl, by decide, rfl, by decide, rfl⟩, rfl, rfl,
    C8_At _ _ _ 1 ⟨rfl, by decide, rfl, by decide, rfl⟩⟩

theorem layout_head_ne_none (t : List α) (c : Nat) (B : Block α) (ht : t ≠ []) :
    layout t c ≠ none :: B := by
  cases t with
  | nil => exact absurd rfl ht
  | cons x t =>
    intro hc
    simp [layout] at hc

/-- C9 (the code departs from it): on every non-empty vector, holding
`y :: rest`, `PopBack` succeeds and decrements the length, but the object it
destroys is the one in slot 0, the first element: afterwards slot 0 holds no
object and the slots of `rest`, the last element included, are still alive.
Unless the vector had one element only, what is left is not the storage of
a vector of any elements. -/
theorem C9_PopBack_destroys_first (h : Heap α) (v : Vector) (y : α) (rest : List α)
    (hv : v.Holds h (y :: rest)) :
    ∃ h', v.PopBack h = .ok (h', { v with size_ := rest.length }) ∧
      h'.load v.data_.buffer_.base
        = .ok (none :: (rest.map some
            ++ List.replicate (v.data_.capacity_ - (rest.length + 1)) none)) ∧
      (rest = [] ∨ ∀ t, ¬ Vector.Holds h' { v with size_ := rest.length } t) := by
  obtain ⟨⟨⟨a, o⟩, c⟩, n⟩ := v
  obtain ⟨hn, hle, ho, h0, ha⟩ := hv
  simp only at hn hle ho h0 ha
  subst ho
  simp only [List.length_cons] at hn hle
  subst hn
  have hl : (h.store a (none :: (rest.map some
        ++ List.replicate (c - (rest.length + 1)) none))).load a
      = .ok (none :: (rest.map some ++ List.replicate (c - (rest.length + 1)) none)) :=
    Heap.load_store_len _ ha (by simp [layout])
  refine ⟨h.store a (none :: (rest.map some ++ List.replicate (c - (rest.length + 1)) none)),
    ?_, hl, ?_⟩
  · rw [PopBack_eq h a c y rest (rest.length + 1) rfl ha]
    rfl
  · by_cases hr : rest = []
    · exact Or.inl hr
    · right
      intro t ht
      obtain ⟨htn, _, _, _, hta⟩ := ht
      simp only at htn hta
      rw [hl] at hta
      have htne : t ≠ [] := by
        intro h0
        subst h0
        exact hr (List.length_eq_zero.mp htn)
      exact layout_head_ne_none t c _ htne (Except.ok.inj hta).symm

/-- C9, at the failing input: `PopBack` on the vector `[1, 2]` leaves the
slots `[no object, 2]` and the length 1. -/
theorem C9_PopBack_destroys_first_witness :
    Vector.Holds (⟨[some [some 1, some 2]]⟩ : Heap Nat) ⟨⟨⟨1, 0⟩, 2⟩, 2⟩ (1 :: [2]) ∧
    Vector.PopBack (⟨[some [some 1, some 2]]⟩ : Heap Nat) ⟨⟨⟨1, 0⟩, 2⟩, 2⟩
      = .ok (⟨[some [none, some 2]]⟩, ⟨⟨⟨1, 0⟩, 2⟩, 1⟩) ∧
    ∃ h', Vector.PopBack (⟨[some [some 1, some 2]]⟩ : Heap Nat) ⟨⟨⟨1, 0⟩, 2⟩, 2⟩
        = .ok (h', { (⟨⟨⟨1, 0⟩, 2⟩, 2⟩ : Vector) with size_ := [2].length }) ∧
      h'.load (⟨⟨⟨1, 0⟩, 2⟩, 2⟩ : Vector).data_.buffer_.base
        = .ok (none :: ([2].map some
            ++ List.replicate ((⟨⟨⟨1, 0⟩, 2⟩, 2⟩ : Vector).data_.capacity_ - ([2].length + 1))
              none)) ∧
      ([2] = [] ∨ ∀ t, ¬ Vector.Holds h'
        { (⟨⟨⟨1, 0⟩, 2⟩, 2⟩ : Vector) with size_ := [2].length } t) :=
  ⟨⟨rfl, by decide, rfl, by decide, rfl⟩, rfl,
    C9_PopBack_destroys_first _ _ 1 [2] ⟨rfl, by decide, rfl, by decide, rfl⟩⟩

theorem distance_begin_end {h : Heap α} {v : Vector} {s : List α} (hv : v.Holds h s) :
    distance v.begin v.end = .ok s.length := by
  simp [distance, Vector.begin, Vector.end, RawMemory.GetAddress, Ptr.add, hv.1]

end vector

namespace vector
open cpp raw_memory std

theorem Clear_post {h : Heap α} {v : Vector} {s : List α} (hv : v.Holds h s) :
    ∃ h', v.Clear h = .ok (h', { v with size_ := 0 }) ∧
      Effect h v h' { v with size_ := 0 } ([] : List α) := by
  obtain ⟨⟨⟨a, o⟩, c⟩, n⟩ := v
  have hv' := hv
  obtain ⟨hn, hle, ho, h0, ha⟩ := hv'
  simp only at hn hle ho h0 ha
  subst ho hn
  have hl : h.load a = .ok ([] ++ s.map some ++ List.replicate (c - s.length) none) := by
    simpa [layout] using ha
  have e := destroy_n_eq a s h [] (List.replicate (c - s.length) none) 0 hl rfl
  have hb : ([] ++ List.replicate s.length none ++ List.replicate (c - s.length) none
      : Block α) = layout ([] : List α) c := by
    simp only [layout, List.map_nil, List.nil_append, List.length_nil, Nat.sub_zero]
    rw [← List.replicate_add]
    congr 1
    omega
  rw [hb] at e
  refine ⟨h.store a (layout ([] : List α) c), ?_, ?_⟩
  · simp only [Vector.Clear, RawMemory.GetAddress, e, bind_ok, pure_eq_ok]
  · exact Effect.inplace ([] : List α) hv (Nat.zero_le _)

theorem Resize_zero_eq_Clear (T : TypeTraits α) (h : Heap α) (v : Vector) :
    v.Resize T h 0 = v.Clear h := by
  obtain ⟨⟨⟨a, o⟩, c⟩, n⟩ := v
  by_cases hn : n = 0
  · subst hn
    simp [Vector.Resize, Vector.Clear, destroy_n, bind_ok, pure_eq_ok]
  · have hpos : 0 < n := Nat.pos_of_ne_zero hn
    simp [Vector.Resize, Vector.Clear, hpos, Ptr.add, RawMemory.GetAddress, bind_ok,
      pure_eq_ok]

/-- C20: for every vector holding `s`, `Clear()` succeeds, destroys every
live element (each slot of the block holds no object afterwards), leaves the
length 0 and the capacity as it was; and `Clear()` and `Resize(0)` give the
same heap and the same vector. -/
theorem C20_Clear (T : TypeTraits α) (h : Heap α) (v : Vector) (s : List α)
    (hv : v.Holds h s) :
    ∃ h' v', v.Clear h = .ok (h', v') ∧
      v'.Holds h' ([] : List α) ∧
      h'.load v'.data_.buffer_.base = .ok (List.replicate v.Capacity none) ∧
      v'.Size = 0 ∧ v'.Capacity = v.Capacity ∧
      v.Resize T h 0 = .ok (h', v') := by
  obtain ⟨h', he, hE⟩ := Clear_post hv
  refine ⟨h', _, he, hE.holds, ?_, rfl, rfl, ?_⟩
  · have := hE.holds.2.2.2.2
    simpa [layout, Vector.Capacity, RawMemory.Capacity] using this
  · rw [Resize_zero_eq_Clear, he]

/-- C20, at an instance: the vector `[1, 2]` in a block of 3 slots. -/
theorem C20_Clear_witness :
    Vector.Holds (⟨[some [some 1, some 2, none]]⟩ : Heap Nat) ⟨⟨⟨1, 0⟩, 3⟩, 2⟩ [1, 2] ∧
    ∃ h' v', Vector.Clear (⟨[some [some 1, some 2, none]]⟩ : Heap Nat) ⟨⟨⟨1, 0⟩, 3⟩, 2⟩
        = .ok (h', v') ∧
      v'.Holds h' ([] : List Nat) ∧
      h'.load v'.data_.buffer_.base
        = .ok (List.replicate (Vector.Capacity ⟨⟨⟨1, 0⟩, 3⟩, 2⟩) none) ∧
      v'.Size = 0 ∧ v'.Capacity = Vector.Capacity ⟨⟨⟨1, 0⟩, 3⟩, 2⟩ ∧
      Vector.Resize ⟨true, true, 0, id, fun _ x => x⟩
        (⟨[some [some 1, some 2, none]]⟩ : Heap Nat) ⟨⟨⟨1, 0⟩, 3⟩, 2⟩ 0 = .ok (h', v') :=
  ⟨⟨rfl, by decide, rfl, by decide, rfl⟩,
    C20_Clear _ _ _ [1, 2] ⟨rfl, by decide, rfl, by decide, rfl⟩⟩

theorem null_holds (h : Heap α) : Vector.Holds h ⟨⟨nullptr, 0⟩, 0⟩ ([] : List α) :=
  ⟨rfl, Nat.le_refl _, rfl, fun _ => rfl, load_zero h⟩

theorem move_ctor_eq (other : Vector) :
    Vector.move_ctor other = (other, ⟨⟨nullptr, 0⟩, 0⟩) := rfl

theorem move_assign_eq (self rhs : Vector) :
    self.move_assign (some rhs) = (rhs, some ⟨⟨nullptr, 0⟩, 0⟩) := rfl

/-- C12: for every vector `src` holding `s`, the move constructor gives a
vector that holds `s`, in the original order, with the capacity `src` had,
and leaves `src` with size 0 and capacity 0 (and the null buffer); move
assignment of `src` to any other vector `dst` does the same to `dst` and
`src`.  Neither touches the heap. -/
theorem C12_move (h : Heap α) (src dst : Vector) (s : List α) (hs : src.Holds h s) :
    ((Vector.move_ctor src).1.Holds h s ∧
      (Vector.move_ctor src).1.Capacity = src.Capacity ∧
      (Vector.move_ctor src).2.Size = 0 ∧ (Vector.move_ctor src).2.Capacity = 0 ∧
      (Vector.move_ctor src).2.Holds h ([] : List α)) ∧
    ∃ dst' src', dst.move_assign (some src) = (dst', some src') ∧
      dst'.Holds h s ∧ dst'.Capacity = src.Capacity ∧
      src'.Size = 0 ∧ src'.Capacity = 0 ∧ src'.Holds h ([] : List α) := by
  refine ⟨?_, src, ⟨⟨nullptr, 0⟩, 0⟩, move_assign_eq dst src, hs, rfl, rfl, rfl, null_holds h⟩
  rw [move_ctor_eq]
  exact ⟨hs, rfl, rfl, rfl, null_holds h⟩

/-- C12, at an instance: the source `[1, 2]` (capacity 3), moved into a new
vector and move-assigned to the vector `[7]`. -/
theorem C12_move_witness :
    Vector.Holds (⟨[some [some 1, some 2, none], some [some 7]]⟩ : Heap Nat)
      ⟨⟨⟨1, 0⟩, 3⟩, 2⟩ [1, 2] ∧
    (((Vector.move_ctor ⟨⟨⟨1, 0⟩, 3⟩, 2⟩).1.Holds
        (⟨[some [some 1, some 2, none], some [some 7]]⟩ : Heap Nat) [1, 2] ∧
      (Vector.move_ctor ⟨⟨⟨1, 0⟩, 3⟩, 2⟩).1.Capacity = Vector.Capacity ⟨⟨⟨1, 0⟩, 3⟩, 2⟩ ∧
      (Vector.move_ctor ⟨⟨⟨1, 0⟩, 3⟩, 2⟩).2.Size = 0 ∧
      (Vector.move_ctor ⟨⟨⟨1, 0⟩, 3⟩, 2⟩).2.Capacity = 0 ∧
      (Vector.move_ctor ⟨⟨⟨1, 0⟩, 3⟩, 2⟩).2.Holds
        (⟨[some [some 1, some 2, none], some [some 7]]⟩ : Heap Nat) ([] : List Nat)) ∧
    ∃ dst' src', Vector.move_assign ⟨⟨⟨2, 0⟩, 1⟩, 1⟩ (some ⟨⟨⟨1, 0⟩, 3⟩, 2⟩) = (dst', some src') ∧
      dst'.Holds (⟨[some [some 1, some 2, none], some [some 7]]⟩ : Heap Nat) [1, 2] ∧
      dst'.Capacity = Vector.Capacity ⟨⟨⟨1, 0⟩, 3⟩, 2⟩ ∧
      src'.Size = 0 ∧ src'.Capacity = 0 ∧
      src'.Holds (⟨[some [some 1, some 2, none], some [some 7]]⟩ : Heap Nat) ([] : List Nat)) :=
  ⟨⟨rfl, by decide, rfl, by decide, rfl⟩,
    C12_move _ _ ⟨⟨⟨2, 0⟩, 1⟩, 1⟩ [1, 2] ⟨rfl, by decide, rfl, by decide, rfl⟩⟩

theorem swap_eq (h : Heap α) (a b : RawMemory) : std.swap h a b = .ok (h, b, a) := by
  simp [std.swap, RawMemory.move_ctor, RawMemory.move_assign, RawMemory.dtor,
    RawMemory.Deallocate, operator_delete, nullptr, bind_ok, pure_eq_ok]

theorem swap_self_eq (h : Heap α) (a : RawMemory) : std.swap_self h a = .ok (h, a) := by
  simp [std.swap_self, RawMemory.move_ctor, RawMemory.move_assign, RawMemory.dtor,
    RawMemory.Deallocate, operator_delete, nullptr, bind_ok, pure_eq_ok]

theorem Swap_eq (h : Heap α) (a b : Vector) : a.Swap h (some b) = .ok (h, b, some a) := by
  simp [Vector.Swap, swap_eq, bind_ok, pure_eq_ok]

theorem Swap_self_eq (h : Heap α) (a : Vector) : a.Swap h none = .ok (h, a, none) := by
  simp [Vector.Swap, swap_self_eq, bind_ok, pure_eq_ok]

/-- C13: for every pair of vectors `a` holding `sa` and `b` holding `sb`,
`a.Swap(b)` succeeds, leaves the heap as it was, leaves `a` holding `sb` with
the length and capacity `b` had and `b` holding `sa` with the length and
capacity `a` had; a second `Swap` gives back both vectors; and `a.Swap(a)`
changes nothing. -/
theorem C13_Swap (h : Heap α) (a b : Vector) (sa sb : List α) (ha : a.Holds h sa)
    (hb : b.Holds h sb) :
    (∃ a' b', a.Swap h (some b) = .ok (h, a', some b') ∧
      a'.Holds h sb ∧ a'.Size = b.Size ∧ a'.Capacity = b.Capacity ∧
      b'.Holds h sa ∧ b'.Size = a.Size ∧ b'.Capacity = a.Capacity ∧
      a'.Swap h (some b') = .ok (h, a, some b)) ∧
    a.Swap h none = .ok (h, a, none) :=
  ⟨⟨b, a, Swap_eq h a b, hb, rfl, rfl, ha, rfl, rfl, Swap_eq h b a⟩, Swap_self_eq h a⟩

/-- C13, at an instance: `[1, 2]` (capacity 3) and `[7]` (capacity 1). -/
theorem C13_Swap_witness :
    (Vector.Holds (⟨[some [some 1, some 2, none], some [some 7]]⟩ : Heap Nat)
        ⟨⟨⟨1, 0⟩, 3⟩, 2⟩ [1, 2] ∧
      Vector.Holds (⟨[some [some 1, some 2, none], some [some 7]]⟩ : Heap Nat)
        ⟨⟨⟨2, 0⟩, 1⟩, 1⟩ [7]) ∧
    ((∃ a' b', Vector.Swap (⟨[some [some 1, some 2, none], some [some 7]]⟩ : Heap Nat)
          ⟨⟨⟨1, 0⟩, 3⟩, 2⟩ (some ⟨⟨⟨2, 0⟩, 1⟩, 1⟩)
          = .ok (⟨[some [some 1, some 2, none], some [some 7]]⟩, a', some b') ∧
        a'.Holds (⟨[some [some 1, some 2, none], some [some 7]]⟩ : Heap Nat) [7] ∧
        a'.Size = Vector.Size ⟨⟨⟨2, 0⟩, 1⟩, 1⟩ ∧
        a'.Capacity = Vector.Capacity ⟨⟨⟨2, 0⟩, 1⟩, 1⟩ ∧
        b'.Holds (⟨[some [some 1, some 2, none], some [some 7]]⟩ : Heap Nat) [1, 2] ∧
        b'.Size = Vector.Size ⟨⟨⟨1, 0⟩, 3⟩, 2⟩ ∧
        b'.Capacity = Vector.Capacity ⟨⟨⟨1, 0⟩, 3⟩, 2⟩ ∧
        a'.Swap (⟨[some [some 1, some 2, none], some [some 7]]⟩ : Heap Nat) (some b')
          = .ok (⟨[some [some 1, some 2, none], some [some 7]]⟩,
              ⟨⟨⟨1, 0⟩, 3⟩, 2⟩, some ⟨⟨⟨2, 0⟩, 1⟩, 1⟩)) ∧
      Vector.Swap (⟨[some [some 1, some 2, none], some [some 7]]⟩ : Heap Nat)
          ⟨⟨⟨1, 0⟩, 3⟩, 2⟩ none
        = .ok (⟨[some [some 1, some 2, none], some [some 7]]⟩, ⟨⟨⟨1, 0⟩, 3⟩, 2⟩, none)) :=
  ⟨⟨⟨rfl, by decide, rfl, by decide, rfl⟩, ⟨rfl, by decide, rfl, by decide, rfl⟩⟩,
    C13_Swap _ _ _ [1, 2] [7] ⟨rfl, by decide, rfl, by decide, rfl⟩
      ⟨rfl, by decide, rfl, by decide, rfl⟩⟩

theorem assign_loop_eq {a a' : Nat} (hne : a ≠ a') (c c' : Nat) (n0 n0' : Nat) (xs : List α) :
    ∀ (h : Heap α) (L R L' R' : Block α) (ys : List α) (i : Nat),
    h.load a = .ok (L ++ ys.map some ++ R) → i = L.length →
    h.load a' = .ok (L' ++ xs.map some ++ R') → i = L'.length →
    ys.length = xs.length → i + xs.length ≤ c → i + xs.length ≤ c' →
    Vector.assign_loop ⟨⟨⟨a, 0⟩, c⟩, n0⟩ ⟨⟨⟨a', 0⟩, c'⟩, n0'⟩ xs.length i h
      = .ok (h.store a (L ++ xs.map some ++ R)) := by
  induction xs with
  | nil =>
    intro h L R L' R' ys i ha _ _ _ hl _ _
    have : ys = [] := List.length_eq_zero.mp (by simpa using hl)
    subst this
    simp only [List.map_nil, List.append_nil] at ha
    simp [Vector.assign_loop, Heap.store_load ha]
  | cons x xs ih =>
    intro h L R L' R' ys i ha hi ha' hi' hl hc hc'
    cases ys with
    | nil => simp at hl
    | cons y ys =>
      simp only [List.length_cons] at hc hc' hl
      have ha1 : h.load a = .ok (L ++ some y :: (ys.map some ++ R)) := by simpa using ha
      have ha1' : h.load a' = .ok (L' ++ some x :: (xs.map some ++ R')) := by simpa using ha'
      have hlt : i < c := by omega
      have hlt' : i < c' := by omega
      have hs : (h.store a (L ++ some x :: (ys.map some ++ R))).load a
          = .ok ((L ++ [some x]) ++ ys.map some ++ R) := by
        rw [Heap.load_store_same _ ha1 (by simp)]
        simp
      have hs' : (h.store a (L ++ some x :: (ys.map some ++ R))).load a'
          = .ok ((L' ++ [some x]) ++ xs.map some ++ R') := by
        rw [Heap.load_store_ne _ _ hne, ha1']
        simp
      simp only [List.length_cons, Vector.assign_loop, RawMemory.index, hlt, hlt', if_true,
        Ptr.add, Nat.zero_add, bind_ok, copy_assign, Heap.read_eq ha1' hi',
        Heap.write_eq x ha1 hi]
      rw [ih _ (L ++ [some x]) R (L' ++ [some x]) R' ys (i + 1) hs (by simp [hi]) hs'
        (by simp [hi']) (by omega) (by omega) (by omega), Heap.store_store]
      simp

theorem take_drop_map_layout (s : List α) (c k : Nat) :
    layout s c = (s.take k).map some ++ (s.drop k).map some
      ++ List.replicate (c - s.length) none := by
  rw [← List.map_append, List.take_append_drop]
  rfl

theorem copy_assign_shrink (h : Heap α) (a a' c c' : Nat) (hne : a ≠ a') (sd sr : List α)
    (hlen : sr.length ≤ sd.length) (hc : sd.length ≤ c) (hc' : sr.length ≤ c')
    (ha : h.load a = .ok (layout sd c)) (ha' : h.load a' = .ok (layout sr c')) :
    Vector.copy_assign h ⟨⟨⟨a, 0⟩, c⟩, sd.length⟩ (some ⟨⟨⟨a', 0⟩, c'⟩, sr.length⟩)
      = .ok (h.store a (layout sr c), ⟨⟨⟨a, 0⟩, c⟩, sr.length⟩) := by
  have hng : ¬ sr.length > c := by omega
  have hng2 : ¬ sr.length > sd.length := by omega
  have hmin : min sr.length sd.length = sr.length := Nat.min_eq_left hlen
  have hd : h.load a = .ok ([] ++ (sd.take sr.length).map some
      ++ ((sd.drop sr.length).map some ++ List.replicate (c - sd.length) none)) := by
    rw [ha, take_drop_map_layout sd c sr.length]
    simp only [List.nil_append, List.append_assoc]
  have hs : h.load a' = .ok ([] ++ sr.map some ++ List.replicate (c' - sr.length) none) := by
    rw [ha']
    simp [layout]
  have e1 := assign_loop_eq hne c c' sd.length sr.length sr h [] _ [] _ (sd.take sr.length) 0
    hd rfl hs rfl (by simp [hlen]) (by omega) (by omega)
  have hl2 : (h.store a ([] ++ sr.map some
      ++ ((sd.drop sr.length).map some ++ List.replicate (c - sd.length) none))).load a
      = .ok (sr.map some ++ (sd.drop sr.length).map some
        ++ List.replicate (c - sd.length) none) := by
    rw [Heap.load_store_len _ hd (by simp only [List.length_append, List.length_map, List.length_take, List.length_drop, List.length_replicate, List.length_nil]; omega)]
    simp only [List.nil_append, List.append_assoc]
  have e2 := destroy_n_eq a (sd.drop sr.length) _ (sr.map some)
    (List.replicate (c - sd.length) none) sr.length hl2 (by simp)
  rw [show (sd.drop sr.length).length = sd.length - sr.length by simp] at e2
  simp only [Vector.copy_assign, Vector.Capacity, RawMemory.Capacity, hng, if_false, hmin, e1,
    bind_ok, hng2, RawMemory.GetAddress, Ptr.add, Nat.zero_add, e2, pure_eq_ok,
    Heap.store_store]
  congr 3
  unfold layout
  rw [List.append_assoc, ← List.replicate_add]
  congr 2
  omega

theorem copy_assign_extend (h : Heap α) (a a' c c' : Nat) (hne : a ≠ a') (sd sr : List α)
    (hlen : sd.length < sr.length) (hc : sr.length ≤ c) (hc' : sr.length ≤ c')
    (ha : h.load a = .ok (layout sd c)) (ha' : h.load a' = .ok (layout sr c')) :
    Vector.copy_assign h ⟨⟨⟨a, 0⟩, c⟩, sd.length⟩ (some ⟨⟨⟨a', 0⟩, c'⟩, sr.length⟩)
      = .ok (h.store a (layout sr c), ⟨⟨⟨a, 0⟩, c⟩, sr.length⟩) := by
  have hng : ¬ sr.length > c := by omega
  have hgt : sr.length > sd.length := hlen
  have hmin : min sr.length sd.length = sd.length := Nat.min_eq_right (by omega)
  have htl : (sr.take sd.length).length = sd.length := by simp; omega
  have hdl : (sr.drop sd.length).length = sr.length - sd.length := by simp
  have hd : h.load a = .ok ([] ++ sd.map some ++ List.replicate (c - sd.length) none) := by
    rw [ha]
    simp [layout]
  have hs : h.load a' = .ok ([] ++ (sr.take sd.length).map some
      ++ ((sr.drop sd.length).map some ++ List.replicate (c' - sr.length) none)) := by
    rw [ha', take_drop_map_layout sr c' sd.length]
    simp only [List.nil_append, List.append_assoc]
  have e1 := assign_loop_eq hne c c' sd.length sr.length (sr.take sd.length) h [] _ [] _ sd 0
    hd rfl hs rfl (by rw [htl]) (by rw [htl]; omega) (by rw [htl]; omega)
  rw [htl] at e1
  have hl1 : (h.store a ([] ++ (sr.take sd.length).map some
      ++ List.replicate (c - sd.length) none)).load a
      = .ok ((sr.take sd.length).map some ++ List.replicate (sr.drop sd.length).length none
        ++ List.replicate (c - sr.length) none) := by
    rw [Heap.load_store_len _ hd (by simp only [List.length_append, List.length_map, List.length_take, List.length_drop, List.length_replicate, List.length_nil]; omega)]
    rw [hdl]
    simp only [List.nil_append, List.append_assoc]
    rw [← List.replicate_add,
      show sr.length - sd.length + (c - sr.length) = c - sd.length by omega]
  have hl1' : (h.store a ([] ++ (sr.take sd.length).map some
      ++ List.replicate (c - sd.length) none)).load a'
      = .ok ((sr.take sd.length).map some ++ (sr.drop sd.length).map some
        ++ List.replicate (c' - sr.length) none) := by
    rw [Heap.load_store_ne _ _ hne, hs]
    simp only [List.nil_append, List.append_assoc]
  have e2 := uninitialized_copy_n_eq (Ne.symm hne) (sr.drop sd.length) _
    ((sr.take sd.length).map some) (List.replicate (c' - sr.length) none)
    ((sr.take sd.length).map some) (List.replicate (sr.drop sd.length).length none)
    (List.replicate (c - sr.length) none) sd.length sd.length hl1'
    (by rw [List.length_map, htl]) hl1 (by rw [List.length_map, htl]) (by simp)
  rw [hdl] at e2
  simp only [Vector.copy_assign, Vector.Capacity, RawMemory.Capacity, hng, if_false, hmin, e1,
    bind_ok, hgt, if_true, RawMemory.GetAddress, Ptr.add, Nat.zero_add, e2, pure_eq_ok,
    Heap.store_store]
  congr 3
  rw [take_drop_map_layout sr c sd.length]

theorem frame_release (h : Heap α) (a : Nat) : h.frame (h.release a) a := by
  intro q b hne hq
  rw [Heap.load_release_ne _ (Ne.symm hne)]
  exact hq

theorem Holds_zero_base {h : Heap α} {v : Vector} {s : List α} (hv : v.Holds h s)
    (hb : v.data_.buffer_.base = 0) : v.data_.capacity_ = 0 ∧ s = [] := by
  obtain ⟨_, hle, _, _, ha⟩ := hv
  rw [hb, load_zero] at ha
  have hl := congrArg List.length (Except.ok.inj ha)
  rw [layout_length s _ hle] at hl
  simp only [List.length_nil] at hl
  refine ⟨hl.symm, List.length_eq_zero.mp ?_⟩
  omega

theorem Vector_dtor_push (g : Heap α) (B : Block α) (a c : Nat) (s : List α) (_hc : s.length ≤ c)
    (ha : g.load a = .ok (layout s c)) :
    Vector.dtor (g.push B) ⟨⟨⟨a, 0⟩, c⟩, s.length⟩ = .ok ((g.release a).push B) := by
  have hl : g.load a = .ok ([] ++ s.map some ++ List.replicate (c - s.length) none) := by
    simpa [layout] using ha
  have e1 := destroy_n_push g s [] (List.replicate (c - s.length) none) B a s.length 0 rfl hl rfl
  have e2 := dtor_push (g.store a ([] ++ List.replicate s.length none
      ++ List.replicate (c - s.length) none)) B a c
    (Heap.load_store_len _ hl (by simp))
  simp only [Vector.dtor, RawMemory.GetAddress, e1, bind_ok, e2, Heap.release_store]

theorem Vector_dtor_eq (h : Heap α) (a c : Nat) (s : List α) (_hc : s.length ≤ c)
    (ha : h.load a = .ok (layout s c)) :
    Vector.dtor h ⟨⟨⟨a, 0⟩, c⟩, s.length⟩ = .ok (h.release a) := by
  have hl : h.load a = .ok ([] ++ s.map some ++ List.replicate (c - s.length) none) := by
    simpa [layout] using ha
  have e1 := destroy_n_eq a s h [] (List.replicate (c - s.length) none) 0 hl rfl
  have e2 := operator_delete_eq (Heap.load_store_len ([] ++ List.replicate s.length none
      ++ List.replicate (c - s.length) none) hl (by simp))
  simp only [Vector.dtor, RawMemory.GetAddress, e1, bind_ok, RawMemory.dtor,
    RawMemory.Deallocate, e2, Heap.release_store]

theorem copy_and_swap_post {h : Heap α} {dst rhs : Vector} {sd sr : List α}
    (hd : dst.Holds h sd) (hr : rhs.Holds h sr)
    (hsep : rhs.data_.buffer_.base = dst.data_.buffer_.base → dst.data_.buffer_.base = 0) :
    ∃ h' dst', Vector.copy_and_swap h dst rhs = .ok (h', dst') ∧ dst'.Holds h' sr ∧
      rhs.Holds h' sr ∧ dst'.data_.capacity_ = sr.length ∧
      h.frame h' dst.data_.buffer_.base ∧
      (dst'.data_.buffer_.base = 0 ∨ dst'.data_.buffer_.base = h.next) := by
  obtain ⟨⟨⟨a, o⟩, c⟩, n⟩ := dst
  have hd' := hd
  obtain ⟨hn, hle, ho, h0, ha⟩ := hd'
  simp only at hn hle ho h0 ha hsep
  subst ho hn
  by_cases hs : sr = []
  · subst hs
    refine ⟨h.release a, ⟨⟨nullptr, 0⟩, 0⟩, ?_, null_holds _,
      hr.transfer (frame_release h a) hsep, rfl, frame_release h a, Or.inl rfl⟩
    simp only [Vector.copy_and_swap, copy_ctor_nil h rhs hr.1, bind_ok, Swap_eq, Option.getD_some,
      Vector_dtor_eq h a c sd hle ha, pure_eq_ok]
  · have hn0 : sr.length ≠ 0 := fun h => hs (List.length_eq_zero.mp h)
    refine ⟨(h.release a).push (layout sr sr.length), ⟨⟨⟨h.next, 0⟩, sr.length⟩, sr.length⟩, ?_,
      ?_, hr.transfer (frame_realloc h a _) hsep, rfl, frame_realloc h a _, Or.inr rfl⟩
    · simp only [Vector.copy_and_swap, copy_ctor_eq hr hs, bind_ok, Swap_eq, Option.getD_some,
        Vector_dtor_push h _ a c sd hle ha, pure_eq_ok]
    · have := Vector.Holds.of_push (h.release a) sr (Nat.le_refl _) hn0
      rwa [Heap.next_release] at this

theorem copy_assign_grow_eq (h : Heap α) (dst rhs : Vector)
    (hgt : rhs.size_ > dst.data_.capacity_) :
    dst.copy_assign h (some rhs) = Vector.copy_and_swap h dst rhs := by
  simp only [Vector.copy_assign, Vector.Capacity, RawMemory.Capacity, hgt, if_true,
    Vector.copy_and_swap]

theorem copy_assign_post {h : Heap α} {dst rhs : Vector} {sd sr : List α}
    (hd : dst.Holds h sd) (hr : rhs.Holds h sr)
    (hsep : rhs.data_.buffer_.base = dst.data_.buffer_.base → dst.data_.buffer_.base = 0) :
    ∃ h' dst', dst.copy_assign h (some rhs) = .ok (h', dst') ∧ dst'.Holds h' sr ∧
      rhs.Holds h' sr ∧
      dst'.data_.capacity_
        = (if sr.length ≤ dst.data_.capacity_ then dst.data_.capacity_ else sr.length) ∧
      h.frame h' dst.data_.buffer_.base ∧
      (dst'.data_.buffer_.base = dst.data_.buffer_.base ∨ dst'.data_.buffer_.base = h.next) := by
  by_cases hgt : sr.length > dst.data_.capacity_
  · obtain ⟨h', dst', he, hH, hR, hc, hf, hb⟩ := copy_and_swap_post hd hr hsep
    have hne : sr ≠ [] := by
      intro h0
      subst h0
      simp at hgt
    refine ⟨h', dst', ?_, hH, hR, ?_, hf, ?_⟩
    · rw [copy_assign_grow_eq h dst rhs (by rw [hr.1]; exact hgt), he]
    · rw [hc, if_neg (by omega)]
    · rcases hb with hb | hb
      · have := (Holds_zero_base hH hb).2
        exact absurd this hne
      · exact Or.inr hb
  · obtain ⟨⟨⟨a, o⟩, c⟩, n⟩ := dst
    obtain ⟨⟨⟨a', o'⟩, c'⟩, n'⟩ := rhs
    have hd' := hd
    have hr' := hr
    obtain ⟨hn, hle, ho, h0, ha⟩ := hd'
    obtain ⟨hn', hle', ho', h0', ha'⟩ := hr'
    simp only at hn hle ho h0 ha hn' hle' ho' h0' ha' hsep hgt
    subst ho hn ho' hn'
    have hcap : sr.length ≤ c := by omega
    refine ⟨h.store a (layout sr c), ⟨⟨⟨a, 0⟩, c⟩, sr.length⟩, ?_,
      Vector.Holds.of_store sr ha (layout_length sd c hle) hcap h0, ?_, ?_, frame_store h a _,
      Or.inl rfl⟩
    · by_cases hne : a = a'
      · have ha0 : a = 0 := hsep hne.symm
        subst ha0
        subst hne
        obtain ⟨hc0, hsd⟩ := Holds_zero_base hd rfl
        obtain ⟨hc0', hsr⟩ := Holds_zero_base hr rfl
        simp only at hc0 hc0'
        subst hc0 hc0' hsd hsr
        simp [Vector.copy_assign, Vector.Capacity, RawMemory.Capacity, Vector.assign_loop,
          destroy_n, Heap.store, bind_ok, pure_eq_ok]
      · by_cases hlen : sr.length ≤ sd.length
        · exact copy_assign_shrink h a a' c c' hne sd sr hlen hle hle' ha ha'
        · exact copy_assign_extend h a a' c c' hne sd sr (by omega) hcap hle' ha ha'
    · exact hr.transfer (frame_store h a _) hsep
    · simp [hcap]

end vector

namespace vector
open cpp raw_memory std
variable {α : Type}

/-- C11: for every pair of vectors `dst` (holding `sd`) and `rhs` (holding
`sr`) that are two objects, each with a buffer of its own, the copy
assignment `dst = rhs` succeeds and leaves `dst` holding exactly `sr`, with
the length of `rhs`; `rhs` still holds `sr`; the capacity of `dst` is
unchanged whenever the length of `rhs` is at most the old capacity of `dst`;
and copy-constructing from `rhs` and swapping, run on the same state, also
succeeds and leaves `dst` holding the same `sr` with the same length,
whatever the two lengths and the capacity are.  Assigning a vector to itself
changes nothing. -/
theorem C11_copy_assign (h : Heap α) (dst rhs : Vector) (sd sr : List α)
    (hd : dst.Holds h sd) (hr : rhs.Holds h sr)
    (hsep : rhs.data_.buffer_.base = dst.data_.buffer_.base → dst.data_.buffer_.base = 0) :
    (∃ h' dst', dst.copy_assign h (some rhs) = .ok (h', dst') ∧
      dst'.Holds h' sr ∧ dst'.Size = rhs.Size ∧ rhs.Holds h' sr ∧
      (rhs.Size > dst.Capacity ∨ dst'.Capacity = dst.Capacity) ∧
      ∃ h'' dst'', Vector.copy_and_swap h dst rhs = .ok (h'', dst'') ∧
        dst''.Holds h'' sr ∧ dst''.Size = dst'.Size) ∧
    dst.copy_assign h none = .ok (h, dst) := by
  obtain ⟨h', dst', he, hH, hR, hc, _, _⟩ := copy_assign_post hd hr hsep
  obtain ⟨h'', dst'', he2, hH2, _, _, _, _⟩ := copy_and_swap_post hd hr hsep
  refine ⟨⟨h', dst', he, hH, ?_, hR, ?_, h'', dst'', he2, hH2, ?_⟩, rfl⟩
  · rw [Vector.Size, Vector.Size, hH.1, hr.1]
  · by_cases hle : sr.length ≤ dst.data_.capacity_
    · right
      simp only [Vector.Capacity, RawMemory.Capacity, hc, hle, if_true]
    · left
      show rhs.size_ > dst.data_.capacity_
      rw [hr.1]
      omega
  · rw [Vector.Size, Vector.Size, hH2.1, hH.1]

/-- C11, at an instance: `dst` is `[7]` (capacity 1) and `rhs` is `[1, 2]`
(capacity 3), so the assignment takes the path through a copy and a swap. -/
theorem C11_copy_assign_witness :
    (Vector.Holds (⟨[some [some 1, some 2, none], some [some 7]]⟩ : Heap Nat)
        ⟨⟨⟨2, 0⟩, 1⟩, 1⟩ [7] ∧
      Vector.Holds (⟨[some [some 1, some 2, none], some [some 7]]⟩ : Heap Nat)
        ⟨⟨⟨1, 0⟩, 3⟩, 2⟩ [1, 2] ∧
      ((⟨⟨⟨1, 0⟩, 3⟩, 2⟩ : Vector).data_.buffer_.base
          = (⟨⟨⟨2, 0⟩, 1⟩, 1⟩ : Vector).data_.buffer_.base →
        (⟨⟨⟨2, 0⟩, 1⟩, 1⟩ : Vector).data_.buffer_.base = 0)) ∧
    Vector.copy_assign (⟨[some [some 1, some 2, none], some [some 7]]⟩ : Heap Nat)
        ⟨⟨⟨2, 0⟩, 1⟩, 1⟩ (some ⟨⟨⟨1, 0⟩, 3⟩, 2⟩)
      = .ok (⟨[some [some 1, some 2, none], none, some [some 1, some 2]]⟩,
          ⟨⟨⟨3, 0⟩, 2⟩, 2⟩) ∧
    ((∃ h' dst', Vector.copy_assign (⟨[some [some 1, some 2, none], some [some 7]]⟩ : Heap Nat)
          ⟨⟨⟨2, 0⟩, 1⟩, 1⟩ (some ⟨⟨⟨1, 0⟩, 3⟩, 2⟩) = .ok (h', dst') ∧
        dst'.Holds h' [1, 2] ∧ dst'.Size = Vector.Size ⟨⟨⟨1, 0⟩, 3⟩, 2⟩ ∧
        Vector.Holds h' ⟨⟨⟨1, 0⟩, 3⟩, 2⟩ [1, 2] ∧
        (Vector.Size ⟨⟨⟨1, 0⟩, 3⟩, 2⟩ > Vector.Capacity ⟨⟨⟨2, 0⟩, 1⟩, 1⟩ ∨
          dst'.Capacity = Vector.Capacity ⟨⟨⟨2, 0⟩, 1⟩, 1⟩) ∧
        ∃ h'' dst'', Vector.copy_and_swap
            (⟨[some [some 1, some 2, none], some [some 7]]⟩ : Heap Nat)
            ⟨⟨⟨2, 0⟩, 1⟩, 1⟩ ⟨⟨⟨1, 0⟩, 3⟩, 2⟩ = .ok (h'', dst'') ∧
          dst''.Holds h'' [1, 2] ∧ dst''.Size = dst'.Size) ∧
      Vector.copy_assign (⟨[some [some 1, some 2, none], some [some 7]]⟩ : Heap Nat)
          ⟨⟨⟨2, 0⟩, 1⟩, 1⟩ none
        = .ok (⟨[some [some 1, some 2, none], some [some 7]]⟩, ⟨⟨⟨2, 0⟩, 1⟩, 1⟩)) :=
  ⟨⟨⟨rfl, by decide, rfl, by decide, rfl⟩, ⟨rfl, by decide, rfl, by decide, rfl⟩, by decide⟩,
    rfl,
    C11_copy_assign _ _ _ [7] [1, 2] ⟨rfl, by decide, rfl, by decide, rfl⟩
      ⟨rfl, by decide, rfl, by decide, rfl⟩ (by decide)⟩

theorem lex_loop_eq [LinearOrder α] (h : Heap α) (a a' : Nat) (ta : List α) :
    ∀ (tb : List α) (L R L' R' : Block α) (k k' : Nat),
    h.load a = .ok (L ++ ta.map some ++ R) → k = L.length →
    h.load a' = .ok (L' ++ tb.map some ++ R') → k' = L'.length →
    lexicographical_compare_loop (fun x y => decide (x < y)) h ta.length tb.length ⟨a, k⟩ ⟨a', k'⟩
      = .ok (lex_lt (fun x y => decide (x < y)) ta tb) := by
  induction ta with
  | nil =>
    intro tb L R L' R' k k' _ _ _ _
    cases tb with
    | nil => simp [lexicographical_compare_loop, lex_lt]
    | cons y tb => simp [lexicographical_compare_loop, lex_lt]
  | cons x ta ih =>
    intro tb L R L' R' k k' ha hk ha' hk'
    cases tb with
    | nil => simp [lexicographical_compare_loop, lex_lt]
    | cons y tb =>
      have ha1 : h.load a = .ok (L ++ some x :: (ta.map some ++ R)) := by simpa using ha
      have ha1' : h.load a' = .ok (L' ++ some y :: (tb.map some ++ R')) := by simpa using ha'
      have ha2 : h.load a = .ok ((L ++ [some x]) ++ ta.map some ++ R) := by simpa using ha
      have ha2' : h.load a' = .ok ((L' ++ [some y]) ++ tb.map some ++ R') := by simpa using ha'
      have hrec := ih tb (L ++ [some x]) R (L' ++ [some y]) R' (k + 1) (k' + 1) ha2
        (by simp [hk]) ha2' (by simp [hk'])
      simp only [List.length_cons, lexicographical_compare_loop, Heap.read_eq ha1 hk,
        Heap.read_eq ha1' hk', bind_ok, Ptr.add, hrec, lex_lt]
      rcases lt_trichotomy x y with hlt | heq | hgt
      · have hne : x ≠ y := ne_of_lt hlt
        simp [hlt, hne]
      · subst heq
        simp
      · have hne : x ≠ y := (ne_of_lt hgt).symm
        have hnlt : ¬ x < y := not_lt_of_gt hgt
        simp [hgt, hne, hnlt]

theorem operator_lt_eq [LinearOrder α] {h : Heap α} {a b : Vector} {sa sb : List α}
    (ha : a.Holds h sa) (hb : b.Holds h sb) :
    operator_lt (fun x y => decide (x < y)) h a b
      = .ok (lex_lt (fun x y => decide (x < y)) sa sb) := by
  have hla : h.load a.data_.buffer_.base
      = .ok ([] ++ sa.map some ++ List.replicate (a.data_.capacity_ - sa.length) none) := by
    simpa [layout] using ha.2.2.2.2
  have hlb : h.load b.data_.buffer_.base
      = .ok ([] ++ sb.map some ++ List.replicate (b.data_.capacity_ - sb.length) none) := by
    simpa [layout] using hb.2.2.2.2
  have e := lex_loop_eq h _ _ sa sb [] _ [] _ 0 0 hla rfl hlb rfl
  have hba : a.begin = ⟨a.data_.buffer_.base, 0⟩ := by
    rw [Vector.begin, RawMemory.GetAddress, ← ha.2.2.1]
  have hbb : b.begin = ⟨b.data_.buffer_.base, 0⟩ := by
    rw [Vector.begin, RawMemory.GetAddress, ← hb.2.2.1]
  simp only [operator_lt, lexicographical_compare, distance_begin_end ha, distance_begin_end hb,
    bind_ok]
  rw [hba, hbb]
  exact e

theorem lex_lt_irrefl [LinearOrder α] (s : List α) :
    lex_lt (fun x y => decide (x < y)) s s = false := by
  induction s with
  | nil => rfl
  | cons x s ih => simp [lex_lt, ih]

theorem lex_lt_asymm [LinearOrder α] (s : List α) :
    ∀ t, lex_lt (fun x y => decide (x < y)) s t = true →
      lex_lt (fun x y => decide (x < y)) t s = false := by
  induction s with
  | nil =>
    intro t _
    cases t <;> simp [lex_lt]
  | cons x s ih =>
    intro t ht
    cases t with
    | nil => simp [lex_lt] at ht
    | cons y t =>
      by_cases hxy : x = y
      · subst hxy
        simp only [lex_lt, if_true] at ht ⊢
        exact ih t ht
      · have hyx : ¬ y = x := fun h => hxy h.symm
        simp only [lex_lt, hxy, hyx, if_false, decide_eq_true_eq, decide_eq_false_iff_not] at ht ⊢
        exact not_lt_of_gt ht

theorem lex_lt_total [LinearOrder α] (s : List α) :
    ∀ t, s ≠ t → lex_lt (fun x y => decide (x < y)) s t = true ∨
      lex_lt (fun x y => decide (x < y)) t s = true := by
  induction s with
  | nil =>
    intro t ht
    cases t with
    | nil => exact absurd rfl ht
    | cons y t => simp [lex_lt]
  | cons x s ih =>
    intro t ht
    cases t with
    | nil => simp [lex_lt]
    | cons y t =>
      by_cases hxy : x = y
      · subst hxy
        have hst : s ≠ t := fun h => ht (by rw [h])
        simpa [lex_lt] using ih t hst
      · have hyx : ¬ y = x := fun h => hxy h.symm
        simp only [lex_lt, hxy, hyx, if_false, decide_eq_true_eq]
        exact lt_or_gt_of_ne hxy

theorem operator_eq_eq [LinearOrder α] {h : Heap α} {a b : Vector} {sa sb : List α}
    (ha : a.Holds h sa) (hb : b.Holds h sb) :
    operator_eq (fun x y => decide (x < y)) h a b = .ok (decide (sa = sb)) := by
  simp only [operator_eq, operator_lt_eq ha hb, operator_lt_eq hb ha, bind_ok, pure_eq_ok]
  by_cases hst : sa = sb
  · subst hst
    simp [lex_lt_irrefl]
  · rcases lex_lt_total sa sb hst with h1 | h1
    · simp [h1, hst]
    · have h2 := lex_lt_asymm sb sa h1
      simp [h1, h2, hst]

theorem list_eq_iff_get (s t : List α) :
    s = t ↔ s.length = t.length ∧
      ∀ (i : Nat) (h1 : i < s.length) (h2 : i < t.length), s.get ⟨i, h1⟩ = t.get ⟨i, h2⟩ := by
  constructor
  · intro h
    subst h
    exact ⟨rfl, fun _ _ _ => rfl⟩
  · intro ⟨hl, hg⟩
    exact List.ext_get hl hg

/-- C14: for vectors over a linearly ordered element type, holding `sa` and
`sb`, `operator<` returns the strict lexicographic order of `sa` and `sb` (a
proper prefix is less than the longer sequence, otherwise the first differing
element decides), `operator>` is `operator<` with the arguments exchanged,
`operator==` returns true exactly when the two sequences have the same length
and equal elements at every index, and exactly one of `a < b`, `a == b`,
`a > b` is true. -/
theorem C14_comparison [LinearOrder α] (h : Heap α) (a b : Vector) (sa sb : List α)
    (ha : a.Holds h sa) (hb : b.Holds h sb) :
    operator_lt (fun x y => decide (x < y)) h a b
      = .ok (lex_lt (fun x y => decide (x < y)) sa sb) ∧
    operator_gt (fun x y => decide (x < y)) h a b
      = .ok (lex_lt (fun x y => decide (x < y)) sb sa) ∧
    (operator_eq (fun x y => decide (x < y)) h a b = .ok true ↔
      sa.length = sb.length ∧
        ∀ (i : Nat) (h1 : i < sa.length) (h2 : i < sb.length),
          sa.get ⟨i, h1⟩ = sb.get ⟨i, h2⟩) ∧
    ((operator_lt (fun x y => decide (x < y)) h a b = .ok true ∧
        operator_eq (fun x y => decide (x < y)) h a b = .ok false ∧
        operator_gt (fun x y => decide (x < y)) h a b = .ok false) ∨
      (operator_lt (fun x y => decide (x < y)) h a b = .ok false ∧
        operator_eq (fun x y => decide (x < y)) h a b = .ok true ∧
        operator_gt (fun x y => decide (x < y)) h a b = .ok false) ∨
      (operator_lt (fun x y => decide (x < y)) h a b = .ok false ∧
        operator_eq (fun x y => decide (x < y)) h a b = .ok false ∧
        operator_gt (fun x y => decide (x < y)) h a b = .ok true)) := by
  have hlt := operator_lt_eq ha hb
  have hgt : operator_gt (fun x y => decide (x < y)) h a b
      = .ok (lex_lt (fun x y => decide (x < y)) sb sa) := operator_lt_eq hb ha
  have heq := operator_eq_eq ha hb
  refine ⟨hlt, hgt, ?_, ?_⟩
  · rw [heq, ← list_eq_iff_get]
    constructor
    · intro h1
      exact of_decide_eq_true (Except.ok.inj h1)
    · intro h1
      rw [decide_eq_true h1]
  · rw [hlt, hgt, heq]
    by_cases hst : sa = sb
    · subst hst
      right; left
      simp [lex_lt_irrefl]
    · rcases lex_lt_total sa sb hst with h1 | h1
      · left
        simp [h1, lex_lt_asymm sa sb h1, hst]
      · right; right
        simp [h1, lex_lt_asymm sb sa h1, hst]

/-- C14, at the instances of the specification: `[1, 2, 3] < [1, 2, 4]` and
`[1, 2] < [1, 2, 3]`, and `[1, 2, 3] == [1, 2, 3]`. -/
theorem C14_comparison_witness :
    (Vector.Holds (⟨[some [some 1, some 2, some 3], some [some 1, some 2, some 4],
          some [some 1, some 2]]⟩ : Heap Nat) ⟨⟨⟨1, 0⟩, 3⟩, 3⟩ [1, 2, 3] ∧
      Vector.Holds (⟨[some [some 1, some 2, some 3], some [some 1, some 2, some 4],
          some [some 1, some 2]]⟩ : Heap Nat) ⟨⟨⟨2, 0⟩, 3⟩, 3⟩ [1, 2, 4]) ∧
    (operator_lt (fun x y => decide (x < y)) (⟨[some [some 1, some 2, some 3],
          some [some 1, some 2, some 4], some [some 1, some 2]]⟩ : Heap Nat)
        ⟨⟨⟨1, 0⟩, 3⟩, 3⟩ ⟨⟨⟨2, 0⟩, 3⟩, 3⟩ = .ok true ∧
      operator_lt (fun x y => decide (x < y)) (⟨[some [some 1, some 2, some 3],
          some [some 1, some 2, some 4], some [some 1, some 2]]⟩ : Heap Nat)
        ⟨⟨⟨3, 0⟩, 2⟩, 2⟩ ⟨⟨⟨1, 0⟩, 3⟩, 3⟩ = .ok true ∧
      operator_eq (fun x y => decide (x < y)) (⟨[some [some 1, some 2, some 3],
          some [some 1, some 2, some 4], some [some 1, some 2]]⟩ : Heap Nat)
        ⟨⟨⟨1, 0⟩, 3⟩, 3⟩ ⟨⟨⟨1, 0⟩, 3⟩, 3⟩ = .ok true) ∧
    (operator_lt (fun x y => decide (x < y)) (⟨[some [some 1, some 2, some 3],
          some [some 1, some 2, some 4], some [some 1, some 2]]⟩ : Heap Nat)
        ⟨⟨⟨1, 0⟩, 3⟩, 3⟩ ⟨⟨⟨2, 0⟩, 3⟩, 3⟩
      = .ok (lex_lt (fun x y => decide (x < y)) [1, 2, 3] [1, 2, 4])) :=
  ⟨⟨⟨rfl, by decide, rfl, by decide, rfl⟩, ⟨rfl, by decide, rfl, by decide, rfl⟩⟩,
    ⟨rfl, rfl, rfl⟩,
    (C14_comparison (⟨[some [some 1, some 2, some 3], some [some 1, some 2, some 4],
        some [some 1, some 2]]⟩ : Heap Nat) ⟨⟨⟨1, 0⟩, 3⟩, 3⟩ ⟨⟨⟨2, 0⟩, 3⟩, 3⟩
      [1, 2, 3] [1, 2, 4] ⟨rfl, by decide, rfl, by decide, rfl⟩
      ⟨rfl, by decide, rfl, by decide, rfl⟩).1⟩

theorem bind_eq_ok {ε β γ : Type} {x : Except ε β} {f : β → Except ε γ} {c : γ}
    (hx : (x >>= f) = .ok c) : ∃ a, x = .ok a ∧ f a = .ok c := by
  cases x with
  | error e => simp [bind_error] at hx
  | ok a => exact ⟨a, rfl, hx⟩

theorem Reserve_le (T : TypeTraits α) {h : Heap α} {v : Vector} {n : Nat}
    {r : Heap α × Vector} (hr : v.Reserve T h n = .ok r) (hle : v.size_ ≤ v.Capacity) :
    r.2.size_ ≤ r.2.Capacity ∧ n ≤ r.2.Capacity ∧ r.2.size_ = v.size_ := by
  unfold Vector.Reserve at hr
  dsimp only at hr
  repeat' (first | (obtain ⟨_, _, hr⟩ := bind_eq_ok hr) | (split at hr))
  all_goals cases hr
  all_goals simp only [Vector.Capacity, RawMemory.Capacity, RawMemory.Swap, RawMemory.ctor] at *
  all_goals (refine ⟨?_, ?_, ?_⟩ <;> first | trivial | rfl | omega)

theorem bind_eq_ok_iff {ε β γ : Type} (x : Except ε β) (f : β → Except ε γ) (c : γ) :
    (x >>= f) = .ok c ↔ ∃ a, x = .ok a ∧ f a = .ok c := by
  constructor
  · exact bind_eq_ok
  · rintro ⟨a, rfl, hf⟩
    exact hf

theorem ite_eq_ok_iff {ε β : Type} (p : Prop) [Decidable p] (x y : Except ε β) (c : β) :
    (if p then x else y) = .ok c ↔ (p ∧ x = .ok c) ∨ (¬p ∧ y = .ok c) := by
  by_cases hp : p <;> simp [hp]

theorem pure_eq_ok_iff {ε β : Type} (a c : β) : (pure a : Except ε β) = .ok c ↔ a = c := by
  constructor
  · intro h
    exact Except.ok.inj h
  · rintro rfl
    rfl

theorem Resize_le (T : TypeTraits α) {h : Heap α} {v : Vector} {n : Nat}
    {r : Heap α × Vector} (hr : v.Resize T h n = .ok r) (hle : v.size_ ≤ v.Capacity) :
    r.2.size_ ≤ r.2.Capacity := by
  unfold Vector.Resize at hr
  dsimp only at hr
  simp only [bind_eq_ok_iff, ite_eq_ok_iff, pure_eq_ok_iff] at hr
  casesm* ∃ _, _, _ ∧ _, _ ∨ _
  all_goals subst_vars
  all_goals first
    | (have h2 := (Reserve_le T ‹_› hle).2.1
       simp only [Vector.Capacity, RawMemory.Capacity] at *
       omega)
    | (simp only [Vector.Capacity, RawMemory.Capacity] at *
       omega)

theorem PopBack_returns {h : Heap α} {v : Vector} {s : List α} (hv : v.Holds h s)
    (hs : s ≠ []) : ∃ r, v.PopBack h = .ok r := by
  cases s with
  | nil => exact absurd rfl hs
  | cons y rest =>
    obtain ⟨⟨⟨a, o⟩, c⟩, n⟩ := v
    obtain ⟨hn, hle, ho, h0, ha⟩ := hv
    simp only at hn hle ho h0 ha
    subst ho
    exact ⟨_, PopBack_eq h a c y rest n hn ha⟩

theorem nothrow_ok {σ β : Type} (b : β) :
    (exc.nothrow (Except.ok b) : Except (exc.Raise σ) β) = .ok b := rfl

theorem nothrow_error {σ β : Type} (e : Exn) :
    (exc.nothrow (Except.error e : Except Exn β) : Except (exc.Raise σ) β)
      = .error (.fail e) := rfl

theorem rethrow_ok {σ β : Type} (st : Heap α → σ) (b : β) :
    exc.rethrow st (Except.ok b) = .ok b := rfl

theorem rethrow_fail {σ β : Type} (st : Heap α → σ) (e : Exn) :
    (exc.rethrow st (Except.error (.fail e)) : Except (exc.Raise σ) β) = .error (.fail e) := rfl

theorem rethrow_thrown {σ β : Type} (st : Heap α → σ) (e : exc.Thrown) (h : Heap α) :
    (exc.rethrow st (Except.error (.thrown e h)) : Except (exc.Raise σ) β)
      = .error (.thrown e (st h)) := rfl

theorem unwind_ok {σ β : Type} (m : RawMemory) (st : Heap α → σ) (b : β) :
    exc.unwind m st (Except.ok b) = .ok b := rfl

theorem unwind_fail {σ β : Type} (m : RawMemory) (st : Heap α → σ) (e : Exn) :
    (exc.unwind m st (Except.error (.fail e)) : Except (exc.Raise σ) β)
      = .error (.fail e) := rfl

theorem exc_ctor_fails (F : exc.Faults) (h : Heap α) {n : Nat} (hn : n ≠ 0)
    (hf : F.alloc_fails n = true) :
    exc.RawMemory.ctor F h n = .error (.thrown .bad_alloc h) := by
  simp [exc.RawMemory.ctor, exc.RawMemory.Allocate, exc.operator_new, hn, hf, bind_error]

theorem exc_ctor_ok (F : exc.Faults) (h : Heap α) {n : Nat} (hn : n ≠ 0)
    (hf : F.alloc_fails n = false) :
    exc.RawMemory.ctor F h n
      = .ok (h.push (List.replicate n none), ⟨⟨h.next, 0⟩, n⟩) := by
  simp [exc.RawMemory.ctor, exc.RawMemory.Allocate, exc.operator_new, hn, hf, bind_ok,
    pure_eq_ok, operator_new_eq]

theorem exc_Reserve_alloc (F : exc.Faults) (T : TypeTraits α) (h : Heap α) (v : Vector)
    {n : Nat} (hn : n > v.Capacity) (hf : F.alloc_fails n = true) :
    exc.Vector.Reserve F T h v n = .error (.thrown .bad_alloc (h, v)) := by
  have h0 : n ≠ 0 := by omega
  simp only [exc.Vector.Reserve, hn, if_true, exc_ctor_fails F h h0 hf, rethrow_thrown, bind_error]

theorem exc_Resize_alloc (F : exc.Faults) (T : TypeTraits α) (h : Heap α) (v : Vector)
    {n : Nat} (hs : n > v.size_) (hn : n > v.Capacity) (hf : F.alloc_fails n = true) :
    exc.Vector.Resize F T h v n = .error (.thrown .bad_alloc (h, v)) := by
  have h1 : ¬ n < v.size_ := by omega
  simp only [exc.Vector.Resize, h1, if_false, hs, if_true, pure_eq_ok, bind_ok,
    exc_Reserve_alloc F T h v hn hf, bind_error]

theorem exc_EmplaceBack_alloc (F : exc.Faults) (T : TypeTraits α) (h : Heap α) (v : Vector)
    (x : exc.Arg α) (hfull : v.size_ = v.Capacity)
    (hf : F.alloc_fails (if v.size_ = 0 then 1 else v.size_ * 2) = true) :
    exc.Vector.EmplaceBack F T h v x = .error (.thrown .bad_alloc (h, v)) := by
  have h0 : (if v.size_ = 0 then 1 else v.size_ * 2) ≠ 0 := by split <;> omega
  simp only [exc.Vector.EmplaceBack]
  rw [if_pos hfull, exc_ctor_fails F h h0 hf]
  rfl

theorem exc_PushBack_alloc (F : exc.Faults) (T : TypeTraits α) (h : Heap α) (v : Vector)
    (x : exc.Arg α) (hfull : v.size_ = v.Capacity)
    (hf : F.alloc_fails (if v.size_ = 0 then 1 else v.size_ * 2) = true) :
    exc.Vector.PushBack F T h v x = .error (.thrown .bad_alloc (h, v)) := by
  simp only [exc.Vector.PushBack, exc_EmplaceBack_alloc F T h v x hfull hf, bind_error]

theorem exc_Emplace_alloc (F : exc.Faults) (T : TypeTraits α) (h : Heap α) (v : Vector)
    (pos : Ptr) (x : exc.Arg α) (hpos : (v.begin.le pos && pos.le v.end) = true)
    (hfull : v.size_ = v.Capacity)
    (hf : F.alloc_fails (if v.size_ = 0 then 1 else v.size_ * 2) = true) :
    exc.Vector.Emplace F T h v pos x = .error (.thrown .bad_alloc (h, v)) := by
  have h0 : (if v.size_ = 0 then 1 else v.size_ * 2) ≠ 0 := by split <;> omega
  simp only [exc.Vector.Emplace, hpos, if_true]
  rw [if_pos hfull, exc_ctor_fails F h h0 hf]
  rfl

theorem exc_copy_assign_alloc (F : exc.Faults) (h : Heap α) (v rhs : Vector)
    (hn : rhs.size_ > v.Capacity) (hf : F.alloc_fails rhs.size_ = true) :
    exc.Vector.copy_assign F h v (some rhs) = .error (.thrown .bad_alloc (h, v)) := by
  have h0 : rhs.size_ ≠ 0 := by omega
  simp only [exc.Vector.copy_assign, hn, if_true, exc.Vector.copy_ctor,
    exc_ctor_fails F h h0 hf, rethrow_thrown, bind_error]

theorem exc_copy_loop_ok (F : exc.Faults) (d_first : Ptr) :
    ∀ (count done : Nat) (h : Heap α) (first : Ptr),
    (∀ j, j < count → F.copy_fails (first.add j) = false) →
    exc.uninitialized_copy_loop F d_first count done h first
      = exc.nothrow (std.uninitialized_copy_n count h first (d_first.add done)) := by
  intro count
  induction count with
  | zero =>
    intro done h first _
    rfl
  | succ count ih =>
    intro done h first hf
    have hf0 : F.copy_fails first = false := hf 0 (Nat.succ_pos _)
    have hrec : ∀ j, j < count → F.copy_fails ((first.add 1).add j) = false := by
      intro j hj
      have := hf (j + 1) (by omega)
      have e : (first.add 1).add j = first.add (j + 1) := by
        simp only [Ptr.add, Ptr.mk.injEq, true_and]
        omega
      rw [e]
      exact this
    simp only [exc.uninitialized_copy_loop, hf0, Bool.false_eq_true, if_false,
      uninitialized_copy_n]
    cases h.read first with
    | error e => rfl
    | ok x =>
      simp only [nothrow_ok, bind_ok]
      cases h.construct_at (d_first.add done) x with
      | error e => rfl
      | ok h1 =>
        simp only [nothrow_ok, bind_ok]
        rw [ih (done + 1) h1 (first.add 1) hrec]
        rfl

theorem exc_copy_n_ok (F : exc.Faults) (n : Nat) (h : Heap α) (first d_first : Ptr)
    (hf : ∀ j, j < n → F.copy_fails (first.add j) = false) :
    exc.uninitialized_copy_n F n h first d_first
      = exc.nothrow (std.uninitialized_copy_n n h first d_first) :=
  exc_copy_loop_ok F d_first n 0 h first hf

theorem nothrow_bind {σ β γ : Type} (x : Except Exn β) (f : β → Except Exn γ) :
    (exc.nothrow (x >>= f) : Except (exc.Raise σ) γ)
      = exc.nothrow x >>= fun a => exc.nothrow (f a) := by
  cases x <;> rfl

theorem nothrow_ite {σ β : Type} (p : Prop) [Decidable p] (x y : Except Exn β) :
    (exc.nothrow (if p then x else y) : Except (exc.Raise σ) β)
      = if p then exc.nothrow x else exc.nothrow y := by
  split <;> rfl

theorem nothrow_pure {σ β : Type} (b : β) :
    (exc.nothrow (pure b : Except Exn β) : Except (exc.Raise σ) β) = pure b := rfl

theorem unwind_nothrow {σ β : Type} (m : RawMemory) (st : Heap α → σ) (x : Except Exn β) :
    exc.unwind m st (exc.nothrow x) = exc.nothrow x := by
  cases x <;> rfl

theorem rethrow_nothrow {σ β : Type} (st : Heap α → σ) (x : Except Exn β) :
    exc.rethrow st (exc.nothrow x) = exc.nothrow x := by
  cases x <;> rfl

theorem exc_ctor_agree (F : exc.Faults) (hA : ∀ n, F.alloc_fails n = false) (h : Heap α)
    (n : Nat) : exc.RawMemory.ctor F h n = .ok (RawMemory.ctor h n) := by
  by_cases hn : n = 0
  · subst hn
    rfl
  · simp [exc.RawMemory.ctor, exc.RawMemory.Allocate, exc.operator_new, hn, hA, bind_ok,
      pure_eq_ok, RawMemory.ctor, RawMemory.Allocate]

theorem exc_copy_n_agree (F : exc.Faults) (hC : ∀ p, F.copy_fails p = false)
    (n : Nat) (h : Heap α) (first d_first : Ptr) :
    exc.uninitialized_copy_n F n h first d_first
      = exc.nothrow (std.uninitialized_copy_n n h first d_first) :=
  exc_copy_n_ok F n h first d_first (fun _ _ => hC _)

theorem exc_Reserve_agree (F : exc.Faults) (T : TypeTraits α)
    (hA : ∀ n, F.alloc_fails n = false)
    (hC : relocates_by_move T = true ∨ ∀ p, F.copy_fails p = false)
    (h : Heap α) (v : Vector) (n : Nat) :
    exc.Vector.Reserve F T h v n = exc.nothrow (v.Reserve T h n) := by
  unfold exc.Vector.Reserve Vector.Reserve
  by_cases hn : n > v.Capacity
  · by_cases hT : relocates_by_move T = true
    · simp only [hn, hT, if_true, exc_ctor_agree F hA, rethrow_ok, bind_ok,
        unwind_nothrow, nothrow_bind, nothrow_pure]
    · have hC' := hC.resolve_left hT
      simp only [hn, hT, Bool.false_eq_true, if_true, if_false, exc_ctor_agree F hA, rethrow_ok, bind_ok,
        exc_copy_n_agree F hC', unwind_nothrow, nothrow_bind, nothrow_pure]
  · simp only [hn, if_false]
    rfl

theorem unwind_bind_nothrow {σ β γ : Type} (m : RawMemory) (st : Heap α → σ)
    (x : Except Exn β) (f : β → Except (exc.Raise (Heap α)) γ) :
    exc.unwind m st (exc.nothrow x >>= f) = exc.nothrow x >>= fun a => exc.unwind m st (f a) := by
  cases x <;> rfl

theorem exc_Emplace_agree (F : exc.Faults) (T : TypeTraits α)
    (hA : ∀ n, F.alloc_fails n = false)
    (hC : relocates_by_move T = true ∨ ∀ p, F.copy_fails p = false)
    (h : Heap α) (v : Vector) (pos : Ptr) (x : α) :
    exc.Vector.Emplace F T h v pos (.value x) = exc.nothrow (v.Emplace T h pos x) := by
  unfold exc.Vector.Emplace Vector.Emplace
  by_cases hp : (v.begin.le pos && pos.le v.end) = true
  · by_cases hn : v.size_ = v.Capacity
    · by_cases hT : relocates_by_move T = true
      · simp only [hp, hn, hT, if_true, exc_ctor_agree F hA, rethrow_ok, bind_ok,
          exc.Arg.build, unwind_ok, unwind_nothrow]
        simp only [nothrow_bind, nothrow_pure, bind_assoc]
      · have hC' := hC.resolve_left hT
        simp only [hp, hn, hT, Bool.false_eq_true, if_true, if_false, exc_ctor_agree F hA,
          rethrow_ok, bind_ok, exc.Arg.build, unwind_ok, exc_copy_n_agree F hC',
          unwind_bind_nothrow, unwind_nothrow, nothrow_bind, nothrow_pure, bind_assoc]
    · simp only [hp, hn, if_true, if_false]
      by_cases he : pos = v.end
      · rw [if_pos he, if_pos he]
        simp only [exc.Arg.build, rethrow_ok, bind_ok, nothrow_bind, nothrow_pure, bind_assoc]
      · rw [if_neg he, if_neg he]
        simp only [exc.Arg.build, rethrow_ok, bind_ok, nothrow_bind, nothrow_pure, bind_assoc]
  · simp only [hp, if_false]
    rfl

theorem exc_Insert_agree (F : exc.Faults) (T : TypeTraits α)
    (hA : ∀ n, F.alloc_fails n = false)
    (hC : relocates_by_move T = true ∨ ∀ p, F.copy_fails p = false)
    (h : Heap α) (v : Vector) (pos : Ptr) (x : α) :
    exc.Vector.Insert F T h v pos (.value x) = exc.nothrow (v.Insert T h pos x) :=
  exc_Emplace_agree F T hA hC h v pos x

theorem exc_Resize_agree (F : exc.Faults) (T : TypeTraits α)
    (hA : ∀ n, F.alloc_fails n = false)
    (hC : relocates_by_move T = true ∨ ∀ p, F.copy_fails p = false)
    (h : Heap α) (v : Vector) (n : Nat) :
    exc.Vector.Resize F T h v n = exc.nothrow (v.Resize T h n) := by
  unfold exc.Vector.Resize Vector.Resize
  by_cases h1 : n < v.size_
  · by_cases h2 : n > v.size_
    · omega
    · simp only [h1, h2, if_true, if_false, nothrow_bind, nothrow_pure]
  · by_cases h2 : n > v.size_
    · simp only [h1, h2, if_true, if_false, exc_Reserve_agree F T hA hC, nothrow_bind,
        nothrow_pure]
    · simp only [h1, h2, if_false, nothrow_bind, nothrow_pure]

theorem exc_copy_ctor_agree (F : exc.Faults) (hA : ∀ n, F.alloc_fails n = false)
    (hC : ∀ p, F.copy_fails p = false) (h : Heap α) (v : Vector) :
    exc.Vector.copy_ctor F h v = exc.nothrow (Vector.copy_ctor h v) := by
  unfold exc.Vector.copy_ctor Vector.copy_ctor
  simp only [exc_ctor_agree F hA, bind_ok, exc_copy_n_agree F hC, unwind_nothrow,
    nothrow_bind, nothrow_pure]

theorem exc_copy_assign_agree (F : exc.Faults) (hA : ∀ n, F.alloc_fails n = false)
    (hC : ∀ p, F.copy_fails p = false) (h : Heap α) (v : Vector) (rhs : Option Vector) :
    exc.Vector.copy_assign F h v rhs = exc.nothrow (v.copy_assign h rhs) := by
  unfold exc.Vector.copy_assign Vector.copy_assign
  cases rhs with
  | none => rfl
  | some rhs =>
    by_cases hn : rhs.size_ > v.Capacity
    · simp only [hn, if_true, exc_copy_ctor_agree F hA hC, rethrow_nothrow, nothrow_bind,
        nothrow_pure]
    · by_cases h2 : rhs.size_ > v.size_
      · simp only [hn, h2, if_true, if_false, exc_copy_n_agree F hC, rethrow_nothrow,
          nothrow_bind, nothrow_pure]
      · simp only [hn, h2, if_false, nothrow_bind, nothrow_pure]

/-- C16: with allocation as an operation that may fail, every call that has
to grow the storage (`Reserve` beyond the capacity, `Resize` to a size beyond
the capacity, `PushBack`/`EmplaceBack` and `Insert`/`Emplace` on a full
vector, copy assignment from a source longer than the capacity) ends, when
the allocation of the new storage fails, with `std::bad_alloc` leaving the
function, and leaves the heap and the vector object exactly as they were
before the call: the same length, the same capacity, the same elements. -/
theorem C16_allocation_failure (F : exc.Faults) (T : TypeTraits α) (h : Heap α)
    (v : Vector) :
    (∀ n, n > v.Capacity → F.alloc_fails n = true →
      exc.Vector.Reserve F T h v n = .error (.thrown .bad_alloc (h, v))) ∧
    (∀ n, n > v.Size → n > v.Capacity → F.alloc_fails n = true →
      exc.Vector.Resize F T h v n = .error (.thrown .bad_alloc (h, v))) ∧
    (v.Size = v.Capacity → F.alloc_fails (if v.Size = 0 then 1 else v.Size * 2) = true →
      (∀ x, exc.Vector.PushBack F T h v x = .error (.thrown .bad_alloc (h, v))) ∧
      (∀ x, exc.Vector.EmplaceBack F T h v x = .error (.thrown .bad_alloc (h, v))) ∧
      (∀ pos x, (v.begin.le pos && pos.le v.end) = true →
        exc.Vector.Insert F T h v pos x = .error (.thrown .bad_alloc (h, v)) ∧
        exc.Vector.Emplace F T h v pos x = .error (.thrown .bad_alloc (h, v)))) ∧
    (∀ rhs : Vector, rhs.Size > v.Capacity → F.alloc_fails rhs.Size = true →
      exc.Vector.copy_assign F h v (some rhs) = .error (.thrown .bad_alloc (h, v))) := by
  refine ⟨?_, ?_, ?_, ?_⟩
  · intro n hn hf
    exact exc_Reserve_alloc F T h v hn hf
  · intro n hs hn hf
    exact exc_Resize_alloc F T h v hs hn hf
  · intro hfull hf
    refine ⟨fun x => exc_PushBack_alloc F T h v x hfull hf,
      fun x => exc_EmplaceBack_alloc F T h v x hfull hf, ?_⟩
    intro pos x hpos
    exact ⟨exc_Emplace_alloc F T h v pos x hpos hfull hf,
      exc_Emplace_alloc F T h v pos x hpos hfull hf⟩
  · intro rhs hn hf
    exact exc_copy_assign_alloc F h v rhs hn hf

/-- C16, at an instance: the full vector `[1, 2]` and an allocator that
refuses every request; `PushBack(3)` and `Reserve(5)` end with
`std::bad_alloc` and leave the heap and the vector as they were. -/
theorem C16_allocation_failure_witness :
    (5 > Vector.Capacity ⟨⟨⟨1, 0⟩, 2⟩, 2⟩ ∧
      (⟨fun _ => true, fun _ => false⟩ : exc.Faults).alloc_fails 5 = true) ∧
    exc.Vector.Reserve ⟨fun _ => true, fun _ => false⟩ ⟨false, true, 0, id, fun _ x => x⟩
        (⟨[some [some 1, some 2]]⟩ : Heap Nat) ⟨⟨⟨1, 0⟩, 2⟩, 2⟩ 5
      = .error (.thrown .bad_alloc (⟨[some [some 1, some 2]]⟩, ⟨⟨⟨1, 0⟩, 2⟩, 2⟩)) ∧
    exc.Vector.PushBack ⟨fun _ => true, fun _ => false⟩ ⟨false, true, 0, id, fun _ x => x⟩
        (⟨[some [some 1, some 2]]⟩ : Heap Nat) ⟨⟨⟨1, 0⟩, 2⟩, 2⟩ (.value 3)
      = .error (.thrown .bad_alloc (⟨[some [some 1, some 2]]⟩, ⟨⟨⟨1, 0⟩, 2⟩, 2⟩)) :=
  ⟨⟨by decide, rfl⟩,
    (C16_allocation_failure ⟨fun _ => true, fun _ => false⟩ ⟨false, true, 0, id, fun _ x => x⟩
      (⟨[some [some 1, some 2]]⟩ : Heap Nat) ⟨⟨⟨1, 0⟩, 2⟩, 2⟩).1 5 (by decide) rfl,
    rfl⟩

/-- C21: the invariant of the raw storage, capacity 0 if and only if the
address is null.  The default constructor and `RawMemory(capacity)` establish
it for every capacity (capacity 0 allocates nothing: the heap is the same and
the address is null; also in a run where the allocator may refuse, whenever
the constructor returns); the move constructor and the move assignment hand
the address and the capacity over and leave the source with capacity 0 and a
null address (a move assignment to itself changes nothing); `Swap` exchanges
the address and the capacity of the two storages. -/
theorem C21_raw_memory_invariant (F : exc.Faults) (h : Heap α) (a b : RawMemory)
    (ha : a.null_iff_empty) (hb : b.null_iff_empty) :
    RawMemory.default_ctor.null_iff_empty ∧
    (∀ n, (RawMemory.ctor h n).2.null_iff_empty ∧ (RawMemory.ctor h n).2.Capacity = n) ∧
    RawMemory.ctor h 0 = (h, ⟨nullptr, 0⟩) ∧
    (∀ n r, exc.RawMemory.ctor F h n = .ok r → r.2.null_iff_empty ∧ r.2.Capacity = n) ∧
    ((RawMemory.move_ctor a).1 = a ∧ (RawMemory.move_ctor a).2 = ⟨nullptr, 0⟩ ∧
      (RawMemory.move_ctor a).1.null_iff_empty ∧ (RawMemory.move_ctor a).2.null_iff_empty) ∧
    (∃ a' b', a.move_assign (some b) = (a', some b') ∧ a' = b ∧ b' = ⟨nullptr, 0⟩ ∧
      a'.null_iff_empty ∧ b'.null_iff_empty) ∧
    (a.move_assign none = (a, none)) ∧
    ((a.Swap b).1 = b ∧ (a.Swap b).2 = a ∧
      (a.Swap b).1.null_iff_empty ∧ (a.Swap b).2.null_iff_empty) := by
  have hnull : (⟨nullptr, 0⟩ : RawMemory).null_iff_empty := ⟨fun _ => rfl, fun _ => rfl⟩
  have hctor : ∀ n, (RawMemory.ctor h n).2.null_iff_empty ∧ (RawMemory.ctor h n).2.Capacity = n := by
    intro n
    by_cases hn : n = 0
    · subst hn
      rw [ctor_zero]
      exact ⟨hnull, rfl⟩
    · rw [ctor_eq h hn]
      refine ⟨⟨fun h0 => absurd h0 hn, fun h0 => ?_⟩, rfl⟩
      have := congrArg Ptr.base h0
      simp [Heap.next, nullptr] at this
  refine ⟨hnull, hctor, ctor_zero h, ?_, ⟨rfl, rfl, ha, hnull⟩,
    ⟨b, ⟨nullptr, 0⟩, rfl, rfl, rfl, hb, hnull⟩, rfl, ⟨rfl, rfl, hb, ha⟩⟩
  intro n r hr
  by_cases hf : n ≠ 0 ∧ F.alloc_fails n = true
  · rw [exc_ctor_fails F h hf.1 hf.2] at hr
    cases hr
  · have he : exc.RawMemory.ctor F h n = .ok (RawMemory.ctor h n) := by
      by_cases hn : n = 0
      · subst hn
        rfl
      · have hf' : F.alloc_fails n = false := by
          cases hc : F.alloc_fails n
          · rfl
          · exact absurd ⟨hn, hc⟩ hf
        rw [exc_ctor_ok F h hn hf', ctor_eq h hn]
    rw [he] at hr
    cases hr
    exact hctor n

/-- C21, at an instance: the storage of 3 slots at address 1 and the empty
storage; `RawMemory(2)` on a heap with one block yields the address 2. -/
theorem C21_raw_memory_invariant_witness :
    (RawMemory.null_iff_empty ⟨⟨1, 0⟩, 3⟩ ∧ RawMemory.null_iff_empty ⟨nullptr, 0⟩) ∧
    RawMemory.ctor (⟨[some [none, none, none]]⟩ : Heap Nat) 2
      = (⟨[some [none, none, none], some [none, none]]⟩, ⟨⟨2, 0⟩, 2⟩) ∧
    RawMemory.Swap ⟨⟨1, 0⟩, 3⟩ ⟨nullptr, 0⟩ = (⟨nullptr, 0⟩, ⟨⟨1, 0⟩, 3⟩) ∧
    (∀ n, (RawMemory.ctor (⟨[some [none, none, none]]⟩ : Heap Nat) n).2.null_iff_empty ∧
      (RawMemory.ctor (⟨[some [none, none, none]]⟩ : Heap Nat) n).2.Capacity = n) :=
  ⟨⟨by simp [RawMemory.null_iff_empty, nullptr], by simp [RawMemory.null_iff_empty]⟩,
    rfl, rfl,
    (C21_raw_memory_invariant ⟨fun _ => false, fun _ => false⟩
      (⟨[some [none, none, none]]⟩ : Heap Nat) ⟨⟨1, 0⟩, 3⟩ ⟨nullptr, 0⟩
      (by simp [RawMemory.null_iff_empty, nullptr]) (by simp [RawMemory.null_iff_empty])).2.1⟩

theorem layout_ne_nil (s : List α) (c : Nat) (hs : s ≠ []) : layout s c ≠ [] := by
  cases s with
  | nil => exact absurd rfl hs
  | cons x s => simp [layout]

theorem Holds_base_ne_zero {h : Heap α} {v : Vector} {s : List α} (hv : v.Holds h s)
    (hs : s ≠ []) : v.data_.buffer_.base ≠ 0 := fun hb => hs (Holds_zero_base hv hb).2

theorem dtor_null (h : Heap α) : Vector.dtor h ⟨⟨nullptr, 0⟩, 0⟩ = .ok h := rfl

/-- C22, what the code does: move-assigning `src` into a vector `dst` that
holds the elements `sd` (at least one) hands the buffer and the length of
`src` over and touches nothing else.  The previous block of `dst` stays
allocated with its elements alive, neither vector has it as its buffer any
more (the heap has a block without an owner), and it is still there, elements
alive, after the destructors of both vectors have run. -/
theorem C22_move_assign_leaks (h : Heap α) (dst src : Vector) (sd ss : List α)
    (hd : dst.Holds h sd) (hs : src.Holds h ss) (hne : sd ≠ [])
    (hsep : src.data_.buffer_.base ≠ dst.data_.buffer_.base) :
    ∃ dst' src', dst.move_assign (some src) = (dst', some src') ∧
      dst'.Holds h ss ∧ src'.Holds h ([] : List α) ∧
      h.load dst.data_.buffer_.base = .ok (layout sd dst.data_.capacity_) ∧
      layout sd dst.data_.capacity_ ≠ [] ∧
      dst'.data_.buffer_.base ≠ dst.data_.buffer_.base ∧
      src'.data_.buffer_.base ≠ dst.data_.buffer_.base ∧
      ¬ owned h [dst', src'] ∧
      ∃ h1 h2, Vector.dtor h dst' = .ok h1 ∧ Vector.dtor h1 src' = .ok h2 ∧
        h2.load dst.data_.buffer_.base = .ok (layout sd dst.data_.capacity_) := by
  have hb0 : dst.data_.buffer_.base ≠ 0 := Holds_base_ne_zero hd hne
  have hload := hd.2.2.2.2
  refine ⟨src, ⟨⟨nullptr, 0⟩, 0⟩, move_assign_eq dst src, hs, null_holds h, hload,
    layout_ne_nil sd _ hne, hsep, fun h0 => hb0 h0.symm, ?_, ?_⟩
  · intro hown
    obtain ⟨v, hv, hvb⟩ := hown _ _ hb0 hload
    simp only [List.mem_cons, List.mem_singleton, List.not_mem_nil, or_false] at hv
    rcases hv with rfl | rfl
    · exact hsep hvb
    · exact hb0 hvb.symm
  · obtain ⟨⟨⟨a, o⟩, c⟩, n⟩ := src
    obtain ⟨hn, hle, ho, h0, ha⟩ := hs
    simp only at hn hle ho h0 ha hsep
    subst hn ho
    refine ⟨h.release a, h.release a, Vector_dtor_eq h a c ss hle ha, dtor_null _, ?_⟩
    rw [Heap.load_release_ne _ hsep]
    exact hload

/-- C22, at the failing input: `dst` holds `[7]` in the block at address 2,
`src` holds `[1, 2]` in the block at address 1.  After `dst = std::move(src)`
and the destructors of both, the block at address 2 is still allocated and
its element 7 was never destroyed. -/
theorem C22_move_assign_leaks_witness :
    (Vector.Holds (⟨[some [some 1, some 2], some [some 7]]⟩ : Heap Nat)
        ⟨⟨⟨2, 0⟩, 1⟩, 1⟩ [7] ∧
      Vector.Holds (⟨[some [some 1, some 2], some [some 7]]⟩ : Heap Nat)
        ⟨⟨⟨1, 0⟩, 2⟩, 2⟩ [1, 2] ∧
      ([7] : List Nat) ≠ [] ∧
      (⟨⟨⟨1, 0⟩, 2⟩, 2⟩ : Vector).data_.buffer_.base
        ≠ (⟨⟨⟨2, 0⟩, 1⟩, 1⟩ : Vector).data_.buffer_.base) ∧
    Vector.move_assign ⟨⟨⟨2, 0⟩, 1⟩, 1⟩ (some ⟨⟨⟨1, 0⟩, 2⟩, 2⟩)
      = (⟨⟨⟨1, 0⟩, 2⟩, 2⟩, some ⟨⟨nullptr, 0⟩, 0⟩) ∧
    Vector.dtor (⟨[some [some 1, some 2], some [some 7]]⟩ : Heap Nat) ⟨⟨⟨1, 0⟩, 2⟩, 2⟩
      = .ok ⟨[none, some [some 7]]⟩ ∧
    Vector.dtor (⟨[none, some [some 7]]⟩ : Heap Nat) ⟨⟨nullptr, 0⟩, 0⟩
      = .ok ⟨[none, some [some 7]]⟩ ∧
    (∃ dst' src', Vector.move_assign ⟨⟨⟨2, 0⟩, 1⟩, 1⟩ (some ⟨⟨⟨1, 0⟩, 2⟩, 2⟩)
        = (dst', some src') ∧
      ¬ owned (⟨[some [some 1, some 2], some [some 7]]⟩ : Heap Nat) [dst', src']) :=
  ⟨⟨⟨rfl, by decide, rfl, by decide, rfl⟩, ⟨rfl, by decide, rfl, by decide, rfl⟩,
      by decide, by decide⟩,
    rfl, rfl, rfl,
    (C22_move_assign_leaks (⟨[some [some 1, some 2], some [some 7]]⟩ : Heap Nat)
      ⟨⟨⟨2, 0⟩, 1⟩, 1⟩ ⟨⟨⟨1, 0⟩, 2⟩, 2⟩ [7] [1, 2] ⟨rfl, by decide, rfl, by decide, rfl⟩
      ⟨rfl, by decide, rfl, by decide, rfl⟩ (by decide) (by decide)).elim
      fun dst' hx => hx.elim fun src' hy => ⟨dst', src', hy.1, hy.2.2.2.2.2.2.2.1⟩⟩

theorem bind_eq_error_iff {ε β γ : Type} (x : Except ε β) (f : β → Except ε γ) (e : ε) :
    (x >>= f) = .error e ↔ x = .error e ∨ ∃ a, x = .ok a ∧ f a = .error e := by
  cases x with
  | error e' => simp [bind_error]
  | ok a => simp [bind_ok]

theorem ite_eq_error_iff {ε β : Type} (p : Prop) [Decidable p] (x y : Except ε β) (e : ε) :
    (if p then x else y) = .error e ↔ (p ∧ x = .error e) ∨ (¬p ∧ y = .error e) := by
  by_cases hp : p <;> simp [hp]

theorem pure_ne_error {ε β : Type} (a : β) (e : ε) : (pure a : Except ε β) ≠ .error e := by
  intro h
  cases h

theorem load_ne_assert (h : Heap α) (a : Nat) : h.load a ≠ .error .assertion := by
  unfold Heap.load
  split
  · simp
  · split <;> simp

theorem read_ne_assert (h : Heap α) (p : Ptr) : h.read p ≠ .error .assertion := by
  unfold Heap.read
  intro hr
  simp only [bind_eq_error_iff, load_ne_assert, false_or] at hr
  obtain ⟨b, _, hr⟩ := hr
  split at hr <;> simp at hr

theorem construct_at_ne_assert (h : Heap α) (p : Ptr) (x : α) :
    h.construct_at p x ≠ .error .assertion := by
  unfold Heap.construct_at
  intro hr
  simp only [bind_eq_error_iff, load_ne_assert, false_or] at hr
  obtain ⟨b, _, hr⟩ := hr
  split at hr <;> simp at hr

theorem write_ne_assert (h : Heap α) (p : Ptr) (x : α) : h.write p x ≠ .error .assertion := by
  unfold Heap.write
  intro hr
  simp only [bind_eq_error_iff, load_ne_assert, false_or] at hr
  obtain ⟨b, _, hr⟩ := hr
  split at hr <;> simp at hr

theorem destroy_at_ne_assert (h : Heap α) (p : Ptr) : h.destroy_at p ≠ .error .assertion := by
  unfold Heap.destroy_at
  intro hr
  simp only [bind_eq_error_iff, load_ne_assert, false_or] at hr
  obtain ⟨b, _, hr⟩ := hr
  split at hr <;> simp at hr

theorem copy_assign_ne_assert (h : Heap α) (d s : Ptr) :
    std.copy_assign h d s ≠ .error .assertion := by
  unfold std.copy_assign
  intro hr
  simp [bind_eq_error_iff, read_ne_assert, write_ne_assert] at hr

theorem move_assign_ne_assert (T : TypeTraits α) (h : Heap α) (d s : Ptr) :
    std.move_assign T h d s ≠ .error .assertion := by
  unfold std.move_assign
  intro hr
  simp [bind_eq_error_iff, read_ne_assert, write_ne_assert] at hr

theorem move_construct_ne_assert (T : TypeTraits α) (h : Heap α) (d s : Ptr) :
    std.move_construct T h d s ≠ .error .assertion := by
  unfold std.move_construct
  intro hr
  simp [bind_eq_error_iff, read_ne_assert, write_ne_assert, construct_at_ne_assert] at hr

theorem destroy_n_ne_assert : ∀ (n : Nat) (h : Heap α) (p : Ptr),
    destroy_n n h p ≠ .error .assertion := by
  intro n
  induction n with
  | zero =>
    intro h p hr
    cases hr
  | succ n ih =>
    intro h p hr
    simp [destroy_n, bind_eq_error_iff, destroy_at_ne_assert, ih] at hr

theorem uninitialized_value_construct_n_ne_assert (T : TypeTraits α) :
    ∀ (n : Nat) (h : Heap α) (p : Ptr),
    uninitialized_value_construct_n T n h p ≠ .error .assertion := by
  intro n
  induction n with
  | zero =>
    intro h p hr
    cases hr
  | succ n ih =>
    intro h p hr
    simp [uninitialized_value_construct_n, bind_eq_error_iff, construct_at_ne_assert, ih] at hr

theorem uninitialized_copy_n_ne_assert : ∀ (n : Nat) (h : Heap α) (p q : Ptr),
    uninitialized_copy_n n h p q ≠ .error .assertion := by
  intro n
  induction n with
  | zero =>
    intro h p q hr
    cases hr
  | succ n ih =>
    intro h p q hr
    simp [uninitialized_copy_n, bind_eq_error_iff, read_ne_assert, construct_at_ne_assert,
      ih] at hr

theorem uninitialized_move_n_ne_assert (T : TypeTraits α) :
    ∀ (n : Nat) (h : Heap α) (p q : Ptr),
    uninitialized_move_n T n h p q ≠ .error .assertion := by
  intro n
  induction n with
  | zero =>
    intro h p q hr
    cases hr
  | succ n ih =>
    intro h p q hr
    simp [uninitialized_move_n, bind_eq_error_iff, move_construct_ne_assert, ih] at hr

theorem copy_loop_ne_assert : ∀ (n : Nat) (h : Heap α) (p q : Ptr),
    copy_loop n h p q ≠ .error .assertion := by
  intro n
  induction n with
  | zero =>
    intro h p q hr
    cases hr
  | succ n ih =>
    intro h p q hr
    simp [copy_loop, bind_eq_error_iff, copy_assign_ne_assert, ih] at hr

theorem move_loop_ne_assert (T : TypeTraits α) : ∀ (n : Nat) (h : Heap α) (p q : Ptr),
    move_loop T n h p q ≠ .error .assertion := by
  intro n
  induction n with
  | zero =>
    intro h p q hr
    cases hr
  | succ n ih =>
    intro h p q hr
    simp [move_loop, bind_eq_error_iff, move_assign_ne_assert, ih] at hr

theorem move_backward_loop_ne_assert (T : TypeTraits α) :
    ∀ (n : Nat) (h : Heap α) (p q : Ptr),
    move_backward_loop T n h p q ≠ .error .assertion := by
  intro n
  induction n with
  | zero =>
    intro h p q hr
    cases hr
  | succ n ih =>
    intro h p q hr
    simp [move_backward_loop, bind_eq_error_iff, move_assign_ne_assert, ih] at hr

theorem distance_ne_assert (p q : Ptr) : distance p q ≠ .error .assertion := by
  unfold distance
  split <;> simp

theorem copy_ne_assert (h : Heap α) (p q d : Ptr) : std.copy h p q d ≠ .error .assertion := by
  intro hr
  simp [std.copy, bind_eq_error_iff, distance_ne_assert, copy_loop_ne_assert] at hr

theorem move_ne_assert (T : TypeTraits α) (h : Heap α) (p q d : Ptr) :
    std.move T h p q d ≠ .error .assertion := by
  intro hr
  simp [std.move, bind_eq_error_iff, distance_ne_assert, move_loop_ne_assert] at hr

theorem move_backward_ne_assert (T : TypeTraits α) (h : Heap α) (p q d : Ptr) :
    std.move_backward T h p q d ≠ .error .assertion := by
  intro hr
  simp [std.move_backward, bind_eq_error_iff, distance_ne_assert, ite_eq_error_iff,
    move_backward_loop_ne_assert] at hr

theorem operator_delete_ne_assert (h : Heap α) (p : Ptr) :
    operator_delete h p ≠ .error .assertion := by
  unfold operator_delete
  split
  · simp
  · split
    · split <;> simp
    · simp

theorem dtor_ne_assert (h : Heap α) (m : RawMemory) :
    RawMemory.dtor h m ≠ .error .assertion :=
  operator_delete_ne_assert h _

theorem plus_assert_iff (m : RawMemory) (k : Nat) :
    m.plus k = .error .assertion ↔ m.capacity_ < k := by
  unfold RawMemory.plus
  split <;> simp <;> omega

theorem plus_ok_iff (m : RawMemory) (k : Nat) (p : Ptr) :
    m.plus k = .ok p ↔ k ≤ m.capacity_ ∧ m.buffer_.add k = p := by
  unfold RawMemory.plus
  split <;> simp [*]

theorem index_assert_iff (m : RawMemory) (k : Nat) :
    m.index k = .error .assertion ↔ m.capacity_ ≤ k := by
  unfold RawMemory.index
  split <;> simp <;> omega

theorem index_ok_iff (m : RawMemory) (k : Nat) (p : Ptr) :
    m.index k = .ok p ↔ k < m.capacity_ ∧ m.buffer_.add k = p := by
  unfold RawMemory.index
  split <;> simp [*]

theorem error_assert_self : (Except.error Exn.assertion : Except Exn α) = .error .assertion ↔ True :=
  iff_true_intro rfl

theorem size_t_pred_succ (n : Nat) : size_t_pred (n + 1) = n := by
  simp [size_t_pred]

theorem size_t_pred_pos {n : Nat} (hn : 0 < n) : size_t_pred n = n - 1 := by
  unfold size_t_pred
  rw [if_neg (by omega)]

theorem EmplaceBack_no_assert (T : TypeTraits α) (h : Heap α) (v : Vector) (x : α)
    (hle : v.size_ ≤ v.Capacity) : v.EmplaceBack T h x ≠ .error .assertion := by
  intro hr
  unfold Vector.EmplaceBack at hr
  dsimp only at hr
  simp only [bind_eq_error_iff, ite_eq_error_iff, bind_eq_ok_iff, ite_eq_ok_iff, pure_eq_ok_iff,
    pure_ne_error, destroy_n_ne_assert, uninitialized_copy_n_ne_assert,
    uninitialized_move_n_ne_assert, construct_at_ne_assert, dtor_ne_assert,
    plus_assert_iff, plus_ok_iff, index_assert_iff, index_ok_iff, Vector.Back,
    false_or, or_false, false_and, and_false, exists_false, exists_const] at hr
  casesm* ∃ _, _, _ ∧ _, _ ∨ _
  all_goals subst_vars
  all_goals simp only [Vector.Capacity, RawMemory.Capacity, RawMemory.ctor, RawMemory.Swap,
    size_t_pred_succ] at *
  all_goals first | omega | (split_ifs at * <;> omega)

theorem PushBack_no_assert (T : TypeTraits α) (h : Heap α) (v : Vector) (x : α)
    (hle : v.size_ ≤ v.Capacity) : v.PushBack T h x ≠ .error .assertion := by
  intro hr
  unfold Vector.PushBack at hr
  simp only [bind_eq_error_iff, pure_ne_error, and_false, exists_false, or_false] at hr
  exact EmplaceBack_no_assert T h v x hle hr

theorem PopBack_no_assert (h : Heap α) (v : Vector) : v.PopBack h ≠ .error .assertion := by
  intro hr
  unfold Vector.PopBack at hr
  simp only [bind_eq_error_iff, pure_ne_error, destroy_n_ne_assert, and_false, exists_false,
    or_false] at hr

theorem Emplace_no_assert (T : TypeTraits α) (h : Heap α) (v : Vector) (i : Nat) (x : α)
    (hle : v.size_ ≤ v.Capacity) (hi : i ≤ v.size_) :
    v.Emplace T h (v.begin.add i) x ≠ .error .assertion := by
  intro hr
  unfold Vector.Emplace at hr
  dsimp only at hr
  simp only [bind_eq_error_iff, ite_eq_error_iff, bind_eq_ok_iff, ite_eq_ok_iff, pure_eq_ok_iff,
    pure_ne_error, destroy_n_ne_assert, uninitialized_copy_n_ne_assert,
    uninitialized_move_n_ne_assert, construct_at_ne_assert, dtor_ne_assert,
    move_construct_ne_assert, move_backward_ne_assert, write_ne_assert,
    plus_assert_iff, plus_ok_iff, index_assert_iff, index_ok_iff, Vector.Back,
    false_or, or_false, false_and, and_false, exists_false, exists_const] at hr
  casesm* ∃ _, _, _ ∧ _, _ ∨ _
  all_goals subst_vars
  all_goals simp only [Vector.Capacity, RawMemory.Capacity, RawMemory.ctor, RawMemory.Swap,
    Vector.begin, Vector.cbegin, Vector.end, RawMemory.GetAddress, Ptr.add, Ptr.le,
    Ptr.mk.injEq, true_and, Bool.and_eq_true, decide_eq_true_eq, Nat.add_sub_cancel_left] at *
  all_goals first
    | omega
    | (split_ifs at * <;> omega)
    | (simp only [size_t_pred] at *
       split_ifs at * <;> omega)

theorem Insert_no_assert (T : TypeTraits α) (h : Heap α) (v : Vector) (i : Nat) (x : α)
    (hle : v.size_ ≤ v.Capacity) (hi : i ≤ v.size_) :
    v.Insert T h (v.begin.add i) x ≠ .error .assertion :=
  Emplace_no_assert T h v i x hle hi

theorem Erase_no_assert (T : TypeTraits α) (h : Heap α) (v : Vector) (i : Nat)
    (hi : i < v.size_) : v.Erase T h (v.begin.add i) ≠ .error .assertion := by
  intro hr
  unfold Vector.Erase at hr
  dsimp only at hr
  simp only [bind_eq_error_iff, ite_eq_error_iff, bind_eq_ok_iff, ite_eq_ok_iff, pure_eq_ok_iff,
    pure_ne_error, destroy_n_ne_assert, move_ne_assert, copy_ne_assert,
    false_or, or_false, false_and, and_false, exists_false, exists_const] at hr
  simp only [Vector.begin, Vector.end, RawMemory.GetAddress, Ptr.add, Ptr.le,
    Bool.and_eq_true, decide_eq_true_eq, true_and] at hr
  omega

theorem index_returns (v : Vector) (i : Nat) (hle : v.size_ ≤ v.Capacity) (hi : i < v.size_) :
    v.index i = .ok (v.begin.add i) := by
  have hc : i < v.data_.capacity_ := Nat.lt_of_lt_of_le hi hle
  simp only [Vector.index, hi, if_true, RawMemory.index, hc, Vector.begin,
    RawMemory.GetAddress]

theorem Back_returns (v : Vector) (hle : v.size_ ≤ v.Capacity) (hpos : 0 < v.size_) :
    v.Back = .ok (v.begin.add (v.size_ - 1)) := by
  have hc : v.size_ - 1 < v.data_.capacity_ := by
    have : v.size_ ≤ v.data_.capacity_ := hle
    omega
  simp only [Vector.Back, size_t_pred_pos hpos, RawMemory.index, hc, if_true, Vector.begin,
    RawMemory.GetAddress]

theorem At_no_assert (v : Vector) (i : Nat) (hle : v.size_ ≤ v.Capacity) :
    v.At i ≠ .error .assertion := by
  intro hr
  unfold Vector.At at hr
  have hc : v.size_ ≤ v.data_.capacity_ := hle
  simp only [ite_eq_error_iff, index_assert_iff] at hr
  rcases hr with ⟨_, hr⟩ | ⟨h1, h2⟩
  · cases hr
  · omega

/-- C23: no `assert` of `Vector` or `RawMemory` fails.  For every vector with
`Size() <= Capacity()`, in every heap: `operator[]` at an index below the
length and `Back()` on a non-empty vector return the slot (the index passed
to `RawMemory::operator[]` is below the capacity); `At`, `PopBack`,
`PushBack`, `EmplaceBack`, `Insert` and `Emplace` at a position from
`begin()` to `end()`, and `Erase` at a position before `end()` do not end in a
failed assertion: every offset they pass to `RawMemory::operator+` is at most
the capacity of that storage and every index they pass to
`RawMemory::operator[]` is below it, on the reallocating and on the in-place
path.  And on a vector that meets the representation invariant each of these
calls returns, so every assertion on its path was passed. -/
theorem C23_assertions (T : TypeTraits α) (h : Heap α) (v : Vector)
    (hle : v.Size ≤ v.Capacity) :
    (∀ i, i < v.Size → v.index i = .ok (v.begin.add i)) ∧
    (∀ i, v.At i ≠ .error .assertion) ∧
    (0 < v.Size → v.Back = .ok (v.begin.add (v.Size - 1))) ∧
    v.PopBack h ≠ .error .assertion ∧
    (∀ x, v.PushBack T h x ≠ .error .assertion ∧ v.EmplaceBack T h x ≠ .error .assertion) ∧
    (∀ i x, i ≤ v.Size →
      v.Insert T h (v.begin.add i) x ≠ .error .assertion ∧
      v.Emplace T h (v.begin.add i) x ≠ .error .assertion) ∧
    (∀ i, i < v.Size → v.Erase T h (v.begin.add i) ≠ .error .assertion) ∧
    (∀ s, v.Holds h s →
      (s ≠ [] → ∃ r, v.PopBack h = .ok r) ∧
      (∀ x, (∃ r, v.PushBack T h x = .ok r) ∧ ∃ r, v.EmplaceBack T h x = .ok r) ∧
      (∀ i x, i ≤ s.length →
        (∃ r, v.Insert T h (v.begin.add i) x = .ok r) ∧
        ∃ r, v.Emplace T h (v.begin.add i) x = .ok r) ∧
      (∀ i, i < s.length → ∃ r, v.Erase T h (v.begin.add i) = .ok r)) := by
  refine ⟨fun i hi => index_returns v i hle hi, fun i => At_no_assert v i hle,
    fun hpos => Back_returns v hle hpos, PopBack_no_assert h v,
    fun x => ⟨PushBack_no_assert T h v x hle, EmplaceBack_no_assert T h v x hle⟩,
    fun i x hi => ⟨Insert_no_assert T h v i x hle hi, Emplace_no_assert T h v i x hle hi⟩,
    fun i hi => Erase_no_assert T h v i hi, ?_⟩
  intro s hs
  refine ⟨fun hne => PopBack_returns hs hne, ?_, ?_, ?_⟩
  · intro x
    obtain ⟨_, _, he, _⟩ := PushBack_post T x hs
    obtain ⟨_, _, he', _⟩ := EmplaceBack_post T x hs
    exact ⟨⟨_, he⟩, ⟨_, he'⟩⟩
  · intro i x hi
    obtain ⟨_, _, he, _⟩ := Emplace_post T i x hs hi
    exact ⟨⟨_, he⟩, ⟨_, he⟩⟩
  · intro i hi
    obtain ⟨_, he, _⟩ := Erase_post T i hs hi
    exact ⟨_, he⟩

/-- C23, at an instance: the full vector `[1, 2]` (capacity 2), where
`Insert` at index 1 takes the reallocating path, and the same elements in a
block of 3 slots, where it takes the in-place path. -/
theorem C23_assertions_witness :
    (Vector.Size ⟨⟨⟨1, 0⟩, 2⟩, 2⟩ ≤ Vector.Capacity ⟨⟨⟨1, 0⟩, 2⟩, 2⟩) ∧
    Vector.Insert ⟨false, true, 0, id, fun _ x => x⟩
        (⟨[some [some 1, some 2]]⟩ : Heap Nat) ⟨⟨⟨1, 0⟩, 2⟩, 2⟩ ⟨1, 1⟩ 9
      = .ok (⟨[none, some [some 1, some 9, some 2, none]]⟩, ⟨⟨⟨2, 0⟩, 4⟩, 3⟩, ⟨2, 1⟩) ∧
    Vector.Insert ⟨false, true, 0, id, fun _ x => x⟩
        (⟨[some [some 1, some 2, none]]⟩ : Heap Nat) ⟨⟨⟨1, 0⟩, 3⟩, 2⟩ ⟨1, 1⟩ 9
      = .ok (⟨[some [some 1, some 9, some 2]]⟩, ⟨⟨⟨1, 0⟩, 3⟩, 3⟩, ⟨1, 1⟩) ∧
    (∀ i x, i ≤ Vector.Size ⟨⟨⟨1, 0⟩, 2⟩, 2⟩ →
      Vector.Insert ⟨false, true, 0, id, fun _ x => x⟩
          (⟨[some [some 1, some 2]]⟩ : Heap Nat) ⟨⟨⟨1, 0⟩, 2⟩, 2⟩
          ((Vector.begin ⟨⟨⟨1, 0⟩, 2⟩, 2⟩).add i) x ≠ .error .assertion ∧
      Vector.Emplace ⟨false, true, 0, id, fun _ x => x⟩
          (⟨[some [some 1, some 2]]⟩ : Heap Nat) ⟨⟨⟨1, 0⟩, 2⟩, 2⟩
          ((Vector.begin ⟨⟨⟨1, 0⟩, 2⟩, 2⟩).add i) x ≠ .error .assertion) :=
  ⟨by decide, rfl, rfl,
    (C23_assertions ⟨false, true, 0, id, fun _ x => x⟩
      (⟨[some [some 1, some 2]]⟩ : Heap Nat) ⟨⟨⟨1, 0⟩, 2⟩, 2⟩ (by decide)).2.2.2.2.2.1⟩

theorem adv_assign_loop_eq (self rhs : Vector) : ∀ (n i : Nat) (h : Heap α),
    n = min rhs.size_ self.size_ - i →
    advanced_vector.Vector.assign_loop self rhs i h = Vector.assign_loop self rhs n i h := by
  intro n
  induction n with
  | zero =>
    intro i h hn
    rw [advanced_vector.Vector.assign_loop, if_neg (by omega)]
    rfl
  | succ n ih =>
    intro i h hn
    rw [advanced_vector.Vector.assign_loop, if_pos (by omega)]
    simp only [Vector.assign_loop]
    have e1 : advanced_vector.RawMemory.index rhs.data_ i = rhs.data_.index i := rfl
    have e2 : advanced_vector.RawMemory.index self.data_ i = self.data_.index i := rfl
    rw [e1, e2]
    cases rhs.data_.index i with
    | error e => rfl
    | ok src =>
      simp only [bind_ok]
      cases self.data_.index i with
      | error e => rfl
      | ok dst =>
        simp only [bind_ok]
        cases std.copy_assign h dst src with
        | error e => rfl
        | ok h1 =>
          simp only [bind_ok]
          exact ih (i + 1) h1 (by omega)

theorem adv_copy_assign_eq (h : Heap α) (self : Vector) (rhs : Option Vector) :
    advanced_vector.Vector.copy_assign h self rhs = self.copy_assign h rhs := by
  cases rhs with
  | none => rfl
  | some rhs =>
    unfold advanced_vector.Vector.copy_assign Vector.copy_assign
    dsimp only
    rw [adv_assign_loop_eq self rhs (min rhs.size_ self.size_) 0 h (by omega)]
    rfl

theorem adv_variant_eq : variants.advanced_variant α = variants.include_variant α := by
  unfold variants.advanced_variant variants.include_variant
  congr
  · funext h self rhs
    exact adv_copy_assign_eq h self rhs

/-- C24: the two variants are observationally equivalent on their shared
interface.  For every element type, every program (a sequence of
constructions, assignments and calls of `Reserve`, `Resize`, `PushBack`,
`EmplaceBack`, `Insert`, `Emplace`, `Erase`, `PopBack`, `Swap`) and every
starting state, running the program with the member functions of
`src/advanced-vector/vector.h` gives the result that running it with those of
`src/include/vector.h` gives; and in every state the program ends in, every
vector reports the same `Size()`, the same `Capacity()` and the same element
at every index through either variant. -/
theorem C24_variants_equivalent (T : TypeTraits α) (cs : List (variants.Call α))
    (st : Heap α × List Vector) :
    variants.Call.runs (variants.advanced_variant α) T cs st
      = variants.Call.runs (variants.include_variant α) T cs st ∧
    (∀ st', variants.Call.runs (variants.advanced_variant α) T cs st = .ok st' →
      variants.Call.runs (variants.include_variant α) T cs st = .ok st' ∧
      variants.reports (variants.advanced_variant α) st'
        = variants.reports (variants.include_variant α) st' ∧
      ∀ v, v ∈ st'.2 →
        advanced_vector.Vector.Size v = v.Size ∧
        advanced_vector.Vector.Capacity v = v.Capacity ∧
        ∀ i, (do let p ← advanced_vector.Vector.index v i; st'.1.read p)
          = (do let p ← v.index i; st'.1.read p)) := by
  have he : variants.Call.runs (variants.advanced_variant α) T cs st
      = variants.Call.runs (variants.include_variant α) T cs st := by
    rw [adv_variant_eq]
  refine ⟨he, ?_⟩
  intro st' hrun
  refine ⟨by rw [← he]; exact hrun, by rw [adv_variant_eq], ?_⟩
  intro v _
  exact ⟨rfl, rfl, fun _ => rfl⟩

/-- C24, at a program that uses every construction, both assignments and the
mutating members from the empty heap: the result of the run with the
single-file variant, which is also the result with the other variant, and
what its four vectors report. -/
theorem C24_variants_equivalent_witness :
    variants.Call.runs (variants.advanced_variant Nat) ⟨false, true, 0, id, fun _ x => x⟩
        [.default_ctor, .PushBack 0 1, .PushBack 0 2, .PushBack 0 3, .Insert 0 1 9,
          .Erase 0 0, .copy_ctor 0, .Resize 1 2, .Swap 0 1, .size_ctor 1, .copy_assign 2 1,
          .move_ctor 2, .Reserve 3 8, .EmplaceBack 3 5, .Emplace 3 0 4, .move_assign 2 0]
        (⟨[]⟩, [])
      = .ok (⟨[none, none, some [some 9, some 2, some 3, none], some [some 9, some 2, none],
            none, none, some [some 4, some 9, some 2, some 3, some 5, none, none, none]]⟩,
          [⟨⟨⟨0, 0⟩, 0⟩, 0⟩, ⟨⟨⟨3, 0⟩, 4⟩, 3⟩, ⟨⟨⟨4, 0⟩, 3⟩, 2⟩, ⟨⟨⟨7, 0⟩, 8⟩, 5⟩]) ∧
    variants.reports (variants.include_variant Nat)
        (⟨[none, none, some [some 9, some 2, some 3, none], some [some 9, some 2, none],
            none, none, some [some 4, some 9, some 2, some 3, some 5, none, none, none]]⟩,
          [⟨⟨⟨0, 0⟩, 0⟩, 0⟩, ⟨⟨⟨3, 0⟩, 4⟩, 3⟩, ⟨⟨⟨4, 0⟩, 3⟩, 2⟩, ⟨⟨⟨7, 0⟩, 8⟩, 5⟩])
      = [(0, 0, []), (3, 4, [.ok 9, .ok 2, .ok 3]), (2, 3, [.ok 9, .ok 2]),
          (5, 8, [.ok 4, .ok 9, .ok 2, .ok 3, .ok 5])] ∧
    variants.Call.runs (variants.include_variant Nat) ⟨false, true, 0, id, fun _ x => x⟩
        [.default_ctor, .PushBack 0 1, .PushBack 0 2, .PushBack 0 3, .Insert 0 1 9,
          .Erase 0 0, .copy_ctor 0, .Resize 1 2, .Swap 0 1, .size_ctor 1, .copy_assign 2 1,
          .move_ctor 2, .Reserve 3 8, .EmplaceBack 3 5, .Emplace 3 0 4, .move_assign 2 0]
        (⟨[]⟩, [])
      = .ok (⟨[none, none, some [some 9, some 2, some 3, none], some [some 9, some 2, none],
            none, none, some [some 4, some 9, some 2, some 3, some 5, none, none, none]]⟩,
          [⟨⟨⟨0, 0⟩, 0⟩, 0⟩, ⟨⟨⟨3, 0⟩, 4⟩, 3⟩, ⟨⟨⟨4, 0⟩, 3⟩, 2⟩, ⟨⟨⟨7, 0⟩, 8⟩, 5⟩]) :=
  have hrun : variants.Call.runs (variants.advanced_variant Nat)
      ⟨false, true, 0, id, fun _ x => x⟩
      [.default_ctor, .PushBack 0 1, .PushBack 0 2, .PushBack 0 3, .Insert 0 1 9,
        .Erase 0 0, .copy_ctor 0, .Resize 1 2, .Swap 0 1, .size_ctor 1, .copy_assign 2 1,
        .move_ctor 2, .Reserve 3 8, .EmplaceBack 3 5, .Emplace 3 0 4, .move_assign 2 0]
      (⟨[]⟩, [])
    = .ok (⟨[none, none, some [some 9, some 2, some 3, none], some [some 9, some 2, none],
          none, none, some [some 4, some 9, some 2, some 3, some 5, none, none, none]]⟩,
        [⟨⟨⟨0, 0⟩, 0⟩, 0⟩, ⟨⟨⟨3, 0⟩, 4⟩, 3⟩, ⟨⟨⟨4, 0⟩, 3⟩, 2⟩, ⟨⟨⟨7, 0⟩, 8⟩, 5⟩]) := rfl
  ⟨hrun, rfl, ((C24_variants_equivalent _ _ _).2 _ hrun).1⟩

end vector
